import Mathlib

/-!
Verification development for the teacher/class reconciliation engine of
`santillana_format/profesores_clases.py`.

The Python module is shallowly embedded below.  Spreadsheet loading
(`_load_docentes`) and the HTTP transport are external collaborators: the
engine is embedded from the point where it holds the parsed `docentes`
records, and every remote endpoint is modelled as part of an explicit
`Remote` state together with a `Failures` oracle that injects the
failure outcome of each call (a `none` entry means the call succeeds).
Unicode handling (`unicodedata` NFD plus combining-mark stripping and
`\d` in regexes) is modelled on the ASCII/Latin-1 fragment, which is the
fragment the vocabulary tables of the module live in.
-/

set_option maxHeartbeats 1000000

namespace Santillana

/-- Association-list lookup, first occurrence wins (Python `dict` lookup). -/
def alookup {α β : Type} [DecidableEq α] : List (α × β) → α → Option β
  | [], _ => none
  | (k, v) :: rest, a => if k = a then some v else alookup rest a

/-- Association-list assignment: update the existing entry in place, else
append at the end.  This reproduces Python `d[k] = v` together with
insertion-ordered iteration. -/
def aset {α β : Type} [DecidableEq α] : List (α × β) → α → β → List (α × β)
  | [], a, b => [(a, b)]
  | (k, v) :: rest, a, b => if k = a then (a, b) :: rest else (k, v) :: aset rest a b

/-- Add an element to a list acting as a Python `set` (no-op when present,
appended at the end otherwise). -/
def insertEnd {α : Type} [DecidableEq α] (l : List α) (x : α) : List α :=
  if x ∈ l then l else l ++ [x]

/-- Python `d.setdefault(k, set()).add(x)` on a dict of sets. -/
def aadd {α : Type} [DecidableEq α] : List (α × List Nat) → α → Nat → List (α × List Nat)
  | [], k, x => [(k, [x])]
  | (k, v) :: rest, a, x =>
      if k = a then (a, insertEnd v x) :: rest else (k, v) :: aadd rest a x

/-- Keys of an association list. -/
def akeys {α β : Type} (m : List (α × β)) : List α := m.map (·.1)

/-- ASCII alphanumeric test, the `[^a-zA-Z0-9]` class of the module's regexes. -/
def isAsciiAlnum (c : Char) : Bool :=
  (('a' ≤ c ∧ c ≤ 'z') ∨ ('A' ≤ c ∧ c ≤ 'Z') ∨ ('0' ≤ c ∧ c ≤ '9'))

/-- Diacritic stripping: models `unicodedata.normalize("NFD", ...)` followed by
dropping combining marks, on the Latin-1 letters used by the input vocabulary. -/
def stripDiacritic (c : Char) : Char :=
  match c with
  | 'á' => 'a' | 'é' => 'e' | 'í' => 'i' | 'ó' => 'o' | 'ú' => 'u'
  | 'Á' => 'A' | 'É' => 'E' | 'Í' => 'I' | 'Ó' => 'O' | 'Ú' => 'U'
  | 'ü' => 'u' | 'Ü' => 'U' | 'ñ' => 'n' | 'Ñ' => 'N'
  | _ => c

/-- Split a character list into maximal runs of ASCII-alphanumeric characters
(the pieces separated by `[^a-zA-Z0-9]+`). -/
def alnumWords : List Char → List Char → List (List Char)
  | [], acc => if acc = [] then [] else [acc.reverse]
  | c :: rest, acc =>
      if isAsciiAlnum c then alnumWords rest (c :: acc)
      else if acc = [] then alnumWords rest [] else acc.reverse :: alnumWords rest []

/-- Python `str.strip()` on a character list. -/
def trimChars (l : List Char) : List Char :=
  ((l.dropWhile Char.isWhitespace).reverse.dropWhile Char.isWhitespace).reverse

/-- Python `str.split()` (split on whitespace runs, no empty chunks) on a
character list. -/
def wsWords : List Char → List Char → List (List Char)
  | [], acc => if acc = [] then [] else [acc.reverse]
  | c :: rest, acc =>
      if c.isWhitespace then
        if acc = [] then wsWords rest [] else acc.reverse :: wsWords rest []
      else wsWords rest (c :: acc)

/-- Glue words back together with single spaces (the effect of replacing each
non-alphanumeric run by one space and trimming). -/
def joinSpace : List (List Char) → List Char
  | [] => []
  | [w] => w
  | w :: ws => w ++ ' ' :: joinSpace ws

/-- Embedding of `_normalize_course_text`: strip diacritics, collapse
non-alphanumeric runs to single spaces, trim, uppercase. -/
def normalize_course_text (s : String) : String :=
  String.mk ((joinSpace (alnumWords (s.toList.map stripDiacritic) [])).map Char.toUpper)

/-- Embedding of `_normalize_value`: trim, strip diacritics, uppercase. -/
def normalize_value (s : String) : String :=
  String.mk (((trimChars s.toList).map stripDiacritic).map Char.toUpper)

/-- The module-level `TRUTHY_VALUES` table. -/
def TRUTHY_VALUES : List String := ["SI", "S", "1", "X", "TRUE", "VERDADERO", "YES"]

/-- Embedding of `_is_truthy` on spreadsheet cells.  The loader reads every
sheet with `dtype=str` and `fillna("")`, so cells are strings. -/
def is_truthy (value : String) : Bool :=
  normalize_value value ∈ TRUTHY_VALUES

/-- The module-level `GRADE_COLUMNS` table, in source (insertion) order. -/
def GRADE_COLUMNS : List (String × Char × Nat) :=
  [("I3", 'I', 3), ("I4", 'I', 4), ("I5", 'I', 5),
   ("P1", 'P', 1), ("P2", 'P', 2), ("P3", 'P', 3),
   ("P4", 'P', 4), ("P5", 'P', 5), ("P6", 'P', 6),
   ("S1", 'S', 1), ("S2", 'S', 2), ("S3", 'S', 3),
   ("S4", 'S', 4), ("S5", 'S', 5)]

/-- The module-level `LEVEL_GENERAL_COLUMNS` paired with `LEVEL_LETTERS`. -/
def LEVEL_COLUMNS : List (String × Char) :=
  [("Inicial", 'I'), ("Primaria", 'P'), ("Secundaria", 'S')]

/-- The module-level `LEVEL_ID_BY_LETTER` table. -/
def LEVEL_ID_BY_LETTER (c : Char) : Option Nat :=
  if c = 'I' then some 38 else if c = 'P' then some 39 else if c = 'S' then some 40 else none

/-- The module-level `ALL_GRADES_BY_LEVEL` table. -/
def ALL_GRADES_BY_LEVEL (c : Char) : List Nat :=
  if c = 'I' then [1, 2, 3, 4, 5]
  else if c = 'P' then [1, 2, 3, 4, 5, 6]
  else if c = 'S' then [1, 2, 3, 4, 5]
  else []

/-- Embedding of `_extract_desired_levels`.  `present col` states whether the
spreadsheet has column `col`; the source computes `grade_cols_present` and
`level_cols_present` by filtering the module tables on presence.  Returns the
`desired_by_level` map and the `grade_specific` flag. -/
def extract_desired_levels (row : String → String) (present : String → Bool) :
    List (Char × List Nat) × Bool :=
  let gradeCols := GRADE_COLUMNS.filter (fun t => present t.1)
  let levelCols := LEVEL_COLUMNS.filter (fun t => present t.1)
  let step1 := gradeCols.foldl
    (fun (acc : List (Char × List Nat) × Bool) t =>
      if is_truthy (row t.1) then (aadd acc.1 t.2.1 t.2.2, true) else acc)
    ([], false)
  if step1.2 then step1
  else
    (levelCols.foldl
      (fun (acc : List (Char × List Nat)) t =>
        if is_truthy (row t.1) then aset acc t.2 (ALL_GRADES_BY_LEVEL t.2) else acc)
      step1.1, false)

/-- Digit table for the `\d` character class (ASCII fragment) of the suffix
grammar together with `int(...)` conversion. -/
def digitVal (c : Char) : Option Nat :=
  match c with
  | '0' => some 0 | '1' => some 1 | '2' => some 2 | '3' => some (3 : Nat)
  | '4' => some 4 | '5' => some 5 | '6' => some 6 | '7' => some (7 : Nat)
  | '8' => some 8 | '9' => some 9
  | _ => none

/-- The `[IPS]` character class. -/
def isIPS (c : Char) : Bool := c = 'I' ∨ c = 'P' ∨ c = 'S'

/-- The `[A-Z]` character class (the token was uppercased before matching). -/
def isUpperLetter (c : Char) : Bool := 'A' ≤ c ∧ c ≤ 'Z'

/-- Matcher for the anchored pattern `^(\d{1,2})([IPS])([A-Z])$` on the cleaned
token, returning `(grade, level, section)`. -/
def matchGradeLevelSection : List Char → Option (Nat × Char × Char)
  | [d, l, s] =>
      match digitVal d with
      | some g => if isIPS l && isUpperLetter s then some (g, l, s) else none
      | none => none
  | [d1, d2, l, s] =>
      match digitVal d1, digitVal d2 with
      | some g1, some g2 =>
          if isIPS l && isUpperLetter s then some (10 * g1 + g2, l, s) else none
      | _, _ => none
  | _ => none

/-- Matcher for the anchored pattern `^([IPS])(\d{1,2})([A-Z])$` on the cleaned
token, returning `(grade, level, section)`. -/
def matchLevelGradeSection : List Char → Option (Nat × Char × Char)
  | [l, d, s] =>
      match digitVal d with
      | some g => if isIPS l && isUpperLetter s then some (g, l, s) else none
      | none => none
  | [l, d1, d2, s] =>
      match digitVal d1, digitVal d2 with
      | some g1, some g2 =>
          if isIPS l && isUpperLetter s then some (10 * g1 + g2, l, s) else none
      | _, _ => none
  | _ => none

/-- The trailing token of a class name as `_parse_class_suffix` prepares it:
last whitespace-separated chunk, non-alphanumerics stripped, uppercased. -/
def trailingToken (name : String) : List Char :=
  let chunks := wsWords name.toList []
  let token := (chunks.getLast?).getD []
  (token.filter isAsciiAlnum).map Char.toUpper

/-- Embedding of `_parse_class_suffix`: try `^(\d{1,2})([IPS])([A-Z])$` first,
then `^([IPS])(\d{1,2})([A-Z])$`. -/
def parse_class_suffix (name : String) : Option (Nat × Char × Char) :=
  let token := trailingToken name
  if token = [] then none
  else
    match matchGradeLevelSection token with
    | some r => some r
    | none => matchLevelGradeSection token

/-- Decimal rendering of a grade below 100 as characters, used to state the
`<grade><level><section>` round-trip property. -/
def renderSuffix (g : Nat) (l s : Char) : List Char :=
  (if g < 10 then [Nat.digitChar g] else [Nat.digitChar (g / 10), Nat.digitChar (g % 10)]) ++ [l, s]

/-- Catalog entry produced by `_fetch_clases` for a class whose display name
parses: `base_norm` is the normalized display name with the trailing section
token stripped. -/
structure Clase where
  id : Nat
  name : String
  baseNorm : String
  grade : Nat
  level : Char
  seccion : Char
deriving DecidableEq, Repr

/-- Desired-assignment record produced by `_load_docentes` for one course token
of one spreadsheet row. -/
structure Docente where
  row : Nat
  personaId : Nat
  curso : String
  cursoNorm : String
  desiredByLevel : List (Char × List Nat)
  gradeSpecific : Bool
  sectionFilter : List (Char × Nat × Char)
  estado : Option Bool
deriving DecidableEq, Repr

/-- Embedding of `_match_clases`. -/
def match_clases (docente : Docente) (clases : List Clase) : List Clase :=
  if docente.cursoNorm = "" then []
  else
    clases.filter (fun clase =>
      decide (clase.baseNorm = docente.cursoNorm) &&
      (match alookup docente.desiredByLevel clase.level with
       | none => false
       | some grades =>
           (!docente.gradeSpecific || decide (clase.grade ∈ grades)) &&
           (decide (docente.sectionFilter = []) ||
             decide ((clase.level, clase.grade, clase.seccion) ∈ docente.sectionFilter))))

/-- One iteration of the `_collect_estado` loop.  Input pairs mirror the
`(docente.get("persona_id"), docente.get("estado"))` accesses of the source. -/
def collectEstadoStep (acc : List (Nat × Bool) × List String)
    (d : Option Nat × Option Bool) : List (Nat × Bool) × List String :=
  match d.1, d.2 with
  | some personaId, some estado =>
      match alookup acc.1 personaId with
      | some prev =>
          if prev ≠ estado then
            (acc.1, acc.2 ++
              ["persona " ++ toString personaId ++
               " con Estado conflictivo en el Excel; se usa el primero."])
          else (aset acc.1 personaId estado, acc.2)
      | none => (aset acc.1 personaId estado, acc.2)
  | _, _ => acc

/-- Embedding of `_collect_estado`. -/
def collect_estado (docentes : List (Option Nat × Option Bool)) :
    List (Nat × Bool) × List String :=
  docentes.foldl collectEstadoStep ([], [])

/-- Embedding of `_collect_niveles_por_persona`. -/
def collect_niveles_por_persona (docentes : List Docente) : List (Nat × List Nat) :=
  docentes.foldl
    (fun (acc : List (Nat × List Nat)) d =>
      d.desiredByLevel.foldl
        (fun acc2 lv =>
          match LEVEL_ID_BY_LETTER lv.1 with
          | none => acc2
          | some nivelId => aadd acc2 d.personaId nivelId)
        acc)
    []

/-- The action counters of the summary dict built by `asignar_profesores_clases`
(the `listado_compacto` entry is only produced under `collect_compact`, which is
fixed to `False` here). -/
structure Summary where
  docentes_procesados : Nat := 0
  docentes_invalidos : Nat := 0
  docentes_sin_match : Nat := 0
  clases_encontradas : Nat := 0
  asignaciones_nuevas : Nat := 0
  asignaciones_omitidas : Nat := 0
  eliminaciones : Nat := 0
  estado_activaciones : Nat := 0
  estado_inactivaciones : Nat := 0
  estado_omitidas : Nat := 0
  niveles_asignados : Nat := 0
  niveles_omitidos : Nat := 0
  errores_api : Nat := 0
deriving DecidableEq, Repr

/-- Per-action error record (the human-readable `clase` name the source stores
alongside is presentation-only and omitted; absent ids, recorded as `""` in the
source dicts, are `none`). -/
structure ApiError where
  tipo : String
  personaId : Option Nat
  claseId : Option Nat
  nivelId : Option Nat
  error : String
deriving DecidableEq, Repr

/-- State of the remote service as observed/mutated through its endpoints:
the class catalog endpoint (already decoded into parsed `Clase` records plus
the ignored-suffix count, or the fatal error `_fetch_clases` raises), the
per-class staff rosters, and the per-level activation rosters (`none` means
the persona is not on the level roster). -/
structure Remote where
  clases : Except String (List Clase × Nat)
  staff : Nat → List Nat
  activos : Nat → Nat → Option Bool

/-- Failure injection for the non-fatal remote calls; a `none` entry means the
call succeeds, `some msg` makes it fail with message `msg`. -/
structure Failures where
  staffList : Nat → Option String
  nivelRoster : Nat → Option String
  asignarNivel : Nat → Option String
  activar : Nat → Nat → Option String
  asignarProf : Nat → Nat → Option String
  eliminarProf : Nat → Nat → Option String

/-- The all-successful failure oracle. -/
def noFailures : Failures :=
  ⟨fun _ => none, fun _ => none, fun _ => none, fun _ _ => none,
   fun _ _ => none, fun _ _ => none⟩

/-- Mutable state threaded through one reconciliation run: the summary dict,
warning and error lists, the run-scoped caches and plan dicts, and the remote
state. -/
structure RunState where
  summary : Summary
  warnings : List String
  errors : List ApiError
  staff_cache : List (Nat × List Nat)
  planned_by_class : List (Nat × List Nat)
  desired_by_class : List (Nat × List Nat)
  remote : Remote

/-- Embedding of `_fetch_staff` (lines 1202-1272): role-filtered staff roster of
one class, decoded into the set of persona ids. -/
def fetch_staff (r : Remote) (f : Failures) (claseId : Nat) : Except String (List Nat) :=
  match f.staffList claseId with
  | some err => .error err
  | none => .ok (r.staff claseId).dedup

/-- One iteration of the level-sync loop (lines 150-202) for one
`(persona_id, niveles)` entry of `niveles_by_persona`. -/
def nivelesStep (f : Failures) (dry_run : Bool) (st : RunState) (e : Nat × List Nat) :
    RunState :=
  if e.2 = [] then
    { st with
      warnings := st.warnings ++
        ["persona " ++ toString e.1 ++ " sin niveles en Excel; no se asigna."],
      summary := { st.summary with niveles_omitidos := st.summary.niveles_omitidos + 1 } }
  else if dry_run then
    { st with summary :=
        { st.summary with niveles_asignados := st.summary.niveles_asignados + 1 } }
  else
    match f.asignarNivel e.1 with
    | some err =>
        { st with
          errors := st.errors ++ [⟨"asignar_nivel", some e.1, none, none, err⟩],
          summary := { st.summary with errores_api := st.summary.errores_api + 1 } }
    | none =>
        { st with summary :=
            { st.summary with niveles_asignados := st.summary.niveles_asignados + 1 } }

/-- The level-sync phase (fold of `nivelesStep` over `niveles_by_persona`). -/
def nivelesPhase (f : Failures) (dry_run : Bool) (nivelesByPersona : List (Nat × List Nat))
    (st : RunState) : RunState :=
  nivelesByPersona.foldl (nivelesStep f dry_run) st

/-- One iteration of `_fetch_activos_por_nivel` (lines 1345-1390): on success
the level's roster view is recorded, on failure a typed error is collected. -/
def fetchActivosStep (r : Remote) (f : Failures)
    (acc : List (Nat × (Nat → Option Bool)) × List ApiError) (nivelId : Nat) :
    List (Nat × (Nat → Option Bool)) × List ApiError :=
  match f.nivelRoster nivelId with
  | some err =>
      (acc.1, acc.2 ++ [⟨"listar_profesores_nivel", none, none, some nivelId, err⟩])
  | none => (acc.1 ++ [(nivelId, r.activos nivelId)], acc.2)

/-- Embedding of `_fetch_activos_por_nivel`. -/
def fetch_activos_por_nivel (r : Remote) (f : Failures) (nivelIds : List Nat) :
    List (Nat × (Nat → Option Bool)) × List ApiError :=
  nivelIds.foldl (fetchActivosStep r f) ([], [])

/-- Lookup in the fetched activation views: `activos_por_nivel.get(nivel_id,
{}).get(persona_id)`. -/
def lookupActivos (apn : List (Nat × (Nat → Option Bool))) (nivelId personaId : Nat) :
    Option Bool :=
  match alookup apn nivelId with
  | none => none
  | some m => m personaId

/-- A queued estado change `(persona_id, nivel_id, desired_active,
current_active)`. -/
abbrev Change := Nat × Nat × Bool × Option Bool

/-- One iteration of the estado planning loop (lines 224-239) for one
`(persona_id, desired_active)` entry of `estado_by_persona`. -/
def estadoPlanStep (apn : List (Nat × (Nat → Option Bool)))
    (estadoNivelesByPersona : List (Nat × List Nat))
    (acc : RunState × List Change) (e : Nat × Bool) : RunState × List Change :=
  let levelIds := (alookup estadoNivelesByPersona e.1).getD []
  if levelIds = [] then
    ({ acc.1 with
       warnings := acc.1.warnings ++
         ["persona " ++ toString e.1 ++
          " con Estado en Excel pero sin niveles/grados marcados."],
       summary := { acc.1.summary with
                    estado_omitidas := acc.1.summary.estado_omitidas + 1 } },
     acc.2)
  else
    (List.insertionSort (· ≤ ·) levelIds).foldl
      (fun (acc2 : RunState × List Change) nivelId =>
        let current := lookupActivos apn nivelId e.1
        if current ≠ none ∧ current = some e.2 then
          ({ acc2.1 with
             summary := { acc2.1.summary with
                          estado_omitidas := acc2.1.summary.estado_omitidas + 1 } },
           acc2.2)
        else (acc2.1, acc2.2 ++ [(e.1, nivelId, e.2, current)]))
      acc

/-- One iteration of the estado execution loop (lines 246-304) for one queued
change. -/
def estadoExecStep (f : Failures) (dry_run : Bool) (st : RunState) (ch : Change) :
    RunState :=
  if dry_run then
    { st with summary :=
        if ch.2.2.1 then
          { st.summary with estado_activaciones := st.summary.estado_activaciones + 1 }
        else
          { st.summary with estado_inactivaciones := st.summary.estado_inactivaciones + 1 } }
  else
    match f.activar ch.1 ch.2.1 with
    | some err =>
        { st with
          errors := st.errors ++
            [⟨"activar_inactivar", some ch.1, none, some ch.2.1, err⟩],
          summary := { st.summary with errores_api := st.summary.errores_api + 1 } }
    | none =>
        { st with
          summary :=
            if ch.2.2.1 then
              { st.summary with estado_activaciones := st.summary.estado_activaciones + 1 }
            else
              { st.summary with
                estado_inactivaciones := st.summary.estado_inactivaciones + 1 },
          remote := { st.remote with
                      activos := fun n p =>
                        if n = ch.2.1 ∧ p = ch.1 then some ch.2.2.1
                        else st.remote.activos n p } }

/-- The estado phase (lines 205-304): fetch the needed level rosters, plan the
changes, then execute them. -/
def estadoPhase (f : Failures) (dry_run : Bool) (estadoByPersona : List (Nat × Bool))
    (estadoNivelesByPersona : List (Nat × List Nat)) (st : RunState) : RunState :=
  let nivelIdsNeeded :=
    List.insertionSort (· ≤ ·) ((estadoNivelesByPersona.map (·.2)).flatten.dedup)
  let fetched := fetch_activos_por_nivel st.remote f nivelIdsNeeded
  let st :=
    { st with
      errors := st.errors ++ fetched.2,
      summary := { st.summary with
                   errores_api := st.summary.errores_api + fetched.2.length } }
  let planned := estadoByPersona.foldl
    (estadoPlanStep fetched.1 estadoNivelesByPersona) (st, [])
  planned.2.foldl (estadoExecStep f dry_run) planned.1

/-- Lines 445-505: the roster-membership check and add action for a single
`(persona, clase)` assignment once the staff roster is at hand. -/
def asignarClaseCore (f : Failures) (dry_run : Bool) (personaId claseId : Nat)
    (st : RunState) (staff : List Nat) : RunState :=
  let st :=
    if alookup st.planned_by_class claseId = none then
      { st with planned_by_class := st.planned_by_class ++ [(claseId, [])] }
    else st
  let planned := (alookup st.planned_by_class claseId).getD []
  if personaId ∈ staff ∨ personaId ∈ planned then
    { st with summary :=
        { st.summary with asignaciones_omitidas := st.summary.asignaciones_omitidas + 1 } }
  else if dry_run then
    { st with
      planned_by_class := aadd st.planned_by_class claseId personaId,
      summary :=
        { st.summary with asignaciones_nuevas := st.summary.asignaciones_nuevas + 1 } }
  else
    match f.asignarProf personaId claseId with
    | some err =>
        { st with
          errors := st.errors ++
            [⟨"asignar_profesor", some personaId, some claseId, none, err⟩],
          summary := { st.summary with errores_api := st.summary.errores_api + 1 } }
    | none =>
        { st with
          staff_cache := aadd st.staff_cache claseId personaId,
          remote := { st.remote with
                      staff := fun c =>
                        if c = claseId then insertEnd (st.remote.staff c) personaId
                        else st.remote.staff c },
          summary :=
            { st.summary with asignaciones_nuevas := st.summary.asignaciones_nuevas + 1 } }

/-- Lines 406-505: one match of the per-docente assignment loop, including the
run-scoped staff-cache fill. -/
def asignarClase (f : Failures) (dry_run : Bool) (personaId : Nat) (st : RunState)
    (claseId : Nat) : RunState :=
  match alookup st.staff_cache claseId with
  | some staff => asignarClaseCore f dry_run personaId claseId st staff
  | none =>
      match fetch_staff st.remote f claseId with
      | .error err =>
          { st with
            errors := st.errors ++
              [⟨"listar_staff", some personaId, some claseId, none, err⟩],
            summary := { st.summary with errores_api := st.summary.errores_api + 1 } }
      | .ok staff =>
          asignarClaseCore f dry_run personaId claseId
            { st with staff_cache := st.staff_cache ++ [(claseId, staff)] } staff

/-- Lines 376-505: the whole per-docente block of the class-assignment phase. -/
def asignarDocente (f : Failures) (dry_run : Bool) (st : RunState)
    (dm : Docente × List Clase) : RunState :=
  let st := { st with summary :=
      { st.summary with docentes_procesados := st.summary.docentes_procesados + 1 } }
  if dm.1.desiredByLevel = [] then
    { st with summary :=
        { st.summary with docentes_sin_match := st.summary.docentes_sin_match + 1 } }
  else
    let st := { st with summary :=
        { st.summary with
          clases_encontradas := st.summary.clases_encontradas + dm.2.length } }
    if dm.2 = [] then
      { st with summary :=
          { st.summary with docentes_sin_match := st.summary.docentes_sin_match + 1 } }
    else
      let st := dm.2.foldl
        (fun s c => { s with
            desired_by_class := aadd s.desired_by_class c.id dm.1.personaId })
        st
      dm.2.foldl (fun s c => asignarClase f dry_run dm.1.personaId s c.id) st

/-- The class-assignment phase: fold of `asignarDocente` over the
`docente_matches` pairs. -/
def clasesPhase (f : Failures) (dry_run : Bool)
    (docenteMatches : List (Docente × List Clase)) (st : RunState) : RunState :=
  docenteMatches.foldl (asignarDocente f dry_run) st

/-- Lines 511-542: gather the pending removals for one `desired_by_class`
entry (fetching the roster if this class was never cached). -/
def eliminarGatherStep (f : Failures) (acc : RunState × List (Nat × Nat))
    (e : Nat × List Nat) : RunState × List (Nat × Nat) :=
  match alookup acc.1.staff_cache e.1 with
  | some staff =>
      (acc.1, acc.2 ++
        ((List.insertionSort (· ≤ ·) (staff.filter (fun p => p ∉ e.2))).map
          (fun p => (e.1, p))))
  | none =>
      match fetch_staff acc.1.remote f e.1 with
      | .error err =>
          ({ acc.1 with
             errors := acc.1.errors ++ [⟨"listar_staff", none, some e.1, none, err⟩],
             summary := { acc.1.summary with
                          errores_api := acc.1.summary.errores_api + 1 } },
           acc.2)
      | .ok staff =>
          ({ acc.1 with staff_cache := acc.1.staff_cache ++ [(e.1, staff)] },
           acc.2 ++
             ((List.insertionSort (· ≤ ·) (staff.filter (fun p => p ∉ e.2))).map
               (fun p => (e.1, p))))

/-- Lines 545-590: one pending removal.  In the source the whole body sits
under `if on_progress:` (lines 554-590 are indented inside the callback
check), so nothing at all happens when no progress callback was supplied;
this is embedded faithfully. -/
def eliminarExecStep (f : Failures) (dry_run onProgress : Bool) (st : RunState)
    (e : Nat × Nat) : RunState :=
  if onProgress then
    if dry_run then
      { st with summary :=
          { st.summary with eliminaciones := st.summary.eliminaciones + 1 } }
    else
      match f.eliminarProf e.2 e.1 with
      | some err =>
          { st with
            errors := st.errors ++
              [⟨"eliminar_profesor", some e.2, some e.1, none, err⟩],
            summary := { st.summary with errores_api := st.summary.errores_api + 1 } }
      | none =>
          { st with
            summary :=
              { st.summary with eliminaciones := st.summary.eliminaciones + 1 },
            remote := { st.remote with
                        staff := fun c =>
                          if c = e.1 then (st.remote.staff c).filter (fun p => p ≠ e.2)
                          else st.remote.staff c } }
  else st

/-- Lines 507-590: the removal phase. -/
def eliminarPhase (f : Failures) (dry_run onProgress : Bool) (st : RunState) :
    RunState :=
  let gathered := st.desired_by_class.foldl (eliminarGatherStep f) (st, [])
  gathered.2.foldl (eliminarExecStep f dry_run onProgress) gathered.1

/-- Ordering used to sort the fetched catalog (line 319:
`sorted(clases, key=lambda c: (c.get("name", ""), c.get("id", 0)))`). -/
def claseLe (a b : Clase) : Prop :=
  a.name.data < b.name.data ∨ (a.name = b.name ∧ a.id ≤ b.id)

instance : DecidableRel claseLe := fun a b => by
  unfold claseLe; infer_instance

/-- Lines 85-307: the initial state plus the level-sync and estado phases,
which run before the catalog fetch. -/
def preClasesState (docentes docentesEstado : List Docente) (invalidos : Nat)
    (remote : Remote) (f : Failures) (dry_run : Bool) : RunState :=
  let nivelesByPersona := collect_niveles_por_persona docentes
  let estadoCollected :=
    collect_estado (docentesEstado.map (fun d => (some d.personaId, d.estado)))
  let estadoNivelesByPersona := collect_niveles_por_persona docentesEstado
  let st0 : RunState :=
    { summary := { docentes_invalidos := invalidos },
      warnings := estadoCollected.2,
      errors := [],
      staff_cache := [],
      planned_by_class := [],
      desired_by_class := [],
      remote := remote }
  let st1 :=
    if nivelesByPersona = [] then st0 else nivelesPhase f dry_run nivelesByPersona st0
  if estadoCollected.1 = [] then st1
  else estadoPhase f dry_run estadoCollected.1 estadoNivelesByPersona st1

/-- Lines 319-590: everything after a successful catalog fetch — sort the
catalog, record the ignored-suffix warning, run the class-assignment phase and
(when enabled) the removal phase. -/
def clasesAndRemoval (docentes : List Docente) (f : Failures)
    (dry_run remove_missing onProgress : Bool) (clasesFetched : List Clase × Nat)
    (st2 : RunState) : RunState :=
  let clases := List.insertionSort claseLe clasesFetched.1
  let st2 :=
    if clasesFetched.2 ≠ 0 then
      { st2 with warnings := st2.warnings ++
          ["Clases ignoradas por sufijo no reconocido: " ++
           toString clasesFetched.2 ++ "."] }
    else st2
  let docenteMatches := docentes.map (fun d => (d, match_clases d clases))
  let st3 := clasesPhase f dry_run docenteMatches st2
  if remove_missing ∧ st3.desired_by_class ≠ [] then
    eliminarPhase f dry_run onProgress st3
  else st3

/-- Embedding of `asignar_profesores_clases` (lines 63-595) from the point
where the spreadsheet has been parsed.  `docentes` is the main sheet's parsed
rows, `docentesEstado` the `Profesores` sheet's, `invalidos` the loader's
invalid-row count.  Fixed configuration: `do_niveles = do_estado = do_clases =
True`, `list_estado_only = collect_compact = False`; `on_log` and
`on_estado_change` never influence the run state and are dropped; `onProgress`
records whether an `on_progress` callback was supplied.  Returns the summary,
warnings, errors and final remote state, or the fatal catalog-fetch error. -/
def asignar_profesores_clases (docentes docentesEstado : List Docente) (invalidos : Nat)
    (remote : Remote) (f : Failures) (dry_run remove_missing onProgress : Bool) :
    Except String (Summary × List String × List ApiError × Remote) :=
  let st2 := preClasesState docentes docentesEstado invalidos remote f dry_run
  match st2.remote.clases with
  | .error msg => .error msg
  | .ok clasesFetched =>
      let st4 :=
        clasesAndRemoval docentes f dry_run remove_missing onProgress clasesFetched st2
      let st5 :=
        if st4.summary.docentes_procesados = 0 then
          { st4 with warnings := st4.warnings ++
              ["No se encontraron docentes validos en el Excel."] }
        else st4
      .ok (st5.summary, st5.warnings, st5.errors, st5.remote)

/-- The summary of a finished run (`none` when the run raised). -/
def runSummary (r : Except String (Summary × List String × List ApiError × Remote)) :
    Option Summary :=
  match r with
  | .ok x => some x.1
  | .error _ => none

/-- The error list of a finished run. -/
def runErrors (r : Except String (Summary × List String × List ApiError × Remote)) :
    Option (List ApiError) :=
  match r with
  | .ok x => some x.2.2.1
  | .error _ => none

/-- The remote state left behind by a finished run (`dflt` when the run
raised). -/
def runRemote (r : Except String (Summary × List String × List ApiError × Remote))
    (dflt : Remote) : Remote :=
  match r with
  | .ok x => x.2.2.2
  | .error _ => dflt

/-- The staff roster of one class in the remote state left by a run. -/
def runStaffOf (r : Except String (Summary × List String × List ApiError × Remote))
    (claseId : Nat) : Option (List Nat) :=
  match r with
  | .ok x => some (x.2.2.2.staff claseId)
  | .error _ => none

/-- Pure simulation step for one `(clase_id, persona_id)` assignment attempt:
an attempt is skipped when the persona is already on the class's original
roster or the pair was already granted this run, otherwise it is granted.
State: (granted pairs, new-assignment count, skipped count). -/
def simStep (staff0 : Nat → List Nat) (acc : List (Nat × Nat) × Nat × Nat)
    (pr : Nat × Nat) : List (Nat × Nat) × Nat × Nat :=
  if pr.2 ∈ staff0 pr.1 ∨ pr ∈ acc.1 then (acc.1, acc.2.1, acc.2.2 + 1)
  else (acc.1 ++ [pr], acc.2.1 + 1, acc.2.2)

/-- Pure simulation of the assignment pair sequence. -/
def simAsg (staff0 : Nat → List Nat) (prs : List (Nat × Nat))
    (acc : List (Nat × Nat) × Nat × Nat) : List (Nat × Nat) × Nat × Nat :=
  prs.foldl (simStep staff0) acc

/-- The `(clase_id, persona_id)` attempts the class-assignment phase makes, in
order, for a `docente_matches` list. -/
def matchPairs (dms : List (Docente × List Clase)) : List (Nat × Nat) :=
  dms.flatMap (fun dm =>
    if dm.1.desiredByLevel = [] then []
    else dm.2.map (fun c => (c.id, dm.1.personaId)))

/-- Folding `aadd` over a pair list (the shape of the `desired_by_class`
accumulation). -/
def pairsAadd (prs : List (Nat × Nat)) (m : List (Nat × List Nat)) :
    List (Nat × List Nat) :=
  prs.foldl (fun a pr => aadd a pr.1 pr.2) m

/-- The ids of the classes that appear in at least one match of a
`docente_matches` list. -/
def matchedClassIds (dms : List (Docente × List Clase)) : List Nat :=
  dms.flatMap (fun dm => dm.2.map (·.id))

/-- The estado changes the planning loop queues for one persona with desired
flag `d` over (sorted) level ids `ls`. -/
def changesFor (apn : List (Nat × (Nat → Option Bool))) (p : Nat) (d : Bool) :
    List Nat → List Change
  | [] => []
  | n :: ls =>
      (if lookupActivos apn n p ≠ none ∧ lookupActivos apn n p = some d then []
       else [(p, n, d, lookupActivos apn n p)]) ++ changesFor apn p d ls

/-- The estado changes the planning loop queues, as a pure function of the
fetched activation views and the two per-persona maps. -/
def estadoChangesList (apn : List (Nat × (Nat → Option Bool)))
    (estadoNivelesByPersona : List (Nat × List Nat)) (emap : List (Nat × Bool)) :
    List Change :=
  emap.flatMap
    (fun e =>
      changesFor apn e.1 e.2
        (List.insertionSort (· ≤ ·) ((alookup estadoNivelesByPersona e.1).getD [])))

/-- Estado value carried by the earliest row of a row sequence that mentions a
persona (used to state the `_collect_estado` first-wins property). -/
def firstEstado (l : List (Option Nat × Option Bool)) (p : Nat) : Option Bool :=
  l.findSome? (fun d =>
    match d with
    | (some q, some e) => if q = p then some e else none
    | _ => none)

/-- Number of `estado_omitidas` increments one `estado_by_persona` entry
contributes in the planning loop. -/
def omitContribution (apn : List (Nat × (Nat → Option Bool)))
    (estadoNivelesByPersona : List (Nat × List Nat)) (e : Nat × Bool) : Nat :=
  let levelIds := (alookup estadoNivelesByPersona e.1).getD []
  if levelIds = [] then 1
  else
    (List.insertionSort (· ≤ ·) levelIds).countP
      (fun n => decide (lookupActivos apn n e.1 = some e.2))

/-- The typed error kinds the run can collect. -/
def allowedTipos : List String :=
  ["asignar_nivel", "listar_profesores_nivel", "activar_inactivar",
   "listar_staff", "asignar_profesor", "eliminar_profesor"]

/-- Concrete catalog entry for the executable scenarios: class `M 3PA`. -/
def claseM3PA : Clase := ⟨10, "M 3PA", "M", 3, 'P', 'A'⟩

/-- Concrete desired row for the executable scenarios: persona 7 teaches `M`
in grade P3. -/
def docenteM : Docente := ⟨2, 7, "M", "M", [('P', [3])], true, [], none⟩

/-- Concrete remote state for the executable scenarios: the catalog holds
`M 3PA` (id 10) whose roster currently lists persona 999 only. -/
def remoteM : Remote :=
  ⟨.ok ([claseM3PA], 0), fun c => if c = 10 then [999] else [], fun _ _ => none⟩

/-- Docente used by the matcher counterexample: course text `--` normalizes to
the empty string. -/
def docenteGuiones : Docente :=
  ⟨2, 500, "--", normalize_course_text "--", [('P', [3])], false, [], none⟩

/-- Catalog entry used by the matcher counterexample: display name `- 3PA`,
whose base name `-` normalizes to the empty string. -/
def claseGuion : Clase := ⟨11, "- 3PA", normalize_course_text "-", 3, 'P', 'A'⟩

/-- Membership in a grade set of a level/grade map. -/
def memPair {α : Type} [DecidableEq α] (m : List (α × List Nat)) (k : α) (g : Nat) :
    Prop :=
  ∃ gs, alookup m k = some gs ∧ g ∈ gs

theorem mem_insertEnd {α : Type} [DecidableEq α] (l : List α) (x y : α) :
    y ∈ insertEnd l x ↔ y = x ∨ y ∈ l := by
  unfold insertEnd
  split
  · constructor
    · exact fun h => Or.inr h
    · rintro (rfl | h) <;> simp_all
  · simp [or_comm]

theorem alookup_aset {α β : Type} [DecidableEq α] (m : List (α × β)) (k a : α) (v : β) :
    alookup (aset m k v) a = if k = a then some v else alookup m a := by
  induction m with
  | nil => simp only [aset, alookup]
  | cons hd tl ih =>
      obtain ⟨k0, v0⟩ := hd
      simp only [aset]
      by_cases h0 : k0 = k
      · subst h0
        by_cases ha : k0 = a <;> simp [alookup, ha]
      · simp only [if_neg h0, alookup]
        by_cases ha : k0 = a
        · subst ha
          simp [if_neg (show ¬k = k0 from fun h => h0 h.symm)]
        · rw [if_neg ha, if_neg ha, ih]

theorem alookup_aadd {α : Type} [DecidableEq α] (m : List (α × List Nat)) (k a : α)
    (x : Nat) :
    alookup (aadd m k x) a =
      if k = a then some (insertEnd ((alookup m k).getD []) x) else alookup m a := by
  induction m with
  | nil => simp only [aadd, alookup]; rfl
  | cons hd tl ih =>
      obtain ⟨k0, v0⟩ := hd
      simp only [aadd]
      by_cases h0 : k0 = k
      · subst h0
        simp only [if_pos rfl, alookup, if_pos rfl]
        by_cases ha : k0 = a <;> simp [alookup, ha]
      · simp only [if_neg h0, alookup]
        by_cases ha : k0 = a
        · subst ha
          simp [if_neg (show ¬k = k0 from fun h => h0 h.symm)]
        · rw [if_neg ha, if_neg ha, ih]

theorem memPair_aadd {α : Type} [DecidableEq α] (m : List (α × List Nat)) (k a : α)
    (x g : Nat) :
    memPair (aadd m k x) a g ↔ (a = k ∧ g = x) ∨ memPair m a g := by
  unfold memPair
  simp only [alookup_aadd]
  by_cases ha : k = a
  · subst ha
    cases h : alookup m k with
    | none => simp [h, mem_insertEnd]
    | some v => simp [h, mem_insertEnd]
  · have ha2 : ¬a = k := fun h => ha h.symm
    simp [ha, ha2]

theorem memPair_pairsAadd (prs : List (Nat × Nat)) (m : List (Nat × List Nat))
    (c q : Nat) :
    memPair (pairsAadd prs m) c q ↔ memPair m c q ∨ (c, q) ∈ prs := by
  induction prs generalizing m with
  | nil => simp [pairsAadd]
  | cons hd tl ih =>
      simp only [pairsAadd, List.foldl_cons] at *
      rw [ih, memPair_aadd]
      constructor
      · rintro ((⟨h1, h2⟩ | h) | h)
        · subst h1; subst h2; simp
        · tauto
        · tauto
      · rintro (h | h)
        · tauto
        · rcases List.mem_cons.mp h with h | h
          · left; left; exact ⟨congrArg Prod.fst h, congrArg Prod.snd h⟩
          · tauto

theorem alookup_collectEstadoStep (acc : List (Nat × Bool) × List String)
    (d : Option Nat × Option Bool) (p : Nat) :
    alookup (collectEstadoStep acc d).1 p =
      match d with
      | (some q, some e) =>
          if q = p then
            match alookup acc.1 q with
            | some prev => some prev
            | none => some e
          else alookup acc.1 p
      | _ => alookup acc.1 p := by
  obtain ⟨q?, e?⟩ := d
  match q?, e? with
  | none, _ => rfl
  | some q, none => rfl
  | some q, some e =>
      simp only [collectEstadoStep]
      split
      · rename_i prev hq
        by_cases hpe : prev ≠ e
        · rw [if_pos hpe]
          by_cases hqp : q = p
          · subst hqp; simp [hq]
          · simp [hqp]
        · rw [if_neg hpe, alookup_aset]
          push_neg at hpe
          subst hpe
          by_cases hqp : q = p
          · subst hqp; simp [hq]
          · simp [hqp]
      · rename_i hq
        rw [alookup_aset]

theorem warnings_collectEstadoStep (acc : List (Nat × Bool) × List String)
    (d : Option Nat × Option Bool) :
    (collectEstadoStep acc d).2 =
      acc.2 ++
        (match d with
         | (some q, some e) =>
             match alookup acc.1 q with
             | some prev =>
                 if prev ≠ e then
                   ["persona " ++ toString q ++
                    " con Estado conflictivo en el Excel; se usa el primero."]
                 else []
             | none => []
         | _ => []) := by
  obtain ⟨q?, e?⟩ := d
  match q?, e? with
  | none, _ => simp [collectEstadoStep]
  | some q, none => simp [collectEstadoStep]
  | some q, some e =>
      simp only [collectEstadoStep]
      split
      · rename_i prev hq
        by_cases hpe : prev ≠ e
        · rw [if_pos hpe]
          simp [hpe]
        · rw [if_neg hpe]
          push_neg at hpe
          simp [hpe]
      · rename_i hq
        simp

theorem collect_estado_go_lookup (l : List (Option Nat × Option Bool))
    (acc : List (Nat × Bool) × List String) (p : Nat) :
    alookup (l.foldl collectEstadoStep acc).1 p =
      match alookup acc.1 p with
      | some x => some x
      | none => firstEstado l p := by
  induction l generalizing acc with
  | nil =>
      cases h : alookup acc.1 p <;> simp [h, firstEstado]
  | cons hd tl ih =>
      obtain ⟨q?, e?⟩ := hd
      rw [List.foldl_cons, ih, alookup_collectEstadoStep]
      match q?, e? with
      | none, _ =>
          cases h : alookup acc.1 p <;> simp [h, firstEstado]
      | some q, none =>
          cases h : alookup acc.1 p <;> simp [h, firstEstado]
      | some q, some e =>
          by_cases hqp : q = p
          · subst hqp
            cases hq : alookup acc.1 q <;> simp [hq, firstEstado]
          · cases h : alookup acc.1 p <;> simp [h, firstEstado, hqp]

/-- C10: for every sequence of parsed rows, the estado collector keeps the
value of the earliest row carrying a non-null Estado for a persona; appending
a row that repeats the persona leaves the stored value unchanged, appends a
conflict warning exactly when the new value differs from the stored one, and
appends nothing when it is identical or the persona is new. -/
theorem C10_collect_estado_first_wins (l : List (Option Nat × Option Bool)) (p : Nat)
    (e : Bool) :
    alookup (collect_estado l).1 p = firstEstado l p ∧
    alookup (collect_estado (l ++ [(some p, some e)])).1 p =
      some ((firstEstado l p).getD e) ∧
    (collect_estado (l ++ [(some p, some e)])).2 =
      (collect_estado l).2 ++
        (match firstEstado l p with
         | some x =>
             if x ≠ e then
               ["persona " ++ toString p ++
                " con Estado conflictivo en el Excel; se usa el primero."]
             else []
         | none => []) := by
  have base : ∀ l2 : List (Option Nat × Option Bool),
      alookup (collect_estado l2).1 p = firstEstado l2 p := by
    intro l2
    have h := collect_estado_go_lookup l2 ([], []) p
    simpa [collect_estado, alookup] using h
  have happ : collect_estado (l ++ [(some p, some e)]) =
      collectEstadoStep (collect_estado l) (some p, some e) := by
    simp [collect_estado, List.foldl_append]
  refine ⟨base l, ?_, ?_⟩
  · rw [happ, alookup_collectEstadoStep]
    have hb := base l
    cases hf : firstEstado l p <;> rw [hf] at hb <;> simp [hb, hf]
  · rw [happ, warnings_collectEstadoStep]
    have hb := base l
    cases hf : firstEstado l p <;> rw [hf] at hb <;> simp [hb, hf]

/-- C3-counterexample: a desired assignment whose course text `--` normalizes
to the empty string and a catalog class whose base name `-` also normalizes to
the empty string satisfy conditions (a)-(d) of the claim, yet the matcher
returns nothing (its first guard rejects empty normalized course names). -/
theorem C3_counterexample :
    normalize_course_text "--" = "" ∧
    normalize_course_text "-" = "" ∧
    claseGuion.baseNorm = docenteGuiones.cursoNorm ∧
    alookup docenteGuiones.desiredByLevel claseGuion.level = some [3] ∧
    docenteGuiones.gradeSpecific = false ∧
    docenteGuiones.sectionFilter = [] ∧
    claseGuion ∉ match_clases docenteGuiones [claseGuion] := by
  decide

/-- C3 (amended): a catalog entry is returned by the matcher if and only if
the assignment's normalized course name is non-empty, the entry is in the
catalog, (a) its base name equals the normalized course name, (b) its level is
a key of `desired_by_level`, (c) if the assignment is grade-specific its grade
is in that level's grade set, and (d) if a non-empty section filter is present
the (level, grade, section) triple is a member of it. -/
theorem C3_match_clases_iff (d : Docente) (clases : List Clase) (c : Clase) :
    c ∈ match_clases d clases ↔
      (d.cursoNorm ≠ "" ∧ c ∈ clases ∧ c.baseNorm = d.cursoNorm ∧
       (∃ gs, alookup d.desiredByLevel c.level = some gs ∧
          (d.gradeSpecific = true → c.grade ∈ gs)) ∧
       (d.sectionFilter ≠ [] → (c.level, c.grade, c.seccion) ∈ d.sectionFilter)) := by
  unfold match_clases
  by_cases h0 : d.cursoNorm = ""
  · simp [h0]
  · rw [if_neg h0]
    rw [List.mem_filter]
    cases halk : alookup d.desiredByLevel c.level with
    | none => simp [halk, h0]
    | some gs =>
        simp only [halk, h0, ne_eq, not_false_eq_true, true_and, Bool.and_eq_true,
          decide_eq_true_eq, Bool.or_eq_true, Bool.not_eq_true', Option.some.injEq]
        constructor
        · rintro ⟨hmem, hbase, hgr, hsec⟩
          refine ⟨hmem, hbase, ⟨gs, rfl, ?_⟩, ?_⟩
          · intro hgs
            rcases hgr with hgr | hgr
            · rw [hgs] at hgr; cases hgr
            · exact hgr
          · intro hsf
            rcases hsec with hsec | hsec
            · exact absurd hsec hsf
            · exact hsec
        · rintro ⟨hmem, hbase, ⟨gs2, hgs2, hgr⟩, hsec⟩
          cases hgs2
          refine ⟨hmem, hbase, ?_, ?_⟩
          · cases hgsb : d.gradeSpecific
            · exact Or.inl rfl
            · exact Or.inr (hgr hgsb)
          · by_cases hsf : d.sectionFilter = []
            · exact Or.inl hsf
            · exact Or.inr (hsec hsf)

theorem digitVal_lt_ten {c : Char} {v : Nat} (h : digitVal c = some v) : v < 10 := by
  unfold digitVal at h
  split at h <;> simp_all <;> omega

theorem digitChar_digitVal {c : Char} {v : Nat} (h : digitVal c = some v) :
    Nat.digitChar v = c := by
  unfold digitVal at h
  split at h <;> cases h <;> decide

theorem digitVal_zero {c : Char} (h : digitVal c = some 0) : c = '0' := by
  unfold digitVal at h
  split at h <;> simp_all

/-- C4-counterexample: the class name `Ciencias P3A` has trailing token `P3A`,
which matches the second form of the suffix grammar and is extracted as
`(grade 3, level P, section A)`; re-rendering that triple as
`<grade><level><section>` gives `3PA`, which does not reproduce the trailing
token `P3A` (both already uppercase, so not even up to case). -/
theorem C4_counterexample :
    parse_class_suffix "Ciencias P3A" = some (3, 'P', 'A') ∧
    trailingToken "Ciencias P3A" = ['P', '3', 'A'] ∧
    renderSuffix 3 'P' 'A' = ['3', 'P', 'A'] ∧
    renderSuffix 3 'P' 'A' ≠ trailingToken "Ciencias P3A" := by
  decide

/-- C4 (amended): for every class name whose cleaned trailing token matches
the `<grade><level><section>` form of the suffix grammar with no leading zero
in the grade, the extracted (grade, level, section) triple, re-rendered as
`<grade><level><section>`, reproduces the cleaned trailing token exactly. -/
theorem C4_roundtrip (name : String) (g : Nat) (l s : Char)
    (h1 : matchGradeLevelSection (trailingToken name) = some (g, l, s))
    (h2 : (trailingToken name).length = 4 → (trailingToken name).head? ≠ some '0') :
    parse_class_suffix name = some (g, l, s) ∧
    renderSuffix g l s = trailingToken name := by
  have hne : trailingToken name ≠ [] := by
    intro h
    rw [h] at h1
    simp [matchGradeLevelSection] at h1
  constructor
  · unfold parse_class_suffix
    rw [if_neg hne, h1]
  · generalize ht : trailingToken name = t at h1 h2
    unfold matchGradeLevelSection at h1
    split at h1
    · rename_i d l0 s0
      cases hd : digitVal d with
      | none => simp [hd] at h1
      | some g0 =>
          simp only [hd] at h1
          by_cases hc : (isIPS l0 && isUpperLetter s0) = true
          · rw [if_pos hc] at h1
            cases h1
            unfold renderSuffix
            rw [if_pos (digitVal_lt_ten hd)]
            simp [digitChar_digitVal hd]
          · rw [if_neg hc] at h1
            cases h1
    · rename_i d1 d2 l0 s0
      cases hd1 : digitVal d1 with
      | none => simp [hd1] at h1
      | some g1 =>
          cases hd2 : digitVal d2 with
          | none => simp [hd1, hd2] at h1
          | some g2 =>
              simp only [hd1, hd2] at h1
              by_cases hc : (isIPS l0 && isUpperLetter s0) = true
              · rw [if_pos hc] at h1
                cases h1
                have hg1ne : g1 ≠ 0 := by
                  intro hz
                  subst hz
                  exact (h2 rfl) (by rw [digitVal_zero hd1]; rfl)
                have h1lt := digitVal_lt_ten hd1
                have h2lt := digitVal_lt_ten hd2
                unfold renderSuffix
                rw [if_neg (by omega)]
                have hdiv : (10 * g1 + g2) / 10 = g1 := by omega
                have hmod : (10 * g1 + g2) % 10 = g2 := by omega
                rw [hdiv, hmod]
                simp [digitChar_digitVal hd1, digitChar_digitVal hd2]
              · rw [if_neg hc] at h1
                cases h1
    · cases h1

/-- C4-witness: the round-trip theorem applied to the concrete class name
`Ciencias 3PA`. -/
theorem C4_roundtrip_witness :
    parse_class_suffix "Ciencias 3PA" = some (3, 'P', 'A') ∧
    renderSuffix 3 'P' 'A' = trailingToken "Ciencias 3PA" :=
  C4_roundtrip "Ciencias 3PA" 3 'P' 'A' (by decide) (by decide)

/-- C1: with `remove_missing = true` but no `on_progress` callback supplied,
the run never issues the removal of surplus persona 999 from class 10 (which
matched this run, persona 7 being its only desired teacher): `eliminaciones`
stays 0 and the DELETE is never performed, the roster keeps 999; supplying an
`on_progress` callback — the only change — makes the same run count one
removal and delete 999.  The removal body (source lines 554-590) sits inside
`if on_progress:`. -/
theorem C1_removal_depends_on_progress_callback :
    (runSummary (asignar_profesores_clases [docenteM] [] 0 remoteM noFailures false
        true false)).map (fun s => s.eliminaciones) = some 0 ∧
    runStaffOf (asignar_profesores_clases [docenteM] [] 0 remoteM noFailures false
        true false) 10 = some [999, 7] ∧
    (runSummary (asignar_profesores_clases [docenteM] [] 0 remoteM noFailures false
        true true)).map (fun s => s.eliminaciones) = some 1 ∧
    runStaffOf (asignar_profesores_clases [docenteM] [] 0 remoteM noFailures false
        true true) 10 = some [7] := by
  decide

/-- C2-counterexample: running the reconciler a second time with the same
desired input against the remote state left by a fully successful first run
(apply mode, removals enabled and executed) still issues one assign-niveles
action — `niveles_asignados = 1`, not 0 — while the add/remove/estado action
counts are 0. -/
theorem C2_counterexample_second_run_reassigns_niveles :
    (runSummary (asignar_profesores_clases [docenteM] [] 0
        (runRemote (asignar_profesores_clases [docenteM] [] 0 remoteM noFailures
          false true true) remoteM) noFailures false true true)).map
      (fun s => (s.niveles_asignados, s.asignaciones_nuevas, s.eliminaciones,
                 s.estado_activaciones, s.estado_inactivaciones)) =
      some (1, 0, 0, 0, 0) := by
  decide

theorem memPair_nil {α : Type} [DecidableEq α] (k : α) (g : Nat) :
    memPair ([] : List (α × List Nat)) k g ↔ False := by
  simp [memPair, alookup]

theorem gradeFold_flag (row : String → String) (cols : List (String × Char × Nat))
    (acc : List (Char × List Nat) × Bool) :
    (cols.foldl
      (fun (acc : List (Char × List Nat) × Bool) t =>
        if is_truthy (row t.1) then (aadd acc.1 t.2.1 t.2.2, true) else acc)
      acc).2 = (acc.2 || cols.any (fun t => is_truthy (row t.1))) := by
  induction cols generalizing acc with
  | nil => simp
  | cons hd tl ih =>
      simp only [List.foldl_cons, List.any_cons]
      by_cases h : is_truthy (row hd.1)
      · rw [if_pos h, ih]
        simp [h]
      · rw [if_neg h, ih]
        simp [h]

theorem gradeFold_mem (row : String → String) (cols : List (String × Char × Nat))
    (acc : List (Char × List Nat) × Bool) (l : Char) (g : Nat) :
    memPair (cols.foldl
      (fun (acc : List (Char × List Nat) × Bool) t =>
        if is_truthy (row t.1) then (aadd acc.1 t.2.1 t.2.2, true) else acc)
      acc).1 l g ↔
      memPair acc.1 l g ∨
        ∃ t ∈ cols, is_truthy (row t.1) = true ∧ t.2.1 = l ∧ t.2.2 = g := by
  induction cols generalizing acc with
  | nil => simp
  | cons hd tl ih =>
      simp only [List.foldl_cons]
      by_cases h : is_truthy (row hd.1)
      · rw [if_pos h, ih]
        simp only [memPair_aadd, List.mem_cons]
        constructor
        · rintro ((⟨h1, h2⟩ | hm) | ⟨t, ht, hh⟩)
          · exact Or.inr ⟨hd, Or.inl rfl, h, h1.symm, h2.symm⟩
          · exact Or.inl hm
          · exact Or.inr ⟨t, Or.inr ht, hh⟩
        · rintro (hm | ⟨t, ht | ht, htr, h1, h2⟩)
          · exact Or.inl (Or.inr hm)
          · subst ht
            exact Or.inl (Or.inl ⟨h1.symm, h2.symm⟩)
          · exact Or.inr ⟨t, ht, htr, h1, h2⟩
      · rw [if_neg h, ih]
        constructor
        · rintro (hm | ⟨t, ht, hh⟩)
          · exact Or.inl hm
          · exact Or.inr ⟨t, List.mem_cons.mpr (Or.inr ht), hh⟩
        · rintro (hm | ⟨t, ht, htr, hh⟩)
          · exact Or.inl hm
          · rcases List.mem_cons.mp ht with rfl | ht2
            · rw [htr] at h; exact absurd rfl h
            · exact Or.inr ⟨t, ht2, htr, hh⟩

theorem gradeFold_no_truthy (row : String → String) (cols : List (String × Char × Nat))
    (acc : List (Char × List Nat) × Bool)
    (h : ∀ t ∈ cols, is_truthy (row t.1) = false) :
    (cols.foldl
      (fun (acc : List (Char × List Nat) × Bool) t =>
        if is_truthy (row t.1) then (aadd acc.1 t.2.1 t.2.2, true) else acc)
      acc) = acc := by
  induction cols generalizing acc with
  | nil => simp
  | cons hd tl ih =>
      simp only [List.foldl_cons]
      rw [if_neg (by simp [h hd (List.mem_cons_self hd tl)])]
      exact ih acc (fun t ht => h t (List.mem_cons.mpr (Or.inr ht)))

theorem levelFold_lookup (row : String → String) (cols : List (String × Char))
    (acc : List (Char × List Nat)) (l : Char) :
    alookup (cols.foldl
      (fun (acc : List (Char × List Nat)) t =>
        if is_truthy (row t.1) then aset acc t.2 (ALL_GRADES_BY_LEVEL t.2) else acc)
      acc) l =
      if cols.any (fun t => decide (t.2 = l) && is_truthy (row t.1))
      then some (ALL_GRADES_BY_LEVEL l) else alookup acc l := by
  induction cols generalizing acc with
  | nil => simp
  | cons hd tl ih =>
      simp only [List.foldl_cons, List.any_cons]
      by_cases h : is_truthy (row hd.1)
      · rw [if_pos h, ih]
        by_cases hex : tl.any (fun t => decide (t.2 = l) && is_truthy (row t.1)) = true
        · rw [if_pos hex, if_pos (by simp [hex])]
        · rw [if_neg hex, alookup_aset]
          by_cases hdl : hd.2 = l
          · rw [if_pos hdl, if_pos (by simp [hdl, h]), hdl]
          · rw [if_neg hdl, if_neg (by simp [hdl, h, hex])]
      · rw [if_neg h, ih]
        by_cases hex : tl.any (fun t => decide (t.2 = l) && is_truthy (row t.1)) = true
        · rw [if_pos hex, if_pos (by simp [hex])]
        · rw [if_neg hex, if_neg (by simp [h, hex])]

/-- C9: if any present grade-specific column is truthy the extracted assignment
is grade-specific and desires exactly the (level, grade) pairs of the truthy
grade columns; otherwise it is not grade-specific and each truthy
level-general column contributes exactly the full grade range of its level. -/
theorem C9_extract_desired_levels (row : String → String) (present : String → Bool) :
    ((extract_desired_levels row present).2 = true ↔
      ∃ t ∈ GRADE_COLUMNS.filter (fun t => present t.1), is_truthy (row t.1) = true) ∧
    ((extract_desired_levels row present).2 = true →
      ∀ l g, memPair (extract_desired_levels row present).1 l g ↔
        ∃ t ∈ GRADE_COLUMNS.filter (fun t => present t.1),
          is_truthy (row t.1) = true ∧ t.2.1 = l ∧ t.2.2 = g) ∧
    ((extract_desired_levels row present).2 = false →
      ∀ l, alookup (extract_desired_levels row present).1 l =
        if (LEVEL_COLUMNS.filter (fun t => present t.1)).any
            (fun t => decide (t.2 = l) && is_truthy (row t.1))
        then some (ALL_GRADES_BY_LEVEL l) else none) := by
  unfold extract_desired_levels
  simp only []
  by_cases hgs : (List.foldl
      (fun (acc : List (Char × List Nat) × Bool) t =>
        if is_truthy (row t.1) then (aadd acc.1 t.2.1 t.2.2, true) else acc)
      ([], false) (GRADE_COLUMNS.filter (fun t => present t.1))).2 = true
  · rw [if_pos hgs]
    refine ⟨?_, ?_, ?_⟩
    · rw [gradeFold_flag, Bool.false_or]
      exact List.any_eq_true
    · intro _ l g
      rw [gradeFold_mem, memPair_nil, false_or]
    · intro hfalse
      rw [hgs] at hfalse
      cases hfalse
  · rw [if_neg hgs]
    have hflag := gradeFold_flag row (GRADE_COLUMNS.filter (fun t => present t.1)) ([], false)
    rw [Bool.not_eq_true] at hgs
    rw [hgs, Bool.false_or] at hflag
    have hnone : ∀ t ∈ GRADE_COLUMNS.filter (fun t => present t.1),
        is_truthy (row t.1) = false := by
      intro t ht
      by_contra hcon
      rw [Bool.not_eq_false] at hcon
      have hany : (GRADE_COLUMNS.filter (fun t => present t.1)).any
          (fun t => is_truthy (row t.1)) = true :=
        List.any_eq_true.mpr ⟨t, ht, hcon⟩
      rw [hany] at hflag
      cases hflag
    rw [gradeFold_no_truthy row _ _ hnone]
    refine ⟨?_, ?_, ?_⟩
    · constructor
      · intro h; cases h
      · rintro ⟨t, ht, htr⟩
        rw [hnone t ht] at htr
        cases htr
    · intro h; cases h
    · intro _ l
      exact levelFold_lookup row _ [] l

/-- C9-witness: a concrete row with `P3` truthy is grade-specific and desires
exactly (P, 3); a row with only `Primaria` truthy desires the full P range. -/
theorem C9_extract_desired_levels_witness :
    ((extract_desired_levels (fun c => if c = "P3" then "SI" else "")
        (fun _ => true)).2 = true →
      ∀ l g, memPair (extract_desired_levels (fun c => if c = "P3" then "SI" else "")
          (fun _ => true)).1 l g ↔
        ∃ t ∈ GRADE_COLUMNS.filter (fun t => (fun _ : String => true) t.1),
          is_truthy ((fun c => if c = "P3" then "SI" else "") t.1) = true ∧
          t.2.1 = l ∧ t.2.2 = g) ∧
    ((extract_desired_levels (fun c => if c = "Primaria" then "SI" else "")
        (fun _ => true)).2 = false →
      ∀ l, alookup (extract_desired_levels (fun c => if c = "Primaria" then "SI" else "")
          (fun _ => true)).1 l =
        if (LEVEL_COLUMNS.filter (fun t => (fun _ : String => true) t.1)).any
            (fun t => decide (t.2 = l) &&
              is_truthy ((fun c => if c = "Primaria" then "SI" else "") t.1))
        then some (ALL_GRADES_BY_LEVEL l) else none) :=
  ⟨(C9_extract_desired_levels (fun c => if c = "P3" then "SI" else "")
      (fun _ => true)).2.1,
   (C9_extract_desired_levels (fun c => if c = "Primaria" then "SI" else "")
      (fun _ => true)).2.2⟩

theorem omitCond_iff (cur : Option Bool) (d : Bool) :
    (cur ≠ none ∧ cur = some d) ↔ cur = some d := by
  cases cur <;> simp

theorem changesFor_mem (apn : List (Nat × (Nat → Option Bool))) (p : Nat) (d : Bool)
    (ls : List Nat) (p2 n : Nat) (dd : Bool) (cur : Option Bool) :
    (p2, n, dd, cur) ∈ changesFor apn p d ls ↔
      p2 = p ∧ dd = d ∧ n ∈ ls ∧ cur = lookupActivos apn n p ∧
        lookupActivos apn n p ≠ some d := by
  induction ls with
  | nil => simp [changesFor]
  | cons m ls ih =>
      rw [changesFor]
      rw [List.mem_append, ih]
      by_cases hc : lookupActivos apn m p ≠ none ∧ lookupActivos apn m p = some d
      · rw [if_pos hc]
        rw [omitCond_iff] at hc
        constructor
        · rintro (h | ⟨h1, h2, h3, h4, h5⟩)
          · cases h
          · exact ⟨h1, h2, List.mem_cons.mpr (Or.inr h3), h4, h5⟩
        · rintro ⟨h1, h2, h3, h4, h5⟩
          rcases List.mem_cons.mp h3 with rfl | h3
          · exact absurd hc h5
          · exact Or.inr ⟨h1, h2, h3, h4, h5⟩
      · rw [if_neg hc]
        rw [omitCond_iff] at hc
        constructor
        · rintro (h | ⟨h1, h2, h3, h4, h5⟩)
          · rw [List.mem_singleton] at h
            rw [Prod.mk.injEq] at h
            obtain ⟨h1, h2⟩ := h
            rw [Prod.mk.injEq] at h2
            obtain ⟨h2, h3⟩ := h2
            rw [Prod.mk.injEq] at h3
            obtain ⟨h3, h4⟩ := h3
            subst h1; subst h2; subst h3; subst h4
            exact ⟨rfl, rfl, List.mem_cons.mpr (Or.inl rfl), rfl, hc⟩
          · exact ⟨h1, h2, List.mem_cons.mpr (Or.inr h3), h4, h5⟩
        · rintro ⟨h1, h2, h3, h4, h5⟩
          rcases List.mem_cons.mp h3 with rfl | h3
          · subst h1; subst h2; subst h4
            exact Or.inl (List.mem_singleton.mpr rfl)
          · exact Or.inr ⟨h1, h2, h3, h4, h5⟩

theorem akeys_nodup_val_eq {α β : Type} [DecidableEq α] (m : List (α × β))
    (hnd : (akeys m).Nodup) (p : α) (d d2 : β) (h1 : (p, d) ∈ m) (h2 : (p, d2) ∈ m) :
    d = d2 := by
  induction m with
  | nil => cases h1
  | cons hd tl ih =>
      rw [akeys, List.map_cons, List.nodup_cons] at hnd
      rcases List.mem_cons.mp h1 with rfl | h1tl
      · rcases List.mem_cons.mp h2 with h2h | h2tl
        · exact congrArg Prod.snd h2h.symm
        · have hpn : ∀ x : β, (p, x) ∉ tl := by simpa using hnd.1
          exact absurd h2tl (hpn d2)
      · rcases List.mem_cons.mp h2 with rfl | h2tl
        · have hpn : ∀ x : β, (p, x) ∉ tl := by simpa using hnd.1
          exact absurd h1tl (hpn d)
        · exact ih hnd.2 h1tl h2tl

theorem estadoChangesList_mem (apn : List (Nat × (Nat → Option Bool)))
    (nmap : List (Nat × List Nat)) (emap : List (Nat × Bool))
    (hnd : (akeys emap).Nodup) (p : Nat) (d : Bool) (hmem : (p, d) ∈ emap)
    (n : Nat) (dd : Bool) (cur : Option Bool) :
    (p, n, dd, cur) ∈ estadoChangesList apn nmap emap ↔
      dd = d ∧ n ∈ (alookup nmap p).getD [] ∧ cur = lookupActivos apn n p ∧
        lookupActivos apn n p ≠ some d := by
  unfold estadoChangesList
  rw [List.mem_flatMap]
  constructor
  · rintro ⟨e, he, hch⟩
    rw [changesFor_mem] at hch
    obtain ⟨h1, h2, h3, h4, h5⟩ := hch
    subst h1
    have : e.2 = d := akeys_nodup_val_eq emap hnd e.1 e.2 d
      (by exact (Prod.mk.eta ▸ he)) hmem
    subst this
    refine ⟨h2, ?_, h4, h5⟩
    exact ((List.perm_insertionSort _ _).mem_iff).mp h3
  · rintro ⟨h1, h2, h3, h4⟩
    refine ⟨(p, d), hmem, ?_⟩
    rw [changesFor_mem]
    exact ⟨rfl, h1, ((List.perm_insertionSort _ _).mem_iff).mpr h2, h3, h4⟩

theorem estadoInner_snd (apn : List (Nat × (Nat → Option Bool))) (p : Nat) (d : Bool)
    (ls : List Nat) (acc : RunState × List Change) :
    (ls.foldl
      (fun (acc2 : RunState × List Change) nivelId =>
        let current := lookupActivos apn nivelId p
        if current ≠ none ∧ current = some d then
          ({ acc2.1 with
             summary := { acc2.1.summary with
                          estado_omitidas := acc2.1.summary.estado_omitidas + 1 } },
           acc2.2)
        else (acc2.1, acc2.2 ++ [(p, nivelId, d, current)]))
      acc).2 = acc.2 ++ changesFor apn p d ls := by
  induction ls generalizing acc with
  | nil => simp [changesFor]
  | cons m ls ih =>
      rw [List.foldl_cons, changesFor, ih]
      by_cases hc : lookupActivos apn m p ≠ none ∧ lookupActivos apn m p = some d
      · simp [hc]
      · simp [hc]

theorem estadoPlanStep_snd (apn : List (Nat × (Nat → Option Bool)))
    (nmap : List (Nat × List Nat)) (acc : RunState × List Change) (e : Nat × Bool) :
    (estadoPlanStep apn nmap acc e).2 =
      acc.2 ++ changesFor apn e.1 e.2
        (List.insertionSort (· ≤ ·) ((alookup nmap e.1).getD [])) := by
  unfold estadoPlanStep
  by_cases hl : (alookup nmap e.1).getD [] = []
  · rw [if_pos hl, hl]
    simp [changesFor]
  · rw [if_neg hl]
    exact estadoInner_snd apn e.1 e.2 _ acc

theorem estadoPlan_changes (apn : List (Nat × (Nat → Option Bool)))
    (nmap : List (Nat × List Nat)) (emap : List (Nat × Bool))
    (acc : RunState × List Change) :
    (emap.foldl (estadoPlanStep apn nmap) acc).2 =
      acc.2 ++ estadoChangesList apn nmap emap := by
  induction emap generalizing acc with
  | nil => simp [estadoChangesList]
  | cons e emap ih =>
      rw [List.foldl_cons, ih, estadoPlanStep_snd]
      simp [estadoChangesList]

theorem estadoInner_omitidas (apn : List (Nat × (Nat → Option Bool))) (p : Nat)
    (d : Bool) (ls : List Nat) (acc : RunState × List Change) :
    (ls.foldl
      (fun (acc2 : RunState × List Change) nivelId =>
        let current := lookupActivos apn nivelId p
        if current ≠ none ∧ current = some d then
          ({ acc2.1 with
             summary := { acc2.1.summary with
                          estado_omitidas := acc2.1.summary.estado_omitidas + 1 } },
           acc2.2)
        else (acc2.1, acc2.2 ++ [(p, nivelId, d, current)]))
      acc).1.summary.estado_omitidas =
      acc.1.summary.estado_omitidas +
        ls.countP (fun n => decide (lookupActivos apn n p = some d)) := by
  induction ls generalizing acc with
  | nil => simp
  | cons m ls ih =>
      rw [List.foldl_cons]
      by_cases hc : lookupActivos apn m p ≠ none ∧ lookupActivos apn m p = some d
      · simp only [hc, if_pos, ih]
        have := (omitCond_iff (lookupActivos apn m p) d).mp hc
        simp [List.countP_cons, this]
        omega
      · simp only [ih]
        have hnc : ¬lookupActivos apn m p = some d := by
          intro hcon
          exact hc ((omitCond_iff _ _).mpr hcon)
        simp [hc, List.countP_cons, hnc]

theorem estadoPlanStep_omitidas (apn : List (Nat × (Nat → Option Bool)))
    (nmap : List (Nat × List Nat)) (acc : RunState × List Change) (e : Nat × Bool) :
    (estadoPlanStep apn nmap acc e).1.summary.estado_omitidas =
      acc.1.summary.estado_omitidas + omitContribution apn nmap e := by
  unfold estadoPlanStep omitContribution
  by_cases hl : (alookup nmap e.1).getD [] = []
  · simp [hl]
  · rw [if_neg hl, if_neg hl]
    exact estadoInner_omitidas apn e.1 e.2 _ acc

theorem estadoPlan_omitidas (apn : List (Nat × (Nat → Option Bool)))
    (nmap : List (Nat × List Nat)) (emap : List (Nat × Bool))
    (acc : RunState × List Change) :
    (emap.foldl (estadoPlanStep apn nmap) acc).1.summary.estado_omitidas =
      acc.1.summary.estado_omitidas +
        (emap.map (omitContribution apn nmap)).sum := by
  induction emap generalizing acc with
  | nil => simp
  | cons e emap ih =>
      rw [List.foldl_cons, ih, estadoPlanStep_omitidas]
      simp [Nat.add_assoc]

/-- C6: for every persona with a parsed Estado value and a non-empty resolved
level set, and each of its level ids, an estado-change action is queued if and
only if the level's activation flag for that persona is unknown (absent) or
differs from the desired flag; when the observed flag is known and equal no
action is queued for the pair, and the planning loop's `estado_omitidas`
counter totals exactly one per known-and-equal (persona, level) pair (plus one
per persona without levels). -/
theorem C6_estado_change_iff (apn : List (Nat × (Nat → Option Bool)))
    (nmap : List (Nat × List Nat)) (emap : List (Nat × Bool)) (st : RunState)
    (p : Nat) (d : Bool) (ls : List Nat) (n : Nat)
    (hnd : (akeys emap).Nodup) (hmem : (p, d) ∈ emap)
    (hls : alookup nmap p = some ls) (hn : n ∈ ls) :
    ((p, n, d, lookupActivos apn n p) ∈ (emap.foldl (estadoPlanStep apn nmap) (st, [])).2 ↔
      (lookupActivos apn n p = none ∨ lookupActivos apn n p ≠ some d)) ∧
    (lookupActivos apn n p = some d →
      ∀ dd cur, (p, n, dd, cur) ∉ (emap.foldl (estadoPlanStep apn nmap) (st, [])).2) ∧
    (emap.foldl (estadoPlanStep apn nmap) (st, [])).1.summary.estado_omitidas =
      st.summary.estado_omitidas + (emap.map (omitContribution apn nmap)).sum := by
  rw [estadoPlan_changes]
  simp only [List.nil_append]
  refine ⟨?_, ?_, ?_⟩
  · rw [estadoChangesList_mem apn nmap emap hnd p d hmem]
    rw [hls]
    constructor
    · rintro ⟨_, _, _, h4⟩
      exact Or.inr h4
    · rintro (h | h)
      · refine ⟨rfl, by simpa using hn, rfl, ?_⟩
        rw [h]
        simp
      · exact ⟨rfl, by simpa using hn, rfl, h⟩
  · intro heq dd cur hcon
    rw [estadoChangesList_mem apn nmap emap hnd p d hmem] at hcon
    exact hcon.2.2.2 heq
  · rw [estadoPlan_omitidas]

/-- C6-witness: persona 500 desires Inactivo at level 39 where the roster says
active — the change is queued; at level 38 the roster already says inactive —
no action for that pair and it is counted as omitted. -/
theorem C6_estado_change_iff_witness :
    (((500 : Nat), (39 : Nat), false,
        lookupActivos [(38, fun p => if p = 500 then some false else none),
          (39, fun p => if p = 500 then some true else none)] 39 500) ∈
      ([((500 : Nat), false)].foldl
        (estadoPlanStep
          [(38, fun p => if p = 500 then some false else none),
           (39, fun p => if p = 500 then some true else none)]
          [(500, [38, 39])])
        (⟨{}, [], [], [], [], [], ⟨.error "", fun _ => [], fun _ _ => none⟩⟩, [])).2 ↔
      (lookupActivos [(38, fun p => if p = 500 then some false else none),
          (39, fun p => if p = 500 then some true else none)] 39 500 = none ∨
        lookupActivos [(38, fun p => if p = 500 then some false else none),
          (39, fun p => if p = 500 then some true else none)] 39 500 ≠ some false)) ∧
    (lookupActivos [(38, fun p => if p = 500 then some false else none),
        (39, fun p => if p = 500 then some true else none)] 39 500 = some false →
      ∀ dd cur, ((500 : Nat), (39 : Nat), dd, cur) ∉
        ([((500 : Nat), false)].foldl
          (estadoPlanStep
            [(38, fun p => if p = 500 then some false else none),
             (39, fun p => if p = 500 then some true else none)]
            [(500, [38, 39])])
          (⟨{}, [], [], [], [], [], ⟨.error "", fun _ => [], fun _ _ => none⟩⟩, [])).2) ∧
    ([((500 : Nat), false)].foldl
        (estadoPlanStep
          [(38, fun p => if p = 500 then some false else none),
           (39, fun p => if p = 500 then some true else none)]
          [(500, [38, 39])])
        (⟨{}, [], [], [], [], [], ⟨.error "", fun _ => [], fun _ _ => none⟩⟩, [])).1.summary.estado_omitidas =
      (⟨{}, [], [], [], [], [],
        ⟨.error "", fun _ => [], fun _ _ => none⟩⟩ : RunState).summary.estado_omitidas +
        ([((500 : Nat), false)].map
          (omitContribution
            [(38, fun p => if p = 500 then some false else none),
             (39, fun p => if p = 500 then some true else none)]
            [(500, [38, 39])])).sum :=
  C6_estado_change_iff
    [(38, fun p => if p = 500 then some false else none),
     (39, fun p => if p = 500 then some true else none)]
    [(500, [38, 39])] [(500, false)]
    ⟨{}, [], [], [], [], [], ⟨.error "", fun _ => [], fun _ _ => none⟩⟩
    500 false [38, 39] 39 (by decide) (by decide) (by decide) (by decide)

/-- The run-state components the level-sync loop never touches. -/
def frameN (st : RunState) :=
  (st.staff_cache, st.planned_by_class, st.desired_by_class, st.remote,
   st.summary.docentes_procesados, st.summary.docentes_invalidos,
   st.summary.docentes_sin_match, st.summary.clases_encontradas,
   st.summary.asignaciones_nuevas, st.summary.asignaciones_omitidas,
   st.summary.eliminaciones, st.summary.estado_activaciones,
   st.summary.estado_inactivaciones, st.summary.estado_omitidas)

theorem nivelesStep_frame (f : Failures) (dry : Bool) (st : RunState)
    (e : Nat × List Nat) : frameN (nivelesStep f dry st e) = frameN st := by
  unfold nivelesStep frameN
  split
  · rfl
  · split
    · rfl
    · split <;> rfl

theorem nivelesPhase_frame (f : Failures) (dry : Bool) (niv : List (Nat × List Nat))
    (st : RunState) : frameN (nivelesPhase f dry niv st) = frameN st := by
  induction niv generalizing st with
  | nil => rfl
  | cons e niv ih =>
      unfold nivelesPhase at *
      rw [List.foldl_cons]
      exact (ih (nivelesStep f dry st e)).trans (nivelesStep_frame f dry st e)

/-- The run-state components the estado planning loop never touches. -/
def frameP (st : RunState) :=
  (st.staff_cache, st.planned_by_class, st.desired_by_class, st.remote, st.errors,
   st.summary.docentes_procesados, st.summary.docentes_invalidos,
   st.summary.docentes_sin_match, st.summary.clases_encontradas,
   st.summary.asignaciones_nuevas, st.summary.asignaciones_omitidas,
   st.summary.eliminaciones, st.summary.estado_activaciones,
   st.summary.estado_inactivaciones, st.summary.niveles_asignados,
   st.summary.niveles_omitidos, st.summary.errores_api)

theorem estadoPlanStep_frame (apn : List (Nat × (Nat → Option Bool)))
    (nmap : List (Nat × List Nat)) (acc : RunState × List Change) (e : Nat × Bool) :
    frameP (estadoPlanStep apn nmap acc e).1 = frameP acc.1 := by
  simp only [estadoPlanStep]
  split
  · rfl
  · generalize List.insertionSort (· ≤ ·) ((alookup nmap e.1).getD []) = ls
    induction ls generalizing acc with
    | nil => rfl
    | cons n ls ih =>
        rw [List.foldl_cons]
        refine (ih _).trans ?_
        unfold frameP
        split <;> rfl

theorem estadoPlan_frame (apn : List (Nat × (Nat → Option Bool)))
    (nmap : List (Nat × List Nat)) (emap : List (Nat × Bool))
    (acc : RunState × List Change) :
    frameP (emap.foldl (estadoPlanStep apn nmap) acc).1 = frameP acc.1 := by
  induction emap generalizing acc with
  | nil => rfl
  | cons e emap ih =>
      rw [List.foldl_cons]
      exact (ih _).trans (estadoPlanStep_frame apn nmap acc e)

/-- The run-state components the estado execution loop never touches. -/
def frameE (st : RunState) :=
  (st.staff_cache, st.planned_by_class, st.desired_by_class, st.warnings,
   st.remote.clases, st.remote.staff,
   st.summary.docentes_procesados, st.summary.docentes_invalidos,
   st.summary.docentes_sin_match, st.summary.clases_encontradas,
   st.summary.asignaciones_nuevas, st.summary.asignaciones_omitidas,
   st.summary.eliminaciones, st.summary.estado_omitidas,
   st.summary.niveles_asignados, st.summary.niveles_omitidos)

theorem estadoExecStep_frame (f : Failures) (dry : Bool) (st : RunState)
    (ch : Change) : frameE (estadoExecStep f dry st ch) = frameE st := by
  unfold estadoExecStep frameE
  split
  · split <;> rfl
  · split
    · rfl
    · split <;> rfl

theorem estadoExec_frame (f : Failures) (dry : Bool) (chs : List Change)
    (st : RunState) : frameE (chs.foldl (estadoExecStep f dry) st) = frameE st := by
  induction chs generalizing st with
  | nil => rfl
  | cons ch chs ih =>
      rw [List.foldl_cons]
      exact (ih _).trans (estadoExecStep_frame f dry st ch)

/-- The run-state components a single class-assignment attempt never touches. -/
def frameAC (st : RunState) :=
  (st.desired_by_class, st.warnings, st.remote.clases, st.remote.activos,
   st.summary.docentes_procesados, st.summary.docentes_invalidos,
   st.summary.docentes_sin_match, st.summary.clases_encontradas,
   st.summary.eliminaciones, st.summary.estado_activaciones,
   st.summary.estado_inactivaciones, st.summary.estado_omitidas,
   st.summary.niveles_asignados, st.summary.niveles_omitidos)

theorem asignarClaseCore_frame (f : Failures) (dry : Bool) (p c : Nat)
    (st : RunState) (staff : List Nat) :
    frameAC (asignarClaseCore f dry p c st staff) = frameAC st := by
  simp only [asignarClaseCore]
  unfold frameAC
  split
  · split
    · rfl
    · split
      · rfl
      · split <;> rfl
  · split
    · rfl
    · split
      · rfl
      · split <;> rfl

theorem asignarClase_frame (f : Failures) (dry : Bool) (p : Nat) (st : RunState)
    (c : Nat) : frameAC (asignarClase f dry p st c) = frameAC st := by
  unfold asignarClase
  split
  · exact asignarClaseCore_frame f dry p c st _
  · split
    · rfl
    · exact asignarClaseCore_frame f dry p c _ _

/-- The run-state components the whole class-assignment phase never touches. -/
def frameAD (st : RunState) :=
  (st.warnings, st.remote.clases, st.remote.activos,
   st.summary.docentes_invalidos, st.summary.eliminaciones,
   st.summary.estado_activaciones, st.summary.estado_inactivaciones,
   st.summary.estado_omitidas, st.summary.niveles_asignados,
   st.summary.niveles_omitidos)

theorem frameAC_to_frameAD (st st2 : RunState) (h : frameAC st2 = frameAC st) :
    frameAD st2 = frameAD st := by
  unfold frameAC at h
  unfold frameAD
  simp only [Prod.mk.injEq] at h
  obtain ⟨_, h2, h3, h4, _, h6, _, _, h9, h10, h11, h12, h13, h14⟩ := h
  rw [h2, h3, h4, h6, h9, h10, h11, h12, h13, h14]

theorem pairFold_frameAD (f : Failures) (dry : Bool) (pid : Nat) (cs : List Clase)
    (st : RunState) :
    frameAD (cs.foldl (fun s c => asignarClase f dry pid s c.id) st) = frameAD st := by
  induction cs generalizing st with
  | nil => rfl
  | cons c cs ih =>
      rw [List.foldl_cons]
      exact (ih _).trans (frameAC_to_frameAD _ _ (asignarClase_frame f dry pid st c.id))

theorem desiredFold_frameAD (pid : Nat) (cs : List Clase) (st : RunState) :
    frameAD (cs.foldl
      (fun s c => { s with desired_by_class := aadd s.desired_by_class c.id pid })
      st) = frameAD st := by
  induction cs generalizing st with
  | nil => rfl
  | cons c cs ih =>
      rw [List.foldl_cons]
      exact (ih _).trans rfl

theorem asignarDocente_frame (f : Failures) (dry : Bool) (st : RunState)
    (dm : Docente × List Clase) : frameAD (asignarDocente f dry st dm) = frameAD st := by
  unfold asignarDocente
  split
  · rfl
  · split
    · rfl
    · exact (pairFold_frameAD f dry dm.1.personaId dm.2 _).trans
        ((desiredFold_frameAD dm.1.personaId dm.2 _).trans rfl)

theorem clasesPhase_frame (f : Failures) (dry : Bool)
    (dms : List (Docente × List Clase)) (st : RunState) :
    frameAD (clasesPhase f dry dms st) = frameAD st := by
  induction dms generalizing st with
  | nil => rfl
  | cons dm dms ih =>
      unfold clasesPhase at *
      rw [List.foldl_cons]
      exact (ih _).trans (asignarDocente_frame f dry st dm)

/-- The run-state components the removal gather loop never touches. -/
def frameG (st : RunState) :=
  (st.planned_by_class, st.desired_by_class, st.warnings, st.remote,
   st.summary.docentes_procesados, st.summary.docentes_invalidos,
   st.summary.docentes_sin_match, st.summary.clases_encontradas,
   st.summary.asignaciones_nuevas, st.summary.asignaciones_omitidas,
   st.summary.eliminaciones, st.summary.estado_activaciones,
   st.summary.estado_inactivaciones, st.summary.estado_omitidas,
   st.summary.niveles_asignados, st.summary.niveles_omitidos)

theorem eliminarGatherStep_frame (f : Failures) (acc : RunState × List (Nat × Nat))
    (e : Nat × List Nat) : frameG (eliminarGatherStep f acc e).1 = frameG acc.1 := by
  unfold eliminarGatherStep
  split
  · rfl
  · split <;> rfl

theorem eliminarGather_frame (f : Failures) (ds : List (Nat × List Nat))
    (acc : RunState × List (Nat × Nat)) :
    frameG (ds.foldl (eliminarGatherStep f) acc).1 = frameG acc.1 := by
  induction ds generalizing acc with
  | nil => rfl
  | cons e ds ih =>
      rw [List.foldl_cons]
      exact (ih _).trans (eliminarGatherStep_frame f acc e)

/-- The run-state components the removal execution loop never touches. -/
def frameEE (st : RunState) :=
  (st.staff_cache, st.planned_by_class, st.desired_by_class, st.warnings,
   st.remote.clases, st.remote.activos,
   st.summary.docentes_procesados, st.summary.docentes_invalidos,
   st.summary.docentes_sin_match, st.summary.clases_encontradas,
   st.summary.asignaciones_nuevas, st.summary.asignaciones_omitidas,
   st.summary.estado_activaciones, st.summary.estado_inactivaciones,
   st.summary.estado_omitidas, st.summary.niveles_asignados,
   st.summary.niveles_omitidos)

theorem eliminarExecStep_frame (f : Failures) (dry o : Bool) (st : RunState)
    (e : Nat × Nat) : frameEE (eliminarExecStep f dry o st e) = frameEE st := by
  unfold eliminarExecStep frameEE
  split
  · split
    · rfl
    · split <;> rfl
  · rfl

theorem eliminarExec_frame (f : Failures) (dry o : Bool) (ps : List (Nat × Nat))
    (st : RunState) :
    frameEE (ps.foldl (eliminarExecStep f dry o) st) = frameEE st := by
  induction ps generalizing st with
  | nil => rfl
  | cons e ps ih =>
      rw [List.foldl_cons]
      exact (ih _).trans (eliminarExecStep_frame f dry o st e)

theorem asignarClase_desired (f : Failures) (dry : Bool) (p : Nat) (st : RunState)
    (c : Nat) : (asignarClase f dry p st c).desired_by_class = st.desired_by_class := by
  have h := asignarClase_frame f dry p st c
  unfold frameAC at h
  simp only [Prod.mk.injEq] at h
  exact h.1

theorem desiredFold_desired (pid : Nat) (cs : List Clase) (st : RunState) :
    (cs.foldl
      (fun s c => { s with desired_by_class := aadd s.desired_by_class c.id pid })
      st).desired_by_class =
      pairsAadd (cs.map (fun c => (c.id, pid))) st.desired_by_class := by
  induction cs generalizing st with
  | nil => rfl
  | cons c cs ih =>
      rw [List.foldl_cons, List.map_cons, pairsAadd, List.foldl_cons, ih]
      rfl

theorem pairFold_desired (f : Failures) (dry : Bool) (pid : Nat) (cs : List Clase)
    (st : RunState) :
    (cs.foldl (fun s c => asignarClase f dry pid s c.id) st).desired_by_class =
      st.desired_by_class := by
  induction cs generalizing st with
  | nil => rfl
  | cons c cs ih =>
      rw [List.foldl_cons, ih, asignarClase_desired]

theorem asignarDocente_desired (f : Failures) (dry : Bool) (st : RunState)
    (dm : Docente × List Clase) :
    (asignarDocente f dry st dm).desired_by_class =
      pairsAadd
        (if dm.1.desiredByLevel = [] then []
         else dm.2.map (fun c => (c.id, dm.1.personaId)))
        st.desired_by_class := by
  unfold asignarDocente
  split
  · rfl
  · split
    · rename_i h2
      rw [h2, List.map_nil]
      rfl
    · rw [pairFold_desired, desiredFold_desired]

theorem clasesPhase_desired (f : Failures) (dry : Bool)
    (dms : List (Docente × List Clase)) (st : RunState) :
    (clasesPhase f dry dms st).desired_by_class =
      pairsAadd (matchPairs dms) st.desired_by_class := by
  induction dms generalizing st with
  | nil => rfl
  | cons dm dms ih =>
      unfold clasesPhase at *
      rw [List.foldl_cons, ih, asignarDocente_desired]
      unfold matchPairs
      rw [List.flatMap_cons]
      unfold pairsAadd
      rw [List.foldl_append]

theorem alookup_pairsAadd_isSome (prs : List (Nat × Nat)) (m : List (Nat × List Nat))
    (c : Nat) :
    (alookup (pairsAadd prs m) c).isSome ↔
      (alookup m c).isSome ∨ c ∈ prs.map (·.1) := by
  induction prs generalizing m with
  | nil => simp [pairsAadd]
  | cons pr prs ih =>
      unfold pairsAadd at *
      rw [List.foldl_cons, ih, List.map_cons]
      rw [alookup_aadd]
      by_cases hc : pr.1 = c
      · subst hc
        simp
      · rw [if_neg hc]
        simp only [List.mem_cons]
        constructor
        · rintro (h | h)
          · exact Or.inl h
          · exact Or.inr (Or.inr h)
        · rintro (h | h | h)
          · exact Or.inl h
          · exact absurd h.symm hc
          · exact Or.inr h

theorem matchPairs_fst_sub (dms : List (Docente × List Clase)) (c : Nat)
    (h : c ∈ (matchPairs dms).map (·.1)) : c ∈ matchedClassIds dms := by
  unfold matchPairs at h
  unfold matchedClassIds
  rw [List.mem_map] at h
  obtain ⟨pr, hpr, hc⟩ := h
  rw [List.mem_flatMap] at hpr
  obtain ⟨dm, hdm, hin⟩ := hpr
  rw [List.mem_flatMap]
  refine ⟨dm, hdm, ?_⟩
  by_cases hd : dm.1.desiredByLevel = []
  · rw [if_pos hd] at hin
    cases hin
  · rw [if_neg hd] at hin
    rw [List.mem_map] at hin
    obtain ⟨cl, hcl, hpr2⟩ := hin
    rw [List.mem_map]
    refine ⟨cl, hcl, ?_⟩
    rw [← hpr2] at hc
    exact hc

theorem alookup_none_iff_keys {α β : Type} [DecidableEq α] (m : List (α × β)) (c : α) :
    alookup m c = none ↔ c ∉ akeys m := by
  induction m with
  | nil => simp [alookup, akeys]
  | cons hd tl ih =>
      rw [alookup, akeys, List.map_cons]
      by_cases hc : hd.1 = c
      · subst hc
        simp
      · rw [if_neg hc]
        rw [ih, akeys]
        simp only [List.mem_cons]
        constructor
        · intro h hcon
          rcases hcon with hcon | hcon
          · exact hc hcon.symm
          · exact h hcon
        · intro h hcon
          exact h (Or.inr hcon)

theorem eliminarGather_pending (f : Failures) (ds : List (Nat × List Nat))
    (acc : RunState × List (Nat × Nat)) (pr : Nat × Nat)
    (h : pr ∈ (ds.foldl (eliminarGatherStep f) acc).2) :
    pr ∈ acc.2 ∨ pr.1 ∈ ds.map (·.1) := by
  induction ds generalizing acc with
  | nil => exact Or.inl h
  | cons e ds ih =>
      rw [List.foldl_cons] at h
      rcases ih _ h with hin | hin
      · unfold eliminarGatherStep at hin
        split at hin
        · rw [List.mem_append] at hin
          rcases hin with hin | hin
          · exact Or.inl hin
          · rw [List.mem_map] at hin
            obtain ⟨p2, _, hpr⟩ := hin
            rw [← hpr]
            exact Or.inr (by simp)
        · split at hin
          · exact Or.inl hin
          · rw [List.mem_append] at hin
            rcases hin with hin | hin
            · exact Or.inl hin
            · rw [List.mem_map] at hin
              obtain ⟨p2, _, hpr⟩ := hin
              rw [← hpr]
              exact Or.inr (by simp)
      · exact Or.inr (by simp [hin])

theorem eliminarExecStep_staff_other (f : Failures) (dry o : Bool) (st : RunState)
    (e : Nat × Nat) (c : Nat) (h : e.1 ≠ c) :
    (eliminarExecStep f dry o st e).remote.staff c = st.remote.staff c := by
  unfold eliminarExecStep
  split
  · split
    · rfl
    · split
      · rfl
      · simp only []
        rw [if_neg (fun hcon => h hcon.symm)]
  · rfl

theorem eliminarExec_staff_other (f : Failures) (dry o : Bool)
    (ps : List (Nat × Nat)) (st : RunState) (c : Nat)
    (h : ∀ pr ∈ ps, pr.1 ≠ c) :
    (ps.foldl (eliminarExecStep f dry o) st).remote.staff c = st.remote.staff c := by
  induction ps generalizing st with
  | nil => rfl
  | cons e ps ih =>
      rw [List.foldl_cons]
      rw [ih _ (fun pr hpr => h pr (List.mem_cons.mpr (Or.inr hpr)))]
      exact eliminarExecStep_staff_other f dry o st e c (h e (List.mem_cons_self e ps))

theorem eliminarGather_remote (f : Failures) (ds : List (Nat × List Nat))
    (acc : RunState × List (Nat × Nat)) :
    (ds.foldl (eliminarGatherStep f) acc).1.remote = acc.1.remote := by
  have h := eliminarGather_frame f ds acc
  unfold frameG at h
  simp only [Prod.mk.injEq] at h
  exact h.2.2.2.1

/-- C7: the set of classes from which removals are attempted is always a
subset of the classes that appeared in at least one match this run — a class
with zero matches never enters `desired_by_class`, and the removal phase never
mutates the roster of a class outside `desired_by_class`; the state entering
the class-assignment phase always carries an empty `desired_by_class`. -/
theorem C7_removal_containment (f : Failures) (dry onProgress : Bool)
    (dms : List (Docente × List Clase)) (st : RunState)
    (hd0 : st.desired_by_class = []) :
    (∀ c, (alookup (clasesPhase f dry dms st).desired_by_class c).isSome →
      c ∈ matchedClassIds dms) ∧
    (∀ c, alookup (clasesPhase f dry dms st).desired_by_class c = none →
      (eliminarPhase f dry onProgress (clasesPhase f dry dms st)).remote.staff c =
        (clasesPhase f dry dms st).remote.staff c) ∧
    (∀ docentes docentesEstado invalidos remote f2 dry2,
      (preClasesState docentes docentesEstado invalidos remote f2 dry2).desired_by_class
        = []) := by
  refine ⟨?_, ?_, ?_⟩
  · intro c hc
    rw [clasesPhase_desired, alookup_pairsAadd_isSome, hd0] at hc
    rcases hc with hc | hc
    · simp [alookup] at hc
    · exact matchPairs_fst_sub dms c hc
  · intro c hc
    unfold eliminarPhase
    set st3 := clasesPhase f dry dms st with hst3
    rw [eliminarExec_staff_other, eliminarGather_remote]
    intro pr hpr
    rcases eliminarGather_pending f st3.desired_by_class (st3, []) pr hpr with h | h
    · cases h
    · intro hcon
      subst hcon
      rw [List.mem_map] at h
      obtain ⟨e, he, hfst⟩ := h
      have hkeys : pr.1 ∈ akeys st3.desired_by_class := by
        unfold akeys
        rw [List.mem_map]
        exact ⟨e, he, hfst⟩
      rw [alookup_none_iff_keys] at hc
      exact hc hkeys
  · intro docentes docentesEstado invalidos remote f2 dry2
    unfold preClasesState
    simp only []
    have hn : ∀ (niv : List (Nat × List Nat)) (st0 : RunState),
        (nivelesPhase f2 dry2 niv st0).desired_by_class = st0.desired_by_class := by
      intro niv st0
      have h := nivelesPhase_frame f2 dry2 niv st0
      unfold frameN at h
      simp only [Prod.mk.injEq] at h
      exact h.2.2.1
    have he : ∀ (emap : List (Nat × Bool)) (nmap : List (Nat × List Nat))
        (st0 : RunState),
        (estadoPhase f2 dry2 emap nmap st0).desired_by_class = st0.desired_by_class := by
      intro emap nmap st0
      unfold estadoPhase
      simp only []
      have h1 := estadoExec_frame f2 dry2
        (emap.foldl (estadoPlanStep
          (fetch_activos_por_nivel st0.remote f2
            (List.insertionSort (· ≤ ·) ((nmap.map (·.2)).flatten.dedup))).1 nmap)
          ({ st0 with
             errors := st0.errors ++
               (fetch_activos_por_nivel st0.remote f2
                 (List.insertionSort (· ≤ ·) ((nmap.map (·.2)).flatten.dedup))).2,
             summary := { st0.summary with
               errores_api := st0.summary.errores_api +
                 (fetch_activos_por_nivel st0.remote f2
                   (List.insertionSort (· ≤ ·) ((nmap.map (·.2)).flatten.dedup))).2.length } },
           [])).2
        (emap.foldl (estadoPlanStep
          (fetch_activos_por_nivel st0.remote f2
            (List.insertionSort (· ≤ ·) ((nmap.map (·.2)).flatten.dedup))).1 nmap)
          ({ st0 with
             errors := st0.errors ++
               (fetch_activos_por_nivel st0.remote f2
                 (List.insertionSort (· ≤ ·) ((nmap.map (·.2)).flatten.dedup))).2,
             summary := { st0.summary with
               errores_api := st0.summary.errores_api +
                 (fetch_activos_por_nivel st0.remote f2
                   (List.insertionSort (· ≤ ·) ((nmap.map (·.2)).flatten.dedup))).2.length } },
           [])).1
      unfold frameE at h1
      simp only [Prod.mk.injEq] at h1
      rw [h1.2.2.1]
      have h2 := estadoPlan_frame
        (fetch_activos_por_nivel st0.remote f2
          (List.insertionSort (· ≤ ·) ((nmap.map (·.2)).flatten.dedup))).1 nmap emap
        ({ st0 with
           errors := st0.errors ++
             (fetch_activos_por_nivel st0.remote f2
               (List.insertionSort (· ≤ ·) ((nmap.map (·.2)).flatten.dedup))).2,
           summary := { st0.summary with
             errores_api := st0.summary.errores_api +
               (fetch_activos_por_nivel st0.remote f2
                 (List.insertionSort (· ≤ ·) ((nmap.map (·.2)).flatten.dedup))).2.length } },
         [])
      unfold frameP at h2
      simp only [Prod.mk.injEq] at h2
      exact h2.2.2.1
    split
    · split
      · rfl
      · rw [hn]
    · split
      · rw [he]
      · rw [he, hn]

/-- C7-witness: the containment theorem applied to the concrete one-docente
run (class 10 received a match, so it may appear in the removal set). -/
theorem C7_removal_containment_witness :
    (10 : Nat) ∈ matchedClassIds [(docenteM, [claseM3PA])] :=
  (C7_removal_containment noFailures false true [(docenteM, [claseM3PA])]
    ⟨{}, [], [], [], [], [], remoteM⟩ rfl).1 10 (by decide)

/-- The error bookkeeping invariant: the `errores_api` counter equals the
number of collected error records and every record carries a typed kind. -/
def errOk (st : RunState) : Prop :=
  st.summary.errores_api = st.errors.length ∧ ∀ e ∈ st.errors, e.tipo ∈ allowedTipos

theorem errOk_mk (st st2 : RunState) (err : ApiError)
    (he : st2.errors = st.errors ++ [err])
    (ha : st2.summary.errores_api = st.summary.errores_api + 1)
    (ht : err.tipo ∈ allowedTipos) (h : errOk st) : errOk st2 := by
  constructor
  · rw [he, ha, List.length_append, h.1]
    rfl
  · intro e hm
    rw [he, List.mem_append] at hm
    rcases hm with hm | hm
    · exact h.2 e hm
    · rw [List.mem_singleton] at hm
      subst hm
      exact ht

theorem errOk_keep (st st2 : RunState) (he : st2.errors = st.errors)
    (ha : st2.summary.errores_api = st.summary.errores_api) (h : errOk st) :
    errOk st2 := by
  constructor
  · rw [he, ha, h.1]
  · intro e hm
    rw [he] at hm
    exact h.2 e hm

theorem nivelesStep_errOk (f : Failures) (dry : Bool) (st : RunState)
    (e : Nat × List Nat) (h : errOk st) : errOk (nivelesStep f dry st e) := by
  unfold nivelesStep
  split
  · exact errOk_keep _ _ rfl rfl h
  · split
    · exact errOk_keep _ _ rfl rfl h
    · split
      · exact errOk_mk _ _ _ rfl rfl (by simp [allowedTipos]) h
      · exact errOk_keep _ _ rfl rfl h

theorem nivelesPhase_errOk (f : Failures) (dry : Bool) (niv : List (Nat × List Nat))
    (st : RunState) (h : errOk st) : errOk (nivelesPhase f dry niv st) := by
  induction niv generalizing st with
  | nil => exact h
  | cons e niv ih =>
      unfold nivelesPhase at *
      rw [List.foldl_cons]
      exact ih _ (nivelesStep_errOk f dry st e h)

theorem fetch_activos_tipos (r : Remote) (f : Failures) (ns : List Nat)
    (acc : List (Nat × (Nat → Option Bool)) × List ApiError)
    (err : ApiError) (hm : err ∈ (ns.foldl (fetchActivosStep r f) acc).2) :
    err ∈ acc.2 ∨ err.tipo = "listar_profesores_nivel" := by
  induction ns generalizing acc with
  | nil => exact Or.inl hm
  | cons n ns ih =>
      rw [List.foldl_cons] at hm
      rcases ih _ hm with hin | hin
      · unfold fetchActivosStep at hin
        split at hin
        · rw [List.mem_append] at hin
          rcases hin with hin | hin
          · exact Or.inl hin
          · rw [List.mem_singleton] at hin
            subst hin
            exact Or.inr rfl
        · exact Or.inl hin
      · exact Or.inr hin

theorem estadoPlanStep_errOk (apn : List (Nat × (Nat → Option Bool)))
    (nmap : List (Nat × List Nat)) (acc : RunState × List Change) (e : Nat × Bool)
    (h : errOk acc.1) : errOk (estadoPlanStep apn nmap acc e).1 := by
  have hf := estadoPlanStep_frame apn nmap acc e
  unfold frameP at hf
  simp only [Prod.mk.injEq] at hf
  exact errOk_keep _ _ hf.2.2.2.2.1 hf.2.2.2.2.2.2.2.2.2.2.2.2.2.2.2.2 h

theorem estadoExecStep_errOk (f : Failures) (dry : Bool) (st : RunState) (ch : Change)
    (h : errOk st) : errOk (estadoExecStep f dry st ch) := by
  unfold estadoExecStep
  split
  · split <;> exact errOk_keep _ _ rfl rfl h
  · split
    · exact errOk_mk _ _ _ rfl rfl (by simp [allowedTipos]) h
    · split <;> exact errOk_keep _ _ rfl rfl h

theorem asignarClaseCore_errOk (f : Failures) (dry : Bool) (p c : Nat)
    (st : RunState) (staff : List Nat) (h : errOk st) :
    errOk (asignarClaseCore f dry p c st staff) := by
  simp only [asignarClaseCore]
  split
  · split
    · exact errOk_keep _ _ rfl rfl h
    · split
      · exact errOk_keep _ _ rfl rfl h
      · split
        · exact errOk_mk _ _ _ rfl rfl (by simp [allowedTipos]) h
        · exact errOk_keep _ _ rfl rfl h
  · split
    · exact errOk_keep _ _ rfl rfl h
    · split
      · exact errOk_keep _ _ rfl rfl h
      · split
        · exact errOk_mk _ _ _ rfl rfl (by simp [allowedTipos]) h
        · exact errOk_keep _ _ rfl rfl h

theorem asignarClase_errOk (f : Failures) (dry : Bool) (p : Nat) (st : RunState)
    (c : Nat) (h : errOk st) : errOk (asignarClase f dry p st c) := by
  simp only [asignarClase]
  split
  · exact asignarClaseCore_errOk f dry p c st _ h
  · split
    · exact errOk_mk _ _ _ rfl rfl (by simp [allowedTipos]) h
    · exact asignarClaseCore_errOk f dry p c _ _
        (errOk_keep _ _ rfl rfl h)

theorem desiredFold_errOk (p : Nat) (cs : List Clase) (st : RunState) (h : errOk st) :
    errOk (cs.foldl
      (fun s c => { s with desired_by_class := aadd s.desired_by_class c.id p }) st) := by
  induction cs generalizing st with
  | nil => exact h
  | cons c cs ih =>
      rw [List.foldl_cons]
      exact ih _ (errOk_keep _ _ rfl rfl h)

theorem pairFold_errOk (f : Failures) (dry : Bool) (p : Nat) (cs : List Clase)
    (st : RunState) (h : errOk st) :
    errOk (cs.foldl (fun s c => asignarClase f dry p s c.id) st) := by
  induction cs generalizing st with
  | nil => exact h
  | cons c cs ih =>
      rw [List.foldl_cons]
      exact ih _ (asignarClase_errOk f dry p st c.id h)

theorem asignarDocente_errOk (f : Failures) (dry : Bool) (st : RunState)
    (dm : Docente × List Clase) (h : errOk st) : errOk (asignarDocente f dry st dm) := by
  unfold asignarDocente
  split
  · exact errOk_keep _ _ rfl rfl h
  · split
    · exact errOk_keep _ _ rfl rfl h
    · exact pairFold_errOk f dry dm.1.personaId dm.2 _
        (desiredFold_errOk dm.1.personaId dm.2 _ (errOk_keep _ _ rfl rfl h))

theorem clasesPhase_errOk (f : Failures) (dry : Bool)
    (dms : List (Docente × List Clase)) (st : RunState) (h : errOk st) :
    errOk (clasesPhase f dry dms st) := by
  induction dms generalizing st with
  | nil => exact h
  | cons dm dms ih =>
      unfold clasesPhase at *
      rw [List.foldl_cons]
      exact ih _ (asignarDocente_errOk f dry st dm h)

theorem eliminarGatherStep_errOk (f : Failures) (acc : RunState × List (Nat × Nat))
    (e : Nat × List Nat) (h : errOk acc.1) : errOk (eliminarGatherStep f acc e).1 := by
  unfold eliminarGatherStep
  split
  · exact errOk_keep _ _ rfl rfl h
  · split
    · exact errOk_mk _ _ _ rfl rfl (by simp [allowedTipos]) h
    · exact errOk_keep _ _ rfl rfl h

theorem eliminarExecStep_errOk (f : Failures) (dry o : Bool) (st : RunState)
    (e : Nat × Nat) (h : errOk st) : errOk (eliminarExecStep f dry o st e) := by
  unfold eliminarExecStep
  split
  · split
    · exact errOk_keep _ _ rfl rfl h
    · split
      · exact errOk_mk _ _ _ rfl rfl (by simp [allowedTipos]) h
      · exact errOk_keep _ _ rfl rfl h
  · exact h

theorem eliminarPhase_errOk (f : Failures) (dry o : Bool) (st : RunState)
    (h : errOk st) : errOk (eliminarPhase f dry o st) := by
  unfold eliminarPhase
  have h1 : ∀ (ds : List (Nat × List Nat)) (acc : RunState × List (Nat × Nat)),
      errOk acc.1 → errOk (ds.foldl (eliminarGatherStep f) acc).1 := by
    intro ds
    induction ds with
    | nil => exact fun acc h2 => h2
    | cons e ds ih =>
        intro acc h2
        rw [List.foldl_cons]
        exact ih _ (eliminarGatherStep_errOk f acc e h2)
  have h2 : ∀ (ps : List (Nat × Nat)) (st2 : RunState),
      errOk st2 → errOk (ps.foldl (eliminarExecStep f dry o) st2) := by
    intro ps
    induction ps with
    | nil => exact fun st2 h3 => h3
    | cons e ps ih =>
        intro st2 h3
        rw [List.foldl_cons]
        exact ih _ (eliminarExecStep_errOk f dry o st2 e h3)
  exact h2 _ _ (h1 _ _ h)

theorem estadoPhase_errOk (f : Failures) (dry : Bool) (emap : List (Nat × Bool))
    (nmap : List (Nat × List Nat)) (st : RunState) (h : errOk st) :
    errOk (estadoPhase f dry emap nmap st) := by
  unfold estadoPhase
  simp only []
  have h1 : ∀ (chs : List Change) (st2 : RunState),
      errOk st2 → errOk (chs.foldl (estadoExecStep f dry) st2) := by
    intro chs
    induction chs with
    | nil => exact fun st2 h3 => h3
    | cons ch chs ih =>
        intro st2 h3
        rw [List.foldl_cons]
        exact ih _ (estadoExecStep_errOk f dry st2 ch h3)
  have h2 : ∀ (emap2 : List (Nat × Bool)) (apn : List (Nat × (Nat → Option Bool)))
      (acc : RunState × List Change), errOk acc.1 →
      errOk (emap2.foldl (estadoPlanStep apn nmap) acc).1 := by
    intro emap2 apn
    induction emap2 with
    | nil => exact fun acc h3 => h3
    | cons e emap2 ih =>
        intro acc h3
        rw [List.foldl_cons]
        exact ih _ (estadoPlanStep_errOk apn nmap acc e h3)
  apply h1
  apply h2
  constructor
  · simp only [List.length_append]
    rw [h.1]
  · intro e hm
    simp only [List.mem_append] at hm
    rcases hm with hm | hm
    · exact h.2 e hm
    · rcases fetch_activos_tipos st.remote f _ ([], []) e hm with hin | hin
      · cases hin
      · rw [hin]
        decide

theorem preClasesState_clases (docentes docentesEstado : List Docente) (invalidos : Nat)
    (remote : Remote) (f : Failures) (dry : Bool) :
    (preClasesState docentes docentesEstado invalidos remote f dry).remote.clases =
      remote.clases := by
  unfold preClasesState
  simp only []
  have hn : ∀ (niv : List (Nat × List Nat)) (st0 : RunState),
      (nivelesPhase f dry niv st0).remote = st0.remote := by
    intro niv st0
    have h := nivelesPhase_frame f dry niv st0
    unfold frameN at h
    simp only [Prod.mk.injEq] at h
    exact h.2.2.2.1
  have he : ∀ (emap : List (Nat × Bool)) (nmap : List (Nat × List Nat))
      (st0 : RunState),
      (estadoPhase f dry emap nmap st0).remote.clases = st0.remote.clases := by
    intro emap nmap st0
    unfold estadoPhase
    simp only []
    have h1 := estadoExec_frame f dry
      (emap.foldl (estadoPlanStep
        (fetch_activos_por_nivel st0.remote f
          (List.insertionSort (· ≤ ·) ((nmap.map (·.2)).flatten.dedup))).1 nmap)
        ({ st0 with
           errors := st0.errors ++
             (fetch_activos_por_nivel st0.remote f
               (List.insertionSort (· ≤ ·) ((nmap.map (·.2)).flatten.dedup))).2,
           summary := { st0.summary with
             errores_api := st0.summary.errores_api +
               (fetch_activos_por_nivel st0.remote f
                 (List.insertionSort (· ≤ ·) ((nmap.map (·.2)).flatten.dedup))).2.length } },
         [])).2
      (emap.foldl (estadoPlanStep
        (fetch_activos_por_nivel st0.remote f
          (List.insertionSort (· ≤ ·) ((nmap.map (·.2)).flatten.dedup))).1 nmap)
        ({ st0 with
           errors := st0.errors ++
             (fetch_activos_por_nivel st0.remote f
               (List.insertionSort (· ≤ ·) ((nmap.map (·.2)).flatten.dedup))).2,
           summary := { st0.summary with
             errores_api := st0.summary.errores_api +
               (fetch_activos_por_nivel st0.remote f
                 (List.insertionSort (· ≤ ·) ((nmap.map (·.2)).flatten.dedup))).2.length } },
         [])).1
    unfold frameE at h1
    simp only [Prod.mk.injEq] at h1
    rw [h1.2.2.2.2.1]
    have h2 := estadoPlan_frame
      (fetch_activos_por_nivel st0.remote f
        (List.insertionSort (· ≤ ·) ((nmap.map (·.2)).flatten.dedup))).1 nmap emap
      ({ st0 with
         errors := st0.errors ++
           (fetch_activos_por_nivel st0.remote f
             (List.insertionSort (· ≤ ·) ((nmap.map (·.2)).flatten.dedup))).2,
         summary := { st0.summary with
           errores_api := st0.summary.errores_api +
             (fetch_activos_por_nivel st0.remote f
               (List.insertionSort (· ≤ ·) ((nmap.map (·.2)).flatten.dedup))).2.length } },
       [])
    unfold frameP at h2
    simp only [Prod.mk.injEq] at h2
    rw [h2.2.2.2.1]
  split
  · split
    · rfl
    · rw [hn]
  · split
    · rw [he]
    · rw [he, hn]

theorem preClasesState_errOk (docentes docentesEstado : List Docente) (invalidos : Nat)
    (remote : Remote) (f : Failures) (dry : Bool) :
    errOk (preClasesState docentes docentesEstado invalidos remote f dry) := by
  unfold preClasesState
  simp only []
  have h0 : ∀ st0 : RunState, st0.summary.errores_api = 0 → st0.errors = [] →
      errOk st0 := by
    intro st0 h1 h2
    constructor
    · rw [h1, h2]
      rfl
    · intro e hm
      rw [h2] at hm
      cases hm
  split
  · split
    · exact h0 _ rfl rfl
    · exact nivelesPhase_errOk f dry _ _ (h0 _ rfl rfl)
  · split
    · exact estadoPhase_errOk f dry _ _ _ (h0 _ rfl rfl)
    · exact estadoPhase_errOk f dry _ _ _ (nivelesPhase_errOk f dry _ _ (h0 _ rfl rfl))

/-- C8: a catalog-fetch failure aborts the whole run with that error and no
summary, while with a successful catalog fetch the run always returns a
complete summary no matter which other remote calls fail: every such failure
is recorded in the error list with one of the typed kinds and counted in
`errores_api` (which always equals the length of the error list). -/
theorem C8_fatal_catalog_nonfatal_rest (docentes docentesEstado : List Docente)
    (invalidos : Nat) (remote : Remote) (f : Failures)
    (dry_run remove_missing onProgress : Bool) :
    (∀ msg, remote.clases = .error msg →
      asignar_profesores_clases docentes docentesEstado invalidos remote f dry_run
        remove_missing onProgress = .error msg) ∧
    (∀ clasesFetched, remote.clases = .ok clasesFetched →
      ∃ s w e r2, asignar_profesores_clases docentes docentesEstado invalidos remote f
          dry_run remove_missing onProgress = .ok (s, w, e, r2) ∧
        s.errores_api = e.length ∧ ∀ err ∈ e, err.tipo ∈ allowedTipos) := by
  constructor
  · intro msg hmsg
    unfold asignar_profesores_clases
    simp only []
    rw [preClasesState_clases, hmsg]
  · intro clasesFetched hok
    unfold asignar_profesores_clases
    simp only []
    rw [preClasesState_clases, hok]
    simp only []
    have h1 : errOk (clasesAndRemoval docentes f dry_run remove_missing onProgress
        clasesFetched
        (preClasesState docentes docentesEstado invalidos remote f dry_run)) := by
      unfold clasesAndRemoval
      simp only []
      have h0 := preClasesState_errOk docentes docentesEstado invalidos remote f dry_run
      split
      · split
        · apply eliminarPhase_errOk
          apply clasesPhase_errOk
          exact errOk_keep _ _ rfl rfl h0
        · apply clasesPhase_errOk
          exact errOk_keep _ _ rfl rfl h0
      · split
        · apply eliminarPhase_errOk
          apply clasesPhase_errOk
          exact h0
        · apply clasesPhase_errOk
          exact h0
    split
    · refine ⟨_, _, _, _, rfl, ?_, ?_⟩
      · exact h1.1
      · exact h1.2
    · refine ⟨_, _, _, _, rfl, ?_, ?_⟩
      · exact h1.1
      · exact h1.2

/-- C8-witness: the fatal and non-fatal parts applied concretely — a run whose
catalog call fails raises exactly that error, and a run whose staff-listing
call fails still returns a summary whose `errores_api` matches its typed
error list. -/
theorem C8_fatal_catalog_nonfatal_rest_witness :
    (asignar_profesores_clases [docenteM] [] 0
        ⟨.error "HTTP 500", fun _ => [], fun _ _ => none⟩ noFailures false false false =
      .error "HTTP 500") ∧
    (∃ s w e r2, asignar_profesores_clases [docenteM] [] 0 remoteM
        ⟨fun _ => some "HTTP 500", fun _ => none, fun _ => none, fun _ _ => none,
         fun _ _ => none, fun _ _ => none⟩ false false false = .ok (s, w, e, r2) ∧
      s.errores_api = e.length ∧ ∀ err ∈ e, err.tipo ∈ allowedTipos) :=
  ⟨(C8_fatal_catalog_nonfatal_rest [docenteM] [] 0
      ⟨.error "HTTP 500", fun _ => [], fun _ _ => none⟩ noFailures false false
      false).1 "HTTP 500" rfl,
   (C8_fatal_catalog_nonfatal_rest [docenteM] [] 0 remoteM
      ⟨fun _ => some "HTTP 500", fun _ => none, fun _ => none, fun _ _ => none,
       fun _ _ => none, fun _ _ => none⟩ false false false).2 ([claseM3PA], 0) rfl⟩

/-- The personas granted to one class by an assignment-attempt trace. -/
def assignedFor (G : List (Nat × Nat)) (c : Nat) : List Nat :=
  (G.filter (fun pr => pr.1 = c)).map (·.2)

/-- Replace the activation view of the remote state, leaving everything else
(including the staff rosters) unchanged. -/
def setActivos (st : RunState) (a : Nat → Nat → Option Bool) : RunState :=
  { st with remote := { st.remote with activos := a } }

/-- The pointwise activation updates the estado execution loop applies. -/
def execActivos : List Change → (Nat → Nat → Option Bool) → (Nat → Nat → Option Bool)
  | [], a => a
  | ch :: chs, a =>
      execActivos chs (fun n p => if n = ch.2.1 ∧ p = ch.1 then some ch.2.2.1 else a n p)

/-- The pending-removal list the gather loop produces when every class resolves
to the roster view `roster`. -/
def pendingOf (roster : Nat → List Nat) (ds : List (Nat × List Nat)) :
    List (Nat × Nat) :=
  ds.flatMap (fun e =>
    (List.insertionSort (· ≤ ·) ((roster e.1).filter (fun p => p ∉ e.2))).map
      (fun p => (e.1, p)))

/-- The six action counters of a summary. -/
def sixCounters (s : Summary) : Nat × Nat × Nat × Nat × Nat × Nat :=
  (s.niveles_asignados, s.estado_activaciones, s.estado_inactivaciones,
   s.asignaciones_nuevas, s.asignaciones_omitidas, s.eliminaciones)

/-- Invariant of a dry-mode class-assignment phase against the pure simulation
accumulator `acc`: the remote rosters are the untouched `staff0`, the cache
holds deduplicated original rosters, and the planned map mirrors the simulated
grants. -/
structure DryInv (staff0 : Nat → List Nat) (acc : List (Nat × Nat) × Nat × Nat)
    (st : RunState) : Prop where
  staffEq : st.remote.staff = staff0
  nuevasEq : st.summary.asignaciones_nuevas = acc.2.1
  omitidasEq : st.summary.asignaciones_omitidas = acc.2.2
  cacheSome : ∀ c l, alookup st.staff_cache c = some l → l = (staff0 c).dedup
  plannedNone : ∀ c, alookup st.planned_by_class c = none → assignedFor acc.1 c = []
  plannedSome : ∀ c l, alookup st.planned_by_class c = some l → l = assignedFor acc.1 c

/-- Invariant of an apply-mode class-assignment phase against the pure
simulation accumulator `acc`: the remote rosters and the cache carry the
simulated grants appended, and the planned map holds only empty sets. -/
structure ApplyInv (staff0 : Nat → List Nat) (acc : List (Nat × Nat) × Nat × Nat)
    (st : RunState) : Prop where
  staffEq : ∀ c, st.remote.staff c = staff0 c ++ assignedFor acc.1 c
  nuevasEq : st.summary.asignaciones_nuevas = acc.2.1
  omitidasEq : st.summary.asignaciones_omitidas = acc.2.2
  cacheNone : ∀ c, alookup st.staff_cache c = none → assignedFor acc.1 c = []
  cacheSome : ∀ c l, alookup st.staff_cache c = some l →
      l = (staff0 c).dedup ++ assignedFor acc.1 c
  plannedSome : ∀ c l, alookup st.planned_by_class c = some l → l = []

/-- Invariant of the removal gather loop: every class, cached or not, resolves
to the roster view `roster`. -/
structure GatherInv (roster : Nat → List Nat) (st : RunState) : Prop where
  cacheSome : ∀ c l, alookup st.staff_cache c = some l → l = roster c
  cacheNone : ∀ c, alookup st.staff_cache c = none → (st.remote.staff c).dedup = roster c

theorem alookup_append_one {α β : Type} [DecidableEq α] (m : List (α × β)) (k a : α)
    (v : β) :
    alookup (m ++ [(k, v)]) a =
      match alookup m a with
      | some x => some x
      | none => if k = a then some v else none := by
  induction m with
  | nil => rfl
  | cons hd tl ih =>
      rw [List.cons_append]
      show (if hd.1 = a then some hd.2 else alookup (tl ++ [(k, v)]) a) = _
      by_cases hha : hd.1 = a
      · rw [if_pos hha]
        show _ = (match (if hd.1 = a then some hd.2 else alookup tl a) with
          | some x => some x
          | none => if k = a then some v else none)
        rw [if_pos hha]
      · rw [if_neg hha, ih]
        show _ = (match (if hd.1 = a then some hd.2 else alookup tl a) with
          | some x => some x
          | none => if k = a then some v else none)
        rw [if_neg hha]

theorem mem_assignedFor (G : List (Nat × Nat)) (c p : Nat) :
    p ∈ assignedFor G c ↔ (c, p) ∈ G := by
  simp only [assignedFor, List.mem_map, List.mem_filter, decide_eq_true_eq]
  constructor
  · rintro ⟨pr, ⟨hmem, hc⟩, hp⟩
    obtain ⟨a, b⟩ := pr
    cases hc
    cases hp
    exact hmem
  · intro hmem
    exact ⟨(c, p), ⟨hmem, rfl⟩, rfl⟩

theorem assignedFor_append (G : List (Nat × Nat)) (c p c2 : Nat) :
    assignedFor (G ++ [(c, p)]) c2 =
      assignedFor G c2 ++ (if c = c2 then [p] else []) := by
  unfold assignedFor
  rw [List.filter_append, List.map_append]
  congr 1
  by_cases hc : c = c2
  · subst hc
    simp
  · simp [hc]

theorem setActivos_self (st : RunState) : setActivos st st.remote.activos = st := rfl

theorem simAsg_assigned_sub (staff0 : Nat → List Nat) (prs : List (Nat × Nat))
    (acc : List (Nat × Nat) × Nat × Nat) (pr : Nat × Nat)
    (h : pr ∈ (simAsg staff0 prs acc).1) : pr ∈ acc.1 ∨ pr ∈ prs := by
  induction prs generalizing acc with
  | nil => exact Or.inl h
  | cons pr2 prs ih =>
      unfold simAsg at h
      rw [List.foldl_cons] at h
      rcases ih _ h with hin | hin
      · unfold simStep at hin
        split at hin
        · exact Or.inl hin
        · rw [List.mem_append] at hin
          rcases hin with hin | hin
          · exact Or.inl hin
          · rw [List.mem_singleton] at hin
            subst hin
            exact Or.inr (List.mem_cons_self _ _)
      · exact Or.inr (List.mem_cons.mpr (Or.inr hin))

theorem akeys_aadd (m : List (Nat × List Nat)) (k : Nat) (x : Nat) :
    akeys (aadd m k x) = if k ∈ akeys m then akeys m else akeys m ++ [k] := by
  induction m with
  | nil => simp [aadd, akeys]
  | cons hd tl ih =>
      obtain ⟨k0, v0⟩ := hd
      simp only [aadd, akeys, List.map_cons]
      by_cases h0 : k0 = k
      · subst h0
        rw [if_pos rfl, if_pos (List.mem_cons_self _ _)]
        rfl
      · rw [if_neg h0]
        show (k0 :: akeys (aadd tl k x)) = _
        rw [ih]
        unfold akeys
        by_cases hk : k ∈ tl.map (·.1)
        · rw [if_pos hk, if_pos (List.mem_cons.mpr (Or.inr hk))]
        · rw [if_neg hk,
            if_neg (fun hcon => by
              rcases List.mem_cons.mp hcon with hcon | hcon
              · exact h0 hcon.symm
              · exact hk hcon)]
          rfl

theorem pairsAadd_keys_nodup (prs : List (Nat × Nat)) (m : List (Nat × List Nat))
    (h : (akeys m).Nodup) : (akeys (pairsAadd prs m)).Nodup := by
  induction prs generalizing m with
  | nil => exact h
  | cons pr prs ih =>
      unfold pairsAadd at *
      rw [List.foldl_cons]
      apply ih
      rw [akeys_aadd]
      by_cases hk : pr.1 ∈ akeys m
      · rw [if_pos hk]
        exact h
      · rw [if_neg hk]
        simp only [List.nodup_append, List.nodup_cons]
        refine ⟨h, by simp, ?_⟩
        intro a ha
        simp only [List.mem_singleton]
        intro hcon
        subst hcon
        exact hk ha

theorem alookup_mem_nodup {α β : Type} [DecidableEq α] (m : List (α × β))
    (hnd : (akeys m).Nodup) (e : α × β) (he : e ∈ m) : alookup m e.1 = some e.2 := by
  induction m with
  | nil => cases he
  | cons hd tl ih =>
      rw [akeys, List.map_cons, List.nodup_cons] at hnd
      rcases List.mem_cons.mp he with rfl | hetl
      · show (if e.1 = e.1 then some e.2 else _) = some e.2
        rw [if_pos rfl]
      · show (if hd.1 = e.1 then some hd.2 else alookup tl e.1) = some e.2
        have hne : hd.1 ≠ e.1 := by
          intro hcon
          refine hnd.1 ?_
          rw [hcon]
          exact List.mem_map.mpr ⟨e, hetl, rfl⟩
        rw [if_neg hne, ih hnd.2 hetl]

theorem dryCore_inv (staff0 : Nat → List Nat) (acc : List (Nat × Nat) × Nat × Nat)
    (p c : Nat) (st : RunState) (h : DryInv staff0 acc st) :
    DryInv staff0 (simStep staff0 acc (c, p))
      (asignarClaseCore noFailures true p c st ((staff0 c).dedup)) := by
  simp only [asignarClaseCore]
  by_cases hpd : alookup st.planned_by_class c = none
  · rw [if_pos hpd]
    have hlook : alookup (st.planned_by_class ++ [(c, [])]) c = some ([] : List Nat) := by
      rw [alookup_append_one, hpd]
      simp
    have hasg : assignedFor acc.1 c = [] := h.plannedNone c hpd
    split
    · rename_i hcondT
      have hc2 : p ∈ staff0 c ∨ (c, p) ∈ acc.1 := by
        rcases hcondT with hs | hs
        · exact Or.inl (List.mem_dedup.mp hs)
        · rw [hlook, Option.getD_some] at hs
          cases hs
      have hsim : simStep staff0 acc (c, p) = (acc.1, acc.2.1, acc.2.2 + 1) := by
        simp only [simStep]
        rw [if_pos hc2]
      rw [hsim]
      refine ⟨h.staffEq, h.nuevasEq, ?_, h.cacheSome, ?_, ?_⟩
      · show st.summary.asignaciones_omitidas + 1 = acc.2.2 + 1
        rw [h.omitidasEq]
      · intro c2 hm
        rw [alookup_append_one] at hm
        cases hq : alookup st.planned_by_class c2 with
        | some l2 =>
            simp only [hq] at hm
            exact Option.noConfusion hm
        | none => exact h.plannedNone c2 hq
      · intro c2 l hm
        rw [alookup_append_one] at hm
        cases hq : alookup st.planned_by_class c2 with
        | some l0 =>
            simp only [hq, Option.some.injEq] at hm
            rw [← hm]
            exact h.plannedSome c2 l0 hq
        | none =>
            simp only [hq] at hm
            by_cases hcc : c = c2
            · rw [if_pos hcc] at hm
              cases Option.some.inj hm
              subst hcc
              rw [hasg]
            · rw [if_neg hcc] at hm
              exact Option.noConfusion hm
    · rename_i hcondF
      rw [if_pos trivial]
      have hnotskip : ¬(p ∈ staff0 c ∨ (c, p) ∈ acc.1) := by
        intro hcon
        apply hcondF
        rcases hcon with hs | hs
        · exact Or.inl (List.mem_dedup.mpr hs)
        · rw [← mem_assignedFor, hasg] at hs
          cases hs
      have hsim : simStep staff0 acc (c, p) = (acc.1 ++ [(c, p)], acc.2.1 + 1, acc.2.2) := by
        simp only [simStep]
        rw [if_neg hnotskip]
      rw [hsim]
      refine ⟨h.staffEq, ?_, h.omitidasEq, h.cacheSome, ?_, ?_⟩
      · show st.summary.asignaciones_nuevas + 1 = acc.2.1 + 1
        rw [h.nuevasEq]
      · intro c2 hm
        rw [alookup_aadd] at hm
        by_cases hcc : c = c2
        · rw [if_pos hcc] at hm
          exact Option.noConfusion hm
        · rw [if_neg hcc] at hm
          rw [alookup_append_one] at hm
          rw [assignedFor_append, if_neg hcc, List.append_nil]
          cases hq : alookup st.planned_by_class c2 with
          | some l2 =>
              simp only [hq] at hm
              exact Option.noConfusion hm
          | none => exact h.plannedNone c2 hq
      · intro c2 l hm
        rw [alookup_aadd] at hm
        by_cases hcc : c = c2
        · rw [if_pos hcc] at hm
          rw [hlook, Option.getD_some] at hm
          have hl : l = insertEnd [] p := (Option.some.inj hm).symm
          subst hcc
          rw [hl, assignedFor_append, if_pos rfl, hasg]
          rfl
        · rw [if_neg hcc] at hm
          rw [alookup_append_one] at hm
          rw [assignedFor_append, if_neg hcc, List.append_nil]
          cases hq : alookup st.planned_by_class c2 with
          | some l0 =>
              simp only [hq, Option.some.injEq] at hm
              rw [← hm]
              exact h.plannedSome c2 l0 hq
          | none =>
              simp only [hq] at hm
              rw [if_neg hcc] at hm
              cases hm
  · rw [if_neg hpd]
    obtain ⟨l0, hl0⟩ : ∃ l0, alookup st.planned_by_class c = some l0 := by
      cases hq : alookup st.planned_by_class c with
      | none => exact absurd hq hpd
      | some l0 => exact ⟨l0, rfl⟩
    have hl0v : l0 = assignedFor acc.1 c := h.plannedSome c l0 hl0
    split
    · rename_i hcondT
      have hc2 : p ∈ staff0 c ∨ (c, p) ∈ acc.1 := by
        rcases hcondT with hs | hs
        · exact Or.inl (List.mem_dedup.mp hs)
        · rw [hl0, Option.getD_some, hl0v, mem_assignedFor] at hs
          exact Or.inr hs
      have hsim : simStep staff0 acc (c, p) = (acc.1, acc.2.1, acc.2.2 + 1) := by
        simp only [simStep]
        rw [if_pos hc2]
      rw [hsim]
      refine ⟨h.staffEq, h.nuevasEq, ?_, h.cacheSome, h.plannedNone, h.plannedSome⟩
      show st.summary.asignaciones_omitidas + 1 = acc.2.2 + 1
      rw [h.omitidasEq]
    · rename_i hcondF
      rw [if_pos trivial]
      have hnotskip : ¬(p ∈ staff0 c ∨ (c, p) ∈ acc.1) := by
        intro hcon
        apply hcondF
        rcases hcon with hs | hs
        · exact Or.inl (List.mem_dedup.mpr hs)
        · refine Or.inr ?_
          rw [hl0, Option.getD_some, hl0v, mem_assignedFor]
          exact hs
      have hsim : simStep staff0 acc (c, p) = (acc.1 ++ [(c, p)], acc.2.1 + 1, acc.2.2) := by
        simp only [simStep]
        rw [if_neg hnotskip]
      rw [hsim]
      refine ⟨h.staffEq, ?_, h.omitidasEq, h.cacheSome, ?_, ?_⟩
      · show st.summary.asignaciones_nuevas + 1 = acc.2.1 + 1
        rw [h.nuevasEq]
      · intro c2 hm
        rw [alookup_aadd] at hm
        by_cases hcc : c = c2
        · rw [if_pos hcc] at hm
          exact Option.noConfusion hm
        · rw [if_neg hcc] at hm
          rw [assignedFor_append, if_neg hcc, List.append_nil]
          exact h.plannedNone c2 hm
      · intro c2 l hm
        rw [alookup_aadd] at hm
        by_cases hcc : c = c2
        · rw [if_pos hcc] at hm
          rw [hl0, Option.getD_some] at hm
          have hpn : p ∉ l0 := by
            rw [hl0v, mem_assignedFor]
            intro hcon
            exact hnotskip (Or.inr hcon)
          have hl : l = insertEnd l0 p := (Option.some.inj hm).symm
          subst hcc
          rw [hl]
          unfold insertEnd
          rw [if_neg hpn, assignedFor_append, if_pos rfl, ← hl0v]
        · rw [if_neg hcc] at hm
          rw [assignedFor_append, if_neg hcc, List.append_nil]
          exact h.plannedSome c2 l hm

theorem dryStep_inv (staff0 : Nat → List Nat) (acc : List (Nat × Nat) × Nat × Nat)
    (p : Nat) (st : RunState) (c : Nat) (h : DryInv staff0 acc st) :
    DryInv staff0 (simStep staff0 acc (c, p)) (asignarClase noFailures true p st c) := by
  simp only [asignarClase]
  split
  · rename_i staffL heq
    have hv := h.cacheSome c staffL heq
    subst hv
    exact dryCore_inv staff0 acc p c st h
  · rename_i heq
    show DryInv staff0 (simStep staff0 acc (c, p))
      (asignarClaseCore noFailures true p c
        { st with staff_cache := st.staff_cache ++ [(c, (st.remote.staff c).dedup)] }
        ((st.remote.staff c).dedup))
    rw [h.staffEq]
    refine dryCore_inv staff0 acc p c _
      ⟨h.staffEq, h.nuevasEq, h.omitidasEq, ?_, h.plannedNone, h.plannedSome⟩
    intro c2 l hm
    show l = (staff0 c2).dedup
    rw [alookup_append_one] at hm
    cases hq : alookup st.staff_cache c2 with
    | some l0 =>
        simp only [hq, Option.some.injEq] at hm
        rw [← hm]
        exact h.cacheSome c2 l0 hq
    | none =>
        simp only [hq] at hm
        by_cases hcc : c = c2
        · rw [if_pos hcc] at hm
          cases Option.some.inj hm
          rw [← hcc]
        · rw [if_neg hcc] at hm
          exact Option.noConfusion hm

theorem applyCore_inv (staff0 : Nat → List Nat) (acc : List (Nat × Nat) × Nat × Nat)
    (p c : Nat) (st : RunState) (staffL : List Nat) (h : ApplyInv staff0 acc st)
    (hstaffL : staffL = (staff0 c).dedup ++ assignedFor acc.1 c)
    (hcached : alookup st.staff_cache c = some staffL) :
    ApplyInv staff0 (simStep staff0 acc (c, p))
      (asignarClaseCore noFailures false p c st staffL) := by
  simp only [asignarClaseCore]
  by_cases hpd : alookup st.planned_by_class c = none
  · rw [if_pos hpd]
    have hlook : alookup (st.planned_by_class ++ [(c, [])]) c = some ([] : List Nat) := by
      rw [alookup_append_one, hpd]
      simp
    split
    · rename_i hcondT
      have hc2 : p ∈ staff0 c ∨ (c, p) ∈ acc.1 := by
        rcases hcondT with hs | hs
        · rw [hstaffL, List.mem_append, List.mem_dedup, mem_assignedFor] at hs
          exact hs
        · rw [hlook, Option.getD_some] at hs
          cases hs
      have hsim : simStep staff0 acc (c, p) = (acc.1, acc.2.1, acc.2.2 + 1) := by
        simp only [simStep]
        rw [if_pos hc2]
      rw [hsim]
      refine ⟨h.staffEq, h.nuevasEq, ?_, h.cacheNone, h.cacheSome, ?_⟩
      · show st.summary.asignaciones_omitidas + 1 = acc.2.2 + 1
        rw [h.omitidasEq]
      · intro c2 l hm
        rw [alookup_append_one] at hm
        cases hq : alookup st.planned_by_class c2 with
        | some l0 =>
            simp only [hq, Option.some.injEq] at hm
            rw [← hm]
            exact h.plannedSome c2 l0 hq
        | none =>
            simp only [hq] at hm
            by_cases hcc : c = c2
            · rw [if_pos hcc] at hm
              exact (Option.some.inj hm).symm
            · rw [if_neg hcc] at hm
              exact Option.noConfusion hm
    · rename_i hcondF
      rw [if_neg Bool.false_ne_true]
      have hred : noFailures.asignarProf p c = none := rfl
      simp only [hred]
      have hnotskip : ¬(p ∈ staff0 c ∨ (c, p) ∈ acc.1) := by
        intro hcon
        apply hcondF
        refine Or.inl ?_
        rw [hstaffL, List.mem_append, List.mem_dedup, mem_assignedFor]
        exact hcon
      have hsim : simStep staff0 acc (c, p) = (acc.1 ++ [(c, p)], acc.2.1 + 1, acc.2.2) := by
        simp only [simStep]
        rw [if_neg hnotskip]
      rw [hsim]
      have hpnl : p ∉ staff0 c ++ assignedFor acc.1 c := by
        rw [List.mem_append, mem_assignedFor]
        exact hnotskip
      refine ⟨?_, ?_, h.omitidasEq, ?_, ?_, ?_⟩
      · intro c2
        show (if c2 = c then insertEnd (st.remote.staff c2) p else st.remote.staff c2) =
          staff0 c2 ++ assignedFor (acc.1 ++ [(c, p)]) c2
        by_cases hcc2 : c2 = c
        · subst hcc2
          rw [if_pos rfl, h.staffEq c2, assignedFor_append, if_pos rfl]
          unfold insertEnd
          rw [if_neg hpnl, List.append_assoc]
        · rw [if_neg hcc2, h.staffEq c2, assignedFor_append,
            if_neg (fun hcon => hcc2 hcon.symm), List.append_nil]
      · show st.summary.asignaciones_nuevas + 1 = acc.2.1 + 1
        rw [h.nuevasEq]
      · intro c2 hm
        rw [alookup_aadd] at hm
        by_cases hcc : c = c2
        · rw [if_pos hcc] at hm
          exact Option.noConfusion hm
        · rw [if_neg hcc] at hm
          rw [assignedFor_append, if_neg hcc, List.append_nil]
          exact h.cacheNone c2 hm
      · intro c2 l hm
        rw [alookup_aadd] at hm
        by_cases hcc : c = c2
        · rw [if_pos hcc] at hm
          rw [hcached, Option.getD_some] at hm
          have hl : l = insertEnd staffL p := (Option.some.inj hm).symm
          have hpns : p ∉ staffL := by
            rw [hstaffL, List.mem_append, List.mem_dedup, mem_assignedFor]
            exact hnotskip
          subst hcc
          rw [hl, assignedFor_append, if_pos rfl]
          unfold insertEnd
          rw [if_neg hpns, hstaffL, List.append_assoc]
        · rw [if_neg hcc] at hm
          rw [assignedFor_append, if_neg hcc, List.append_nil]
          exact h.cacheSome c2 l hm
      · intro c2 l hm
        rw [alookup_append_one] at hm
        cases hq : alookup st.planned_by_class c2 with
        | some l0 =>
            simp only [hq, Option.some.injEq] at hm
            rw [← hm]
            exact h.plannedSome c2 l0 hq
        | none =>
            simp only [hq] at hm
            by_cases hcc : c = c2
            · rw [if_pos hcc] at hm
              exact (Option.some.inj hm).symm
            · rw [if_neg hcc] at hm
              exact Option.noConfusion hm
  · rw [if_neg hpd]
    obtain ⟨l0, hl0⟩ : ∃ l0, alookup st.planned_by_class c = some l0 := by
      cases hq : alookup st.planned_by_class c with
      | none => exact absurd hq hpd
      | some l0 => exact ⟨l0, rfl⟩
    have hl0v : l0 = [] := h.plannedSome c l0 hl0
    split
    · rename_i hcondT
      have hc2 : p ∈ staff0 c ∨ (c, p) ∈ acc.1 := by
        rcases hcondT with hs | hs
        · rw [hstaffL, List.mem_append, List.mem_dedup, mem_assignedFor] at hs
          exact hs
        · rw [hl0, Option.getD_some, hl0v] at hs
          cases hs
      have hsim : simStep staff0 acc (c, p) = (acc.1, acc.2.1, acc.2.2 + 1) := by
        simp only [simStep]
        rw [if_pos hc2]
      rw [hsim]
      refine ⟨h.staffEq, h.nuevasEq, ?_, h.cacheNone, h.cacheSome, h.plannedSome⟩
      show st.summary.asignaciones_omitidas + 1 = acc.2.2 + 1
      rw [h.omitidasEq]
    · rename_i hcondF
      rw [if_neg Bool.false_ne_true]
      have hred : noFailures.asignarProf p c = none := rfl
      simp only [hred]
      have hnotskip : ¬(p ∈ staff0 c ∨ (c, p) ∈ acc.1) := by
        intro hcon
        apply hcondF
        refine Or.inl ?_
        rw [hstaffL, List.mem_append, List.mem_dedup, mem_assignedFor]
        exact hcon
      have hsim : simStep staff0 acc (c, p) = (acc.1 ++ [(c, p)], acc.2.1 + 1, acc.2.2) := by
        simp only [simStep]
        rw [if_neg hnotskip]
      rw [hsim]
      have hpnl : p ∉ staff0 c ++ assignedFor acc.1 c := by
        rw [List.mem_append, mem_assignedFor]
        exact hnotskip
      refine ⟨?_, ?_, h.omitidasEq, ?_, ?_, ?_⟩
      · intro c2
        show (if c2 = c then insertEnd (st.remote.staff c2) p else st.remote.staff c2) =
          staff0 c2 ++ assignedFor (acc.1 ++ [(c, p)]) c2
        by_cases hcc2 : c2 = c
        · subst hcc2
          rw [if_pos rfl, h.staffEq c2, assignedFor_append, if_pos rfl]
          unfold insertEnd
          rw [if_neg hpnl, List.append_assoc]
        · rw [if_neg hcc2, h.staffEq c2, assignedFor_append,
            if_neg (fun hcon => hcc2 hcon.symm), List.append_nil]
      · show st.summary.asignaciones_nuevas + 1 = acc.2.1 + 1
        rw [h.nuevasEq]
      · intro c2 hm
        rw [alookup_aadd] at hm
        by_cases hcc : c = c2
        · rw [if_pos hcc] at hm
          exact Option.noConfusion hm
        · rw [if_neg hcc] at hm
          rw [assignedFor_append, if_neg hcc, List.append_nil]
          exact h.cacheNone c2 hm
      · intro c2 l hm
        rw [alookup_aadd] at hm
        by_cases hcc : c = c2
        · rw [if_pos hcc] at hm
          rw [hcached, Option.getD_some] at hm
          have hl : l = insertEnd staffL p := (Option.some.inj hm).symm
          have hpns : p ∉ staffL := by
            rw [hstaffL, List.mem_append, List.mem_dedup, mem_assignedFor]
            exact hnotskip
          subst hcc
          rw [hl, assignedFor_append, if_pos rfl]
          unfold insertEnd
          rw [if_neg hpns, hstaffL, List.append_assoc]
        · rw [if_neg hcc] at hm
          rw [assignedFor_append, if_neg hcc, List.append_nil]
          exact h.cacheSome c2 l hm
      · exact h.plannedSome

theorem applyStep_inv (staff0 : Nat → List Nat) (acc : List (Nat × Nat) × Nat × Nat)
    (p : Nat) (st : RunState) (c : Nat) (h : ApplyInv staff0 acc st) :
    ApplyInv staff0 (simStep staff0 acc (c, p))
      (asignarClase noFailures false p st c) := by
  simp only [asignarClase]
  split
  · rename_i staffL heq
    exact applyCore_inv staff0 acc p c st staffL h (h.cacheSome c staffL heq) heq
  · rename_i heq
    have hasg : assignedFor acc.1 c = [] := h.cacheNone c heq
    have hstc : st.remote.staff c = staff0 c := by
      rw [h.staffEq c, hasg, List.append_nil]
    show ApplyInv staff0 (simStep staff0 acc (c, p))
      (asignarClaseCore noFailures false p c
        { st with staff_cache := st.staff_cache ++ [(c, (st.remote.staff c).dedup)] }
        ((st.remote.staff c).dedup))
    refine applyCore_inv staff0 acc p c _ _
      ⟨h.staffEq, h.nuevasEq, h.omitidasEq, ?_, ?_, h.plannedSome⟩ ?_ ?_
    · intro c2 hm
      show assignedFor acc.1 c2 = []
      rw [alookup_append_one] at hm
      cases hq : alookup st.staff_cache c2 with
      | some l0 =>
          simp only [hq] at hm
          exact Option.noConfusion hm
      | none =>
          exact h.cacheNone c2 hq
    · intro c2 l hm
      show l = (staff0 c2).dedup ++ assignedFor acc.1 c2
      rw [alookup_append_one] at hm
      cases hq : alookup st.staff_cache c2 with
      | some l0 =>
          simp only [hq, Option.some.injEq] at hm
          rw [← hm]
          exact h.cacheSome c2 l0 hq
      | none =>
          simp only [hq] at hm
          by_cases hcc : c = c2
          · rw [if_pos hcc] at hm
            subst hcc
            rw [← Option.some.inj hm, hstc, hasg, List.append_nil]
          · rw [if_neg hcc] at hm
            exact Option.noConfusion hm
    · rw [hstc, hasg, List.append_nil]
    · show alookup (st.staff_cache ++ [(c, (st.remote.staff c).dedup)]) c =
        some ((st.remote.staff c).dedup)
      rw [alookup_append_one, heq]
      simp

theorem simAsg_append (staff0 : Nat → List Nat) (l1 l2 : List (Nat × Nat))
    (acc : List (Nat × Nat) × Nat × Nat) :
    simAsg staff0 (l1 ++ l2) acc = simAsg staff0 l2 (simAsg staff0 l1 acc) := by
  unfold simAsg
  rw [List.foldl_append]

theorem DryInv_keep (staff0 : Nat → List Nat) (acc : List (Nat × Nat) × Nat × Nat)
    (st st2 : RunState)
    (h1 : st2.remote.staff = st.remote.staff) (h2 : st2.staff_cache = st.staff_cache)
    (h3 : st2.planned_by_class = st.planned_by_class)
    (h4 : st2.summary.asignaciones_nuevas = st.summary.asignaciones_nuevas)
    (h5 : st2.summary.asignaciones_omitidas = st.summary.asignaciones_omitidas)
    (h : DryInv staff0 acc st) : DryInv staff0 acc st2 := by
  refine ⟨?_, ?_, ?_, ?_, ?_, ?_⟩
  · rw [h1]
    exact h.staffEq
  · rw [h4]
    exact h.nuevasEq
  · rw [h5]
    exact h.omitidasEq
  · intro c l hm
    rw [h2] at hm
    exact h.cacheSome c l hm
  · intro c hm
    rw [h3] at hm
    exact h.plannedNone c hm
  · intro c l hm
    rw [h3] at hm
    exact h.plannedSome c l hm

theorem ApplyInv_keep (staff0 : Nat → List Nat) (acc : List (Nat × Nat) × Nat × Nat)
    (st st2 : RunState)
    (h1 : st2.remote.staff = st.remote.staff) (h2 : st2.staff_cache = st.staff_cache)
    (h3 : st2.planned_by_class = st.planned_by_class)
    (h4 : st2.summary.asignaciones_nuevas = st.summary.asignaciones_nuevas)
    (h5 : st2.summary.asignaciones_omitidas = st.summary.asignaciones_omitidas)
    (h : ApplyInv staff0 acc st) : ApplyInv staff0 acc st2 := by
  refine ⟨?_, ?_, ?_, ?_, ?_, ?_⟩
  · intro c
    rw [h1]
    exact h.staffEq c
  · rw [h4]
    exact h.nuevasEq
  · rw [h5]
    exact h.omitidasEq
  · intro c hm
    rw [h2] at hm
    exact h.cacheNone c hm
  · intro c l hm
    rw [h2] at hm
    exact h.cacheSome c l hm
  · intro c l hm
    rw [h3] at hm
    exact h.plannedSome c l hm

theorem dryPairFold_inv (staff0 : Nat → List Nat) (acc : List (Nat × Nat) × Nat × Nat)
    (pid : Nat) (cs : List Clase) (st : RunState) (h : DryInv staff0 acc st) :
    DryInv staff0 (simAsg staff0 (cs.map (fun c => (c.id, pid))) acc)
      (cs.foldl (fun s c => asignarClase noFailures true pid s c.id) st) := by
  induction cs generalizing acc st with
  | nil => exact h
  | cons c cs ih =>
      rw [List.foldl_cons, List.map_cons]
      exact ih _ _ (dryStep_inv staff0 acc pid st c.id h)

theorem applyPairFold_inv (staff0 : Nat → List Nat) (acc : List (Nat × Nat) × Nat × Nat)
    (pid : Nat) (cs : List Clase) (st : RunState) (h : ApplyInv staff0 acc st) :
    ApplyInv staff0 (simAsg staff0 (cs.map (fun c => (c.id, pid))) acc)
      (cs.foldl (fun s c => asignarClase noFailures false pid s c.id) st) := by
  induction cs generalizing acc st with
  | nil => exact h
  | cons c cs ih =>
      rw [List.foldl_cons, List.map_cons]
      exact ih _ _ (applyStep_inv staff0 acc pid st c.id h)

theorem dryDesiredFold_inv (staff0 : Nat → List Nat) (acc : List (Nat × Nat) × Nat × Nat)
    (pid : Nat) (cs : List Clase) (st : RunState) (h : DryInv staff0 acc st) :
    DryInv staff0 acc (cs.foldl
      (fun s c => { s with desired_by_class := aadd s.desired_by_class c.id pid }) st) := by
  induction cs generalizing st with
  | nil => exact h
  | cons c cs ih =>
      rw [List.foldl_cons]
      exact ih _ (DryInv_keep staff0 acc st _ rfl rfl rfl rfl rfl h)

theorem applyDesiredFold_inv (staff0 : Nat → List Nat)
    (acc : List (Nat × Nat) × Nat × Nat) (pid : Nat) (cs : List Clase) (st : RunState)
    (h : ApplyInv staff0 acc st) :
    ApplyInv staff0 acc (cs.foldl
      (fun s c => { s with desired_by_class := aadd s.desired_by_class c.id pid }) st) := by
  induction cs generalizing st with
  | nil => exact h
  | cons c cs ih =>
      rw [List.foldl_cons]
      exact ih _ (ApplyInv_keep staff0 acc st _ rfl rfl rfl rfl rfl h)

theorem dryDocente_inv (staff0 : Nat → List Nat) (acc : List (Nat × Nat) × Nat × Nat)
    (st : RunState) (dm : Docente × List Clase) (h : DryInv staff0 acc st) :
    DryInv staff0
      (simAsg staff0
        (if dm.1.desiredByLevel = [] then []
         else dm.2.map (fun c => (c.id, dm.1.personaId))) acc)
      (asignarDocente noFailures true st dm) := by
  unfold asignarDocente
  split
  · exact DryInv_keep staff0 acc st _ rfl rfl rfl rfl rfl h
  · split
    · rename_i h2
      rw [h2, List.map_nil]
      exact DryInv_keep staff0 acc st _ rfl rfl rfl rfl rfl h
    · exact dryPairFold_inv staff0 acc dm.1.personaId dm.2 _
        (dryDesiredFold_inv staff0 acc dm.1.personaId dm.2 _
          (DryInv_keep staff0 acc st _ rfl rfl rfl rfl rfl h))

theorem applyDocente_inv (staff0 : Nat → List Nat) (acc : List (Nat × Nat) × Nat × Nat)
    (st : RunState) (dm : Docente × List Clase) (h : ApplyInv staff0 acc st) :
    ApplyInv staff0
      (simAsg staff0
        (if dm.1.desiredByLevel = [] then []
         else dm.2.map (fun c => (c.id, dm.1.personaId))) acc)
      (asignarDocente noFailures false st dm) := by
  unfold asignarDocente
  split
  · exact ApplyInv_keep staff0 acc st _ rfl rfl rfl rfl rfl h
  · split
    · rename_i h2
      rw [h2, List.map_nil]
      exact ApplyInv_keep staff0 acc st _ rfl rfl rfl rfl rfl h
    · exact applyPairFold_inv staff0 acc dm.1.personaId dm.2 _
        (applyDesiredFold_inv staff0 acc dm.1.personaId dm.2 _
          (ApplyInv_keep staff0 acc st _ rfl rfl rfl rfl rfl h))

theorem dryClases_inv (staff0 : Nat → List Nat) (acc : List (Nat × Nat) × Nat × Nat)
    (dms : List (Docente × List Clase)) (st : RunState) (h : DryInv staff0 acc st) :
    DryInv staff0 (simAsg staff0 (matchPairs dms) acc)
      (clasesPhase noFailures true dms st) := by
  induction dms generalizing acc st with
  | nil => exact h
  | cons dm dms ih =>
      have hmp : matchPairs (dm :: dms) =
          (if dm.1.desiredByLevel = [] then []
           else dm.2.map (fun c => (c.id, dm.1.personaId))) ++ matchPairs dms := by
        unfold matchPairs
        rw [List.flatMap_cons]
      rw [hmp, simAsg_append]
      unfold clasesPhase
      rw [List.foldl_cons]
      exact ih _ _ (dryDocente_inv staff0 acc st dm h)

theorem applyClases_inv (staff0 : Nat → List Nat) (acc : List (Nat × Nat) × Nat × Nat)
    (dms : List (Docente × List Clase)) (st : RunState) (h : ApplyInv staff0 acc st) :
    ApplyInv staff0 (simAsg staff0 (matchPairs dms) acc)
      (clasesPhase noFailures false dms st) := by
  induction dms generalizing acc st with
  | nil => exact h
  | cons dm dms ih =>
      have hmp : matchPairs (dm :: dms) =
          (if dm.1.desiredByLevel = [] then []
           else dm.2.map (fun c => (c.id, dm.1.personaId))) ++ matchPairs dms := by
        unfold matchPairs
        rw [List.flatMap_cons]
      rw [hmp, simAsg_append]
      unfold clasesPhase
      rw [List.foldl_cons]
      exact ih _ _ (applyDocente_inv staff0 acc st dm h)

theorem DryInv_entry (st : RunState) (hc : st.staff_cache = [])
    (hp : st.planned_by_class = []) :
    DryInv st.remote.staff
      ([], st.summary.asignaciones_nuevas, st.summary.asignaciones_omitidas) st := by
  refine ⟨rfl, rfl, rfl, ?_, ?_, ?_⟩
  · intro c l hm
    rw [hc] at hm
    simp only [alookup] at hm
    exact Option.noConfusion hm
  · intro c hm
    rfl
  · intro c l hm
    rw [hp] at hm
    simp only [alookup] at hm
    exact Option.noConfusion hm

theorem ApplyInv_entry (st : RunState) (hc : st.staff_cache = [])
    (hp : st.planned_by_class = []) :
    ApplyInv st.remote.staff
      ([], st.summary.asignaciones_nuevas, st.summary.asignaciones_omitidas) st := by
  refine ⟨?_, rfl, rfl, ?_, ?_, ?_⟩
  · intro c
    exact (List.append_nil _).symm
  · intro c hm
    rfl
  · intro c l hm
    rw [hc] at hm
    simp only [alookup] at hm
    exact Option.noConfusion hm
  · intro c l hm
    rw [hp] at hm
    simp only [alookup] at hm
    exact Option.noConfusion hm

theorem pendingOf_cons (roster : Nat → List Nat) (e : Nat × List Nat)
    (ds : List (Nat × List Nat)) :
    pendingOf roster (e :: ds) =
      ((List.insertionSort (· ≤ ·) ((roster e.1).filter (fun p => p ∉ e.2))).map
        (fun p => (e.1, p))) ++ pendingOf roster ds := by
  unfold pendingOf
  rw [List.flatMap_cons]

theorem pendingOf_congr (r1 r2 : Nat → List Nat) (ds : List (Nat × List Nat))
    (h : ∀ e ∈ ds, (r1 e.1).filter (fun p => p ∉ e.2) =
      (r2 e.1).filter (fun p => p ∉ e.2)) :
    pendingOf r1 ds = pendingOf r2 ds := by
  induction ds with
  | nil => rfl
  | cons e ds ih =>
      rw [pendingOf_cons, pendingOf_cons, h e (List.mem_cons_self e ds),
        ih (fun e2 he2 => h e2 (List.mem_cons.mpr (Or.inr he2)))]

theorem gather_pending (roster : Nat → List Nat) (ds : List (Nat × List Nat))
    (st : RunState) (pend : List (Nat × Nat)) (h : GatherInv roster st) :
    (ds.foldl (eliminarGatherStep noFailures) (st, pend)).2 =
      pend ++ pendingOf roster ds := by
  induction ds generalizing st pend with
  | nil =>
      show pend = pend ++ pendingOf roster []
      rw [show pendingOf roster [] = [] from rfl, List.append_nil]
  | cons e ds ih =>
      rw [List.foldl_cons]
      cases hq : alookup st.staff_cache e.1 with
      | some staffL =>
          have hstep : eliminarGatherStep noFailures (st, pend) e =
              (st, pend ++
                ((List.insertionSort (· ≤ ·) (staffL.filter (fun p => p ∉ e.2))).map
                  (fun p => (e.1, p)))) := by
            unfold eliminarGatherStep
            simp only [hq]
          rw [hstep, ih st _ h, h.cacheSome e.1 staffL hq, pendingOf_cons,
            List.append_assoc]
      | none =>
          have hstep : eliminarGatherStep noFailures (st, pend) e =
              ({ st with staff_cache :=
                   st.staff_cache ++ [(e.1, (st.remote.staff e.1).dedup)] },
               pend ++
                ((List.insertionSort (· ≤ ·)
                  (((st.remote.staff e.1).dedup).filter (fun p => p ∉ e.2))).map
                  (fun p => (e.1, p)))) := by
            unfold eliminarGatherStep
            simp only [hq,
              show fetch_staff st.remote noFailures e.1 =
                .ok ((st.remote.staff e.1).dedup) from rfl]
          rw [hstep]
          have h2 : GatherInv roster
              { st with staff_cache :=
                  st.staff_cache ++ [(e.1, (st.remote.staff e.1).dedup)] } := by
            refine ⟨?_, ?_⟩
            · intro c l hm
              show l = roster c
              rw [alookup_append_one] at hm
              cases hq2 : alookup st.staff_cache c with
              | some l0 =>
                  simp only [hq2, Option.some.injEq] at hm
                  rw [← hm]
                  exact h.cacheSome c l0 hq2
              | none =>
                  simp only [hq2] at hm
                  by_cases hcc : e.1 = c
                  · rw [if_pos hcc] at hm
                    rw [← Option.some.inj hm, ← hcc]
                    exact h.cacheNone e.1 hq
                  · rw [if_neg hcc] at hm
                    exact Option.noConfusion hm
            · intro c hm
              show (st.remote.staff c).dedup = roster c
              rw [alookup_append_one] at hm
              cases hq2 : alookup st.staff_cache c with
              | some l0 =>
                  simp only [hq2] at hm
                  exact Option.noConfusion hm
              | none => exact h.cacheNone c hq2
          rw [ih _ _ h2, h.cacheNone e.1 hq, pendingOf_cons, List.append_assoc]

theorem execElim_count (dry oP : Bool) (ps : List (Nat × Nat)) (st : RunState) :
    (ps.foldl (eliminarExecStep noFailures dry oP) st).summary.eliminaciones =
      st.summary.eliminaciones + (if oP then ps.length else 0) := by
  induction ps generalizing st with
  | nil => cases oP <;> simp
  | cons e ps ih =>
      rw [List.foldl_cons, ih]
      have hstep : (eliminarExecStep noFailures dry oP st e).summary.eliminaciones =
          st.summary.eliminaciones + (if oP then 1 else 0) := by
        cases oP <;> cases dry <;> rfl
      rw [hstep]
      cases oP <;> simp [List.length_cons] <;> omega

theorem eliminarPhase_elim (dry oP : Bool) (st : RunState) (roster : Nat → List Nat)
    (h : GatherInv roster st) :
    (eliminarPhase noFailures dry oP st).summary.eliminaciones =
      st.summary.eliminaciones +
        (if oP then (pendingOf roster st.desired_by_class).length else 0) := by
  unfold eliminarPhase
  simp only []
  rw [execElim_count]
  have h1 := eliminarGather_frame noFailures st.desired_by_class (st, [])
  unfold frameG at h1
  simp only [Prod.mk.injEq] at h1
  rw [h1.2.2.2.2.2.2.2.2.2.2.1, gather_pending roster _ st [] h, List.nil_append]

theorem eliminarPhase_keep5 (f : Failures) (dry oP : Bool) (st : RunState) :
    (eliminarPhase f dry oP st).summary.niveles_asignados =
        st.summary.niveles_asignados ∧
      (eliminarPhase f dry oP st).summary.estado_activaciones =
        st.summary.estado_activaciones ∧
      (eliminarPhase f dry oP st).summary.estado_inactivaciones =
        st.summary.estado_inactivaciones ∧
      (eliminarPhase f dry oP st).summary.asignaciones_nuevas =
        st.summary.asignaciones_nuevas ∧
      (eliminarPhase f dry oP st).summary.asignaciones_omitidas =
        st.summary.asignaciones_omitidas := by
  unfold eliminarPhase
  simp only []
  have hE := eliminarExec_frame f dry oP
    (st.desired_by_class.foldl (eliminarGatherStep f) (st, [])).2
    (st.desired_by_class.foldl (eliminarGatherStep f) (st, [])).1
  unfold frameEE at hE
  simp only [Prod.mk.injEq] at hE
  have hG := eliminarGather_frame f st.desired_by_class (st, [])
  unfold frameG at hG
  simp only [Prod.mk.injEq] at hG
  refine ⟨?_, ?_, ?_, ?_, ?_⟩
  · rw [hE.2.2.2.2.2.2.2.2.2.2.2.2.2.2.2.1,
      hG.2.2.2.2.2.2.2.2.2.2.2.2.2.2.1]
  · rw [hE.2.2.2.2.2.2.2.2.2.2.2.2.1, hG.2.2.2.2.2.2.2.2.2.2.2.1]
  · rw [hE.2.2.2.2.2.2.2.2.2.2.2.2.2.1, hG.2.2.2.2.2.2.2.2.2.2.2.2.1]
  · rw [hE.2.2.2.2.2.2.2.2.2.2.1, hG.2.2.2.2.2.2.2.2.1]
  · rw [hE.2.2.2.2.2.2.2.2.2.2.2.1, hG.2.2.2.2.2.2.2.2.2.1]

theorem nivelesStep_dry (dry : Bool) (st : RunState) (e : Nat × List Nat) :
    nivelesStep noFailures dry st e = nivelesStep noFailures true st e := by
  cases dry <;> rfl

theorem nivelesPhase_dry (dry : Bool) (niv : List (Nat × List Nat)) (st : RunState) :
    nivelesPhase noFailures dry niv st = nivelesPhase noFailures true niv st := by
  induction niv generalizing st with
  | nil => rfl
  | cons e niv ih =>
      unfold nivelesPhase
      rw [List.foldl_cons, List.foldl_cons, nivelesStep_dry]
      exact ih _

theorem estadoExecStep_dry (st : RunState) (a : Nat → Nat → Option Bool) (ch : Change) :
    estadoExecStep noFailures false (setActivos st a) ch =
      setActivos (estadoExecStep noFailures true st ch)
        (fun n p => if n = ch.2.1 ∧ p = ch.1 then some ch.2.2.1 else a n p) := by
  rfl

theorem estadoExecFold_dry (chs : List Change) (st : RunState)
    (a : Nat → Nat → Option Bool) :
    chs.foldl (estadoExecStep noFailures false) (setActivos st a) =
      setActivos (chs.foldl (estadoExecStep noFailures true) st) (execActivos chs a) := by
  induction chs generalizing st a with
  | nil => rfl
  | cons ch chs ih =>
      rw [List.foldl_cons, List.foldl_cons, estadoExecStep_dry]
      exact ih _ _

theorem execFold_ex (chs : List Change) (st : RunState) :
    ∃ a, chs.foldl (estadoExecStep noFailures false) st =
      setActivos (chs.foldl (estadoExecStep noFailures true) st) a := by
  refine ⟨execActivos chs st.remote.activos, ?_⟩
  have h := estadoExecFold_dry chs st st.remote.activos
  rw [setActivos_self] at h
  exact h

theorem estadoPhase_dry (emap : List (Nat × Bool)) (nmap : List (Nat × List Nat))
    (st : RunState) :
    ∃ a, estadoPhase noFailures false emap nmap st =
      setActivos (estadoPhase noFailures true emap nmap st) a := by
  unfold estadoPhase
  simp only []
  exact execFold_ex _ _

theorem preClasesState_dry (docentes docentesEstado : List Docente) (invalidos : Nat)
    (remote : Remote) :
    ∃ a, preClasesState docentes docentesEstado invalidos remote noFailures false =
      setActivos (preClasesState docentes docentesEstado invalidos remote noFailures true)
        a := by
  unfold preClasesState
  simp only []
  rw [nivelesPhase_dry]
  by_cases he :
    (collect_estado (docentesEstado.map (fun d => (some d.personaId, d.estado)))).1 = []
  · rw [if_pos he, if_pos he]
    exact ⟨_, (setActivos_self _).symm⟩
  · rw [if_neg he, if_neg he]
    exact estadoPhase_dry _ _ _

theorem pairsAadd_assigned_mem (pairs A : List (Nat × Nat))
    (hA : ∀ pr ∈ A, pr ∈ pairs) (e : Nat × List Nat) (he : e ∈ pairsAadd pairs [])
    (p : Nat) (hp : p ∈ assignedFor A e.1) : p ∈ e.2 := by
  rw [mem_assignedFor] at hp
  have hpair : (e.1, p) ∈ pairs := hA _ hp
  have hmp : memPair (pairsAadd pairs []) e.1 p :=
    (memPair_pairsAadd pairs [] e.1 p).mpr (Or.inr hpair)
  obtain ⟨gs, hgs, hpg⟩ := hmp
  have hnd : (akeys (pairsAadd pairs [])).Nodup :=
    pairsAadd_keys_nodup pairs [] (by simp [akeys])
  have hlook := alookup_mem_nodup _ hnd e he
  rw [hlook] at hgs
  cases Option.some.inj hgs
  exact hpg

theorem preClasesState_empties (docentes docentesEstado : List Docente)
    (invalidos : Nat) (remote : Remote) (f : Failures) (dry : Bool) :
    (preClasesState docentes docentesEstado invalidos remote f dry).staff_cache = [] ∧
      (preClasesState docentes docentesEstado invalidos remote f dry).planned_by_class =
        [] ∧
      (preClasesState docentes docentesEstado invalidos remote f dry).desired_by_class =
        [] := by
  unfold preClasesState
  simp only []
  have hn : ∀ (niv : List (Nat × List Nat)) (st0 : RunState),
      (nivelesPhase f dry niv st0).staff_cache = st0.staff_cache ∧
        (nivelesPhase f dry niv st0).planned_by_class = st0.planned_by_class ∧
        (nivelesPhase f dry niv st0).desired_by_class = st0.desired_by_class := by
    intro niv st0
    have h := nivelesPhase_frame f dry niv st0
    unfold frameN at h
    simp only [Prod.mk.injEq] at h
    exact ⟨h.1, h.2.1, h.2.2.1⟩
  have he : ∀ (emap : List (Nat × Bool)) (nmap : List (Nat × List Nat)) (st0 : RunState),
      (estadoPhase f dry emap nmap st0).staff_cache = st0.staff_cache ∧
        (estadoPhase f dry emap nmap st0).planned_by_class = st0.planned_by_class ∧
        (estadoPhase f dry emap nmap st0).desired_by_class = st0.desired_by_class := by
    intro emap nmap st0
    unfold estadoPhase
    simp only []
    have hExec : ∀ (chs : List Change) (st2 : RunState),
        (chs.foldl (estadoExecStep f dry) st2).staff_cache = st2.staff_cache ∧
          (chs.foldl (estadoExecStep f dry) st2).planned_by_class =
            st2.planned_by_class ∧
          (chs.foldl (estadoExecStep f dry) st2).desired_by_class =
            st2.desired_by_class := by
      intro chs st2
      have h := estadoExec_frame f dry chs st2
      unfold frameE at h
      simp only [Prod.mk.injEq] at h
      exact ⟨h.1, h.2.1, h.2.2.1⟩
    have hPlan : ∀ (apn : List (Nat × (Nat → Option Bool))) (acc : RunState × List Change),
        (emap.foldl (estadoPlanStep apn nmap) acc).1.staff_cache = acc.1.staff_cache ∧
          (emap.foldl (estadoPlanStep apn nmap) acc).1.planned_by_class =
            acc.1.planned_by_class ∧
          (emap.foldl (estadoPlanStep apn nmap) acc).1.desired_by_class =
            acc.1.desired_by_class := by
      intro apn acc
      have h := estadoPlan_frame apn nmap emap acc
      unfold frameP at h
      simp only [Prod.mk.injEq] at h
      exact ⟨h.1, h.2.1, h.2.2.1⟩
    refine ⟨?_, ?_, ?_⟩
    · rw [(hExec _ _).1, (hPlan _ _).1]
    · rw [(hExec _ _).2.1, (hPlan _ _).2.1]
    · rw [(hExec _ _).2.2, (hPlan _ _).2.2]
  split
  · split
    · exact ⟨rfl, rfl, rfl⟩
    · obtain ⟨n1, n2, n3⟩ := hn _ _
      exact ⟨by rw [n1], by rw [n2], by rw [n3]⟩
  · split
    · obtain ⟨e1, e2, e3⟩ := he _ _ _
      exact ⟨by rw [e1], by rw [e2], by rw [e3]⟩
    · obtain ⟨e1, e2, e3⟩ := he _ _ _
      obtain ⟨n1, n2, n3⟩ := hn _ _
      exact ⟨by rw [e1, n1], by rw [e2, n2], by rw [e3, n3]⟩

theorem clasesRemoval_counters (rm oP : Bool) (dms : List (Docente × List Clase))
    (stT stF : RunState)
    (hTc : stT.staff_cache = []) (hTp : stT.planned_by_class = [])
    (hTd : stT.desired_by_class = []) (hFc : stF.staff_cache = [])
    (hFp : stF.planned_by_class = []) (hFd : stF.desired_by_class = [])
    (hstaff : stF.remote.staff = stT.remote.staff) (hsum : stF.summary = stT.summary) :
    sixCounters
      ((if rm = true ∧ (clasesPhase noFailures false dms stF).desired_by_class ≠ [] then
          eliminarPhase noFailures false oP (clasesPhase noFailures false dms stF)
        else clasesPhase noFailures false dms stF)).summary =
      sixCounters
        ((if rm = true ∧ (clasesPhase noFailures true dms stT).desired_by_class ≠ [] then
            eliminarPhase noFailures true oP (clasesPhase noFailures true dms stT)
          else clasesPhase noFailures true dms stT)).summary := by
  have hIT := dryClases_inv stT.remote.staff
    ([], stT.summary.asignaciones_nuevas, stT.summary.asignaciones_omitidas) dms stT
    (DryInv_entry stT hTc hTp)
  have hIF0 := applyClases_inv stF.remote.staff
    ([], stF.summary.asignaciones_nuevas, stF.summary.asignaciones_omitidas) dms stF
    (ApplyInv_entry stF hFc hFp)
  rw [hstaff, hsum] at hIF0
  have hfT := clasesPhase_frame noFailures true dms stT
  unfold frameAD at hfT
  simp only [Prod.mk.injEq] at hfT
  have hfF := clasesPhase_frame noFailures false dms stF
  unfold frameAD at hfF
  simp only [Prod.mk.injEq] at hfF
  have hdT : (clasesPhase noFailures true dms stT).desired_by_class =
      pairsAadd (matchPairs dms) [] := by
    rw [clasesPhase_desired, hTd]
  have hdF : (clasesPhase noFailures false dms stF).desired_by_class =
      pairsAadd (matchPairs dms) [] := by
    rw [clasesPhase_desired, hFd]
  rw [hdT, hdF]
  by_cases hgate : rm = true ∧ pairsAadd (matchPairs dms) [] ≠ ([] : List (Nat × List Nat))
  · rw [if_pos hgate, if_pos hgate]
    obtain ⟨k1T, k2T, k3T, k4T, k5T⟩ :=
      eliminarPhase_keep5 noFailures true oP (clasesPhase noFailures true dms stT)
    obtain ⟨k1F, k2F, k3F, k4F, k5F⟩ :=
      eliminarPhase_keep5 noFailures false oP (clasesPhase noFailures false dms stF)
    have hGT : GatherInv (fun c => (stT.remote.staff c).dedup)
        (clasesPhase noFailures true dms stT) := by
      refine ⟨?_, ?_⟩
      · intro c l hm
        exact hIT.cacheSome c l hm
      · intro c hm
        show ((clasesPhase noFailures true dms stT).remote.staff c).dedup =
          (stT.remote.staff c).dedup
        rw [hIT.staffEq]
    have hGF : GatherInv
        (fun c => (stT.remote.staff c).dedup ++
          assignedFor (simAsg stT.remote.staff (matchPairs dms)
            ([], stT.summary.asignaciones_nuevas,
             stT.summary.asignaciones_omitidas)).1 c)
        (clasesPhase noFailures false dms stF) := by
      refine ⟨?_, ?_⟩
      · intro c l hm
        exact hIF0.cacheSome c l hm
      · intro c hm
        have ha := hIF0.cacheNone c hm
        show ((clasesPhase noFailures false dms stF).remote.staff c).dedup =
          (stT.remote.staff c).dedup ++
            assignedFor (simAsg stT.remote.staff (matchPairs dms)
              ([], stT.summary.asignaciones_nuevas,
               stT.summary.asignaciones_omitidas)).1 c
        rw [hIF0.staffEq c, ha, List.append_nil, List.append_nil]
    have heT := eliminarPhase_elim true oP (clasesPhase noFailures true dms stT) _ hGT
    have heF := eliminarPhase_elim false oP (clasesPhase noFailures false dms stF) _ hGF
    rw [hdT] at heT
    rw [hdF] at heF
    have hsub : ∀ pr ∈ (simAsg stT.remote.staff (matchPairs dms)
        ([], stT.summary.asignaciones_nuevas, stT.summary.asignaciones_omitidas)).1,
        pr ∈ matchPairs dms := by
      intro pr hpr
      rcases simAsg_assigned_sub _ _ _ _ hpr with hin | hin
      · cases hin
      · exact hin
    have hpend : pendingOf
        (fun c => (stT.remote.staff c).dedup ++
          assignedFor (simAsg stT.remote.staff (matchPairs dms)
            ([], stT.summary.asignaciones_nuevas,
             stT.summary.asignaciones_omitidas)).1 c)
        (pairsAadd (matchPairs dms) []) =
        pendingOf (fun c => (stT.remote.staff c).dedup)
          (pairsAadd (matchPairs dms) []) := by
      apply pendingOf_congr
      intro e he
      show ((stT.remote.staff e.1).dedup ++
          assignedFor (simAsg stT.remote.staff (matchPairs dms)
            ([], stT.summary.asignaciones_nuevas,
             stT.summary.asignaciones_omitidas)).1 e.1).filter (fun p => p ∉ e.2) =
        ((stT.remote.staff e.1).dedup).filter (fun p => p ∉ e.2)
      rw [List.filter_append]
      have h0 : (assignedFor (simAsg stT.remote.staff (matchPairs dms)
          ([], stT.summary.asignaciones_nuevas,
           stT.summary.asignaciones_omitidas)).1 e.1).filter (fun p => p ∉ e.2) = [] := by
        rw [List.filter_eq_nil_iff]
        intro p hp
        simp only [decide_eq_true_eq, not_not]
        exact pairsAadd_assigned_mem (matchPairs dms) _ hsub e he p hp
      rw [h0, List.append_nil]
    simp only [sixCounters, Prod.mk.injEq]
    refine ⟨?_, ?_, ?_, ?_, ?_, ?_⟩
    · rw [k1F, k1T, hfF.2.2.2.2.2.2.2.2.1, hfT.2.2.2.2.2.2.2.2.1, hsum]
    · rw [k2F, k2T, hfF.2.2.2.2.2.1, hfT.2.2.2.2.2.1, hsum]
    · rw [k3F, k3T, hfF.2.2.2.2.2.2.1, hfT.2.2.2.2.2.2.1, hsum]
    · rw [k4F, k4T, hIF0.nuevasEq, hIT.nuevasEq]
    · rw [k5F, k5T, hIF0.omitidasEq, hIT.omitidasEq]
    · rw [heF, heT, hfF.2.2.2.2.1, hfT.2.2.2.2.1, hsum, hpend]
  · rw [if_neg hgate, if_neg hgate]
    simp only [sixCounters, Prod.mk.injEq]
    refine ⟨?_, ?_, ?_, ?_, ?_, ?_⟩
    · rw [hfF.2.2.2.2.2.2.2.2.1, hfT.2.2.2.2.2.2.2.2.1, hsum]
    · rw [hfF.2.2.2.2.2.1, hfT.2.2.2.2.2.1, hsum]
    · rw [hfF.2.2.2.2.2.2.1, hfT.2.2.2.2.2.2.1, hsum]
    · rw [hIF0.nuevasEq, hIT.nuevasEq]
    · rw [hIF0.omitidasEq, hIT.omitidasEq]
    · rw [hfF.2.2.2.2.1, hfT.2.2.2.2.1, hsum]

/-- C5: with no remote-call failures, a dry run and an apply run from the same
input and remote state produce identical values for all six action counters
(niveles asignados, estado activations, estado inactivations, new assignments,
omitted assignments, and removals), for any removal flag and any progress
callback configuration. -/
theorem C5_dry_run_parity (docentes docentesEstado : List Docente) (invalidos : Nat)
    (remote : Remote) (remove_missing onProgress : Bool) :
    (runSummary (asignar_profesores_clases docentes docentesEstado invalidos remote
        noFailures true remove_missing onProgress)).map sixCounters =
      (runSummary (asignar_profesores_clases docentes docentesEstado invalidos remote
        noFailures false remove_missing onProgress)).map sixCounters := by
  obtain ⟨a, ha⟩ := preClasesState_dry docentes docentesEstado invalidos remote
  obtain ⟨hE1, hE2, hE3⟩ :=
    preClasesState_empties docentes docentesEstado invalidos remote noFailures true
  unfold asignar_profesores_clases
  simp only []
  rw [ha]
  rw [show (setActivos
      (preClasesState docentes docentesEstado invalidos remote noFailures true)
      a).remote.clases =
      (preClasesState docentes docentesEstado invalidos remote
        noFailures true).remote.clases from rfl]
  cases hcl : (preClasesState docentes docentesEstado invalidos remote
      noFailures true).remote.clases with
  | error msg => rfl
  | ok cf =>
      simp only [runSummary, Option.map_some']
      have h5 : ∀ st : RunState,
          ((if st.summary.docentes_procesados = 0 then
              { st with warnings := st.warnings ++
                  ["No se encontraron docentes validos en el Excel."] }
            else st) : RunState).summary = st.summary := by
        intro st
        split <;> rfl
      rw [h5, h5]
      refine congrArg some ?_
      unfold clasesAndRemoval
      simp only []
      by_cases hw : cf.2 ≠ 0
      · rw [if_pos hw, if_pos hw]
        exact (clasesRemoval_counters remove_missing onProgress
          (docentes.map (fun d => (d, match_clases d (List.insertionSort claseLe cf.1))))
          { preClasesState docentes docentesEstado invalidos remote noFailures true with
            warnings := (preClasesState docentes docentesEstado invalidos remote
                noFailures true).warnings ++
              ["Clases ignoradas por sufijo no reconocido: " ++ toString cf.2 ++ "."] }
          { setActivos (preClasesState docentes docentesEstado invalidos remote
              noFailures true) a with
            warnings := (setActivos (preClasesState docentes docentesEstado invalidos
                remote noFailures true) a).warnings ++
              ["Clases ignoradas por sufijo no reconocido: " ++ toString cf.2 ++ "."] }
          hE1 hE2 hE3 hE1 hE2 hE3 rfl rfl).symm
      · rw [if_neg hw, if_neg hw]
        exact (clasesRemoval_counters remove_missing onProgress
          (docentes.map (fun d => (d, match_clases d (List.insertionSort claseLe cf.1))))
          (preClasesState docentes docentesEstado invalidos remote noFailures true)
          (setActivos (preClasesState docentes docentesEstado invalidos remote
            noFailures true) a)
          hE1 hE2 hE3 hE1 hE2 hE3 rfl rfl).symm

theorem simStep_mono (staff0 : Nat → List Nat) (acc : List (Nat × Nat) × Nat × Nat)
    (pr2 pr : Nat × Nat) (h : pr ∈ acc.1) : pr ∈ (simStep staff0 acc pr2).1 := by
  unfold simStep
  split
  · exact h
  · exact List.mem_append.mpr (Or.inl h)

theorem simAsg_mono (staff0 : Nat → List Nat) (prs : List (Nat × Nat))
    (acc : List (Nat × Nat) × Nat × Nat) (pr : Nat × Nat) (h : pr ∈ acc.1) :
    pr ∈ (simAsg staff0 prs acc).1 := by
  induction prs generalizing acc with
  | nil => exact h
  | cons pr2 prs ih => exact ih _ (simStep_mono staff0 acc pr2 pr h)

theorem simAsg_covers (staff0 : Nat → List Nat) (prs : List (Nat × Nat))
    (acc : List (Nat × Nat) × Nat × Nat) (pr : Nat × Nat) (h : pr ∈ prs) :
    pr.2 ∈ staff0 pr.1 ∨ pr ∈ (simAsg staff0 prs acc).1 := by
  induction prs generalizing acc with
  | nil => cases h
  | cons pr2 prs ih =>
      rcases List.mem_cons.mp h with rfl | htl
      · by_cases hc : pr.2 ∈ staff0 pr.1 ∨ pr ∈ acc.1
        · rcases hc with hc | hc
          · exact Or.inl hc
          · exact Or.inr (simAsg_mono staff0 prs _ pr (simStep_mono staff0 acc pr pr hc))
        · refine Or.inr (simAsg_mono staff0 prs _ pr ?_)
          unfold simStep
          rw [if_neg hc]
          exact List.mem_append.mpr (Or.inr (List.mem_singleton.mpr rfl))
      · exact ih _ htl

theorem simAsg_all_skip (staff0 : Nat → List Nat) (prs : List (Nat × Nat))
    (acc : List (Nat × Nat) × Nat × Nat) (h : ∀ pr ∈ prs, pr.2 ∈ staff0 pr.1) :
    (simAsg staff0 prs acc).1 = acc.1 ∧ (simAsg staff0 prs acc).2.1 = acc.2.1 := by
  induction prs generalizing acc with
  | nil => exact ⟨rfl, rfl⟩
  | cons pr prs ih =>
      have hstep : simStep staff0 acc pr = (acc.1, acc.2.1, acc.2.2 + 1) := by
        unfold simStep
        rw [if_pos (Or.inl (h pr (List.mem_cons_self pr prs)))]
      rw [show simAsg staff0 (pr :: prs) acc = simAsg staff0 prs (simStep staff0 acc pr)
        from rfl, hstep]
      exact ih _ (fun pr2 h2 => h pr2 (List.mem_cons.mpr (Or.inr h2)))

theorem eliminarExecStep_staff_sub (f : Failures) (dry oP : Bool) (st : RunState)
    (e : Nat × Nat) (c p : Nat)
    (h : p ∈ (eliminarExecStep f dry oP st e).remote.staff c) :
    p ∈ st.remote.staff c := by
  unfold eliminarExecStep at h
  split at h
  · split at h
    · exact h
    · split at h
      · exact h
      · simp only [] at h
        by_cases hcc : c = e.1
        · rw [if_pos hcc] at h
          exact List.mem_of_mem_filter h
        · rw [if_neg hcc] at h
          exact h
  · exact h

theorem eliminarExec_staff_sub (f : Failures) (dry oP : Bool) (ps : List (Nat × Nat))
    (st : RunState) (c p : Nat)
    (h : p ∈ (ps.foldl (eliminarExecStep f dry oP) st).remote.staff c) :
    p ∈ st.remote.staff c := by
  induction ps generalizing st with
  | nil => exact h
  | cons e ps ih =>
      rw [List.foldl_cons] at h
      exact eliminarExecStep_staff_sub f dry oP st e c p (ih _ h)

theorem eliminarExecStep_staff_keep (f : Failures) (dry oP : Bool) (st : RunState)
    (e : Nat × Nat) (c p : Nat) (hne : e.1 = c → e.2 ≠ p)
    (h : p ∈ st.remote.staff c) :
    p ∈ (eliminarExecStep f dry oP st e).remote.staff c := by
  unfold eliminarExecStep
  split
  · split
    · exact h
    · split
      · exact h
      · simp only []
        by_cases hcc : c = e.1
        · rw [if_pos hcc]
          refine List.mem_filter.mpr ⟨h, ?_⟩
          rw [decide_eq_true_eq]
          intro hcon
          exact hne hcc.symm (hcon ▸ rfl)
        · rw [if_neg hcc]
          exact h
  · exact h

theorem eliminarExec_staff_keep (f : Failures) (dry oP : Bool) (ps : List (Nat × Nat))
    (st : RunState) (c p : Nat) (hne : ∀ pr ∈ ps, pr.1 = c → pr.2 ≠ p)
    (h : p ∈ st.remote.staff c) :
    p ∈ (ps.foldl (eliminarExecStep f dry oP) st).remote.staff c := by
  induction ps generalizing st with
  | nil => exact h
  | cons e ps ih =>
      rw [List.foldl_cons]
      exact ih _ (fun pr h2 => hne pr (List.mem_cons.mpr (Or.inr h2)))
        (eliminarExecStep_staff_keep f dry oP st e c p
          (hne e (List.mem_cons_self e ps)) h)

theorem eliminarExec_staff_remove (ps : List (Nat × Nat)) (st : RunState) (c p : Nat)
    (h : (c, p) ∈ ps) :
    p ∉ (ps.foldl (eliminarExecStep noFailures false true) st).remote.staff c := by
  induction ps generalizing st with
  | nil => cases h
  | cons e ps ih =>
      rw [List.foldl_cons]
      rcases List.mem_cons.mp h with rfl | htl
      · intro hcon
        have h2 := eliminarExec_staff_sub noFailures false true ps _ c p hcon
        have h3 : p ∉ (eliminarExecStep noFailures false true st (c, p)).remote.staff c := by
          show p ∉ (if c = c then (st.remote.staff c).filter (fun q => q ≠ p)
            else st.remote.staff c)
          rw [if_pos rfl]
          intro hcon2
          have := List.of_mem_filter hcon2
          rw [decide_eq_true_eq] at this
          exact this rfl
        exact h3 h2
      · exact ih _ htl

theorem insertEnd_nodup {α : Type} [DecidableEq α] (l : List α) (x : α)
    (h : l.Nodup) : (insertEnd l x).Nodup := by
  unfold insertEnd
  split
  · exact h
  · rename_i hx
    simp only [List.nodup_append, List.nodup_cons]
    refine ⟨h, by simp, ?_⟩
    intro a ha
    simp only [List.mem_singleton]
    intro hcon
    subst hcon
    exact hx ha

theorem akeys_aset {α : Type} [DecidableEq α] (m : List (α × Bool)) (k : α) (v : Bool) :
    akeys (aset m k v) = if k ∈ akeys m then akeys m else akeys m ++ [k] := by
  induction m with
  | nil => simp [aset, akeys]
  | cons hd tl ih =>
      obtain ⟨k0, v0⟩ := hd
      simp only [aset, akeys, List.map_cons]
      by_cases h0 : k0 = k
      · subst h0
        rw [if_pos rfl, if_pos (List.mem_cons_self _ _)]
        rfl
      · rw [if_neg h0]
        show (k0 :: akeys (aset tl k v)) = _
        rw [ih]
        unfold akeys
        by_cases hk : k ∈ tl.map (·.1)
        · rw [if_pos hk, if_pos (List.mem_cons.mpr (Or.inr hk))]
        · rw [if_neg hk,
            if_neg (fun hcon => by
              rcases List.mem_cons.mp hcon with hcon | hcon
              · exact h0 hcon.symm
              · exact hk hcon)]
          rfl

theorem collect_estado_keys_nodup (l : List (Option Nat × Option Bool)) :
    (akeys (collect_estado l).1).Nodup := by
  unfold collect_estado
  have hgen : ∀ (acc : List (Nat × Bool) × List String), (akeys acc.1).Nodup →
      (akeys (l.foldl collectEstadoStep acc).1).Nodup := by
    induction l with
    | nil => exact fun acc h => h
    | cons d l ih =>
        intro acc h
        rw [List.foldl_cons]
        refine ih _ ?_
        unfold collectEstadoStep
        obtain ⟨q?, e?⟩ := d
        match q?, e? with
        | none, _ => exact h
        | some q, none => exact h
        | some q, some e =>
            simp only []
            split
            · split
              · exact h
              · show (akeys (aset acc.1 q e)).Nodup
                rw [akeys_aset]
                split
                · exact h
                · rename_i hq
                  simp only [List.nodup_append, List.nodup_cons]
                  exact ⟨h, by simp, fun a ha => by
                    simp only [List.mem_singleton]
                    intro hcon
                    subst hcon
                    exact hq ha⟩
            · show (akeys (aset acc.1 q e)).Nodup
              rw [akeys_aset]
              split
              · exact h
              · rename_i hq
                simp only [List.nodup_append, List.nodup_cons]
                exact ⟨h, by simp, fun a ha => by
                  simp only [List.mem_singleton]
                  intro hcon
                  subst hcon
                  exact hq ha⟩
  exact hgen ([], []) (by simp [akeys])

theorem alookup_mem {α β : Type} [DecidableEq α] (m : List (α × β)) (k : α) (v : β)
    (h : alookup m k = some v) : (k, v) ∈ m := by
  induction m with
  | nil => cases h
  | cons hd tl ih =>
      show (k, v) ∈ hd :: tl
      unfold alookup at h
      split at h
      · rename_i heq
        obtain ⟨k0, v0⟩ := hd
        cases Option.some.inj h
        cases heq
        exact List.mem_cons_self _ _
      · exact List.mem_cons.mpr (Or.inr (ih h))

theorem aadd_vals_nodup {α : Type} [DecidableEq α] (m : List (α × List Nat)) (k : α)
    (x : Nat) (h : ∀ k2 ls, alookup m k2 = some ls → ls.Nodup) :
    ∀ k2 ls, alookup (aadd m k x) k2 = some ls → ls.Nodup := by
  intro k2 ls hm
  rw [alookup_aadd] at hm
  by_cases hcc : k = k2
  · rw [if_pos hcc] at hm
    cases Option.some.inj hm
    cases hq : alookup m k with
    | none => exact insertEnd_nodup _ _ List.nodup_nil
    | some ls0 => exact insertEnd_nodup _ _ (h k ls0 hq)
  · rw [if_neg hcc] at hm
    exact h k2 ls hm

theorem collect_niveles_vals_nodup (docs : List Docente) :
    ∀ k ls, alookup (collect_niveles_por_persona docs) k = some ls → ls.Nodup := by
  unfold collect_niveles_por_persona
  have hgen : ∀ (acc : List (Nat × List Nat)),
      (∀ k ls, alookup acc k = some ls → ls.Nodup) →
      ∀ k ls, alookup (docs.foldl
        (fun (acc2 : List (Nat × List Nat)) d =>
          d.desiredByLevel.foldl
            (fun acc3 lv =>
              match LEVEL_ID_BY_LETTER lv.1 with
              | none => acc3
              | some nivelId => aadd acc3 d.personaId nivelId)
            acc2)
        acc) k = some ls → ls.Nodup := by
    induction docs with
    | nil => exact fun acc h => h
    | cons d docs ih =>
        intro acc h
        rw [List.foldl_cons]
        refine ih _ ?_
        have hinner : ∀ (lvs : List (Char × List Nat)) (acc2 : List (Nat × List Nat)),
            (∀ k ls, alookup acc2 k = some ls → ls.Nodup) →
            ∀ k ls, alookup (lvs.foldl
              (fun acc3 lv =>
                match LEVEL_ID_BY_LETTER lv.1 with
                | none => acc3
                | some nivelId => aadd acc3 d.personaId nivelId)
              acc2) k = some ls → ls.Nodup := by
          intro lvs
          induction lvs with
          | nil => exact fun acc2 h2 => h2
          | cons lv lvs ih2 =>
              intro acc2 h2
              rw [List.foldl_cons]
              refine ih2 _ ?_
              cases hq : LEVEL_ID_BY_LETTER lv.1 with
              | none =>
                  simp only [hq]
                  exact h2
              | some nid =>
                  simp only [hq]
                  exact aadd_vals_nodup acc2 d.personaId nid h2
        exact hinner d.desiredByLevel acc h
  exact hgen [] (fun k ls h => by cases h)

theorem fetch_activos_alookup (r : Remote) (ns : List Nat) (n : Nat)
    (acc : List (Nat × (Nat → Option Bool)) × List ApiError)
    (hinv : ∀ e ∈ acc.1, e.2 = r.activos e.1)
    (h : n ∈ ns ∨ (alookup acc.1 n).isSome) :
    alookup (ns.foldl (fetchActivosStep r noFailures) acc).1 n =
      some (r.activos n) := by
  induction ns generalizing acc with
  | nil =>
      rcases h with h | h
      · cases h
      · show alookup acc.1 n = some (r.activos n)
        cases hq : alookup acc.1 n with
        | none =>
            rw [hq] at h
            cases h
        | some m =>
            have h2 := hinv (n, m) (alookup_mem acc.1 n m hq)
            exact congrArg some h2
  | cons n0 ns ih =>
      rw [List.foldl_cons]
      have hstep : fetchActivosStep r noFailures acc n0 =
          (acc.1 ++ [(n0, r.activos n0)], acc.2) := rfl
      rw [hstep]
      refine ih _ ?_ ?_
      · intro e he
        rcases List.mem_append.mp he with he | he
        · exact hinv e he
        · rw [List.mem_singleton] at he
          subst he
          rfl
      · rcases h with h | h
        · rcases List.mem_cons.mp h with rfl | h
          · refine Or.inr ?_
            rw [alookup_append_one]
            cases hq : alookup acc.1 n with
            | none =>
                simp only [hq]
                rw [if_pos trivial]
                rfl
            | some m => simp only [hq, Option.isSome]
          · exact Or.inl h
        · refine Or.inr ?_
          rw [alookup_append_one]
          cases hq : alookup acc.1 n with
          | none => rw [hq] at h; cases h
          | some m => simp only [hq, Option.isSome]

theorem lookupActivos_fetch (r : Remote) (ns : List Nat) (n p : Nat) (h : n ∈ ns) :
    lookupActivos (fetch_activos_por_nivel r noFailures ns).1 n p = r.activos n p := by
  unfold lookupActivos fetch_activos_por_nivel
  rw [fetch_activos_alookup r ns n ([], []) (fun e he => by cases he) (Or.inl h)]

theorem estadoExecStep_activos_other (st : RunState) (ch : Change) (n p : Nat)
    (h : ¬(ch.1 = p ∧ ch.2.1 = n)) :
    (estadoExecStep noFailures false st ch).remote.activos n p =
      st.remote.activos n p := by
  show (if n = ch.2.1 ∧ p = ch.1 then some ch.2.2.1 else st.remote.activos n p) =
    st.remote.activos n p
  rw [if_neg (fun hcon => h ⟨hcon.2.symm, hcon.1.symm⟩)]

theorem estadoExec_activos_other (chs : List Change) (st : RunState) (n p : Nat)
    (h : ∀ ch ∈ chs, ¬(ch.1 = p ∧ ch.2.1 = n)) :
    (chs.foldl (estadoExecStep noFailures false) st).remote.activos n p =
      st.remote.activos n p := by
  induction chs generalizing st with
  | nil => rfl
  | cons ch chs ih =>
      rw [List.foldl_cons, ih _ (fun ch2 h2 => h ch2 (List.mem_cons.mpr (Or.inr h2))),
        estadoExecStep_activos_other st ch n p (h ch (List.mem_cons_self ch chs))]

theorem estadoExec_activos_set (chs : List Change) (st : RunState)
    (hnd : (chs.map (fun ch => (ch.1, ch.2.1))).Nodup) (ch : Change) (h : ch ∈ chs) :
    (chs.foldl (estadoExecStep noFailures false) st).remote.activos ch.2.1 ch.1 =
      some ch.2.2.1 := by
  induction chs generalizing st with
  | nil => cases h
  | cons ch0 chs ih =>
      rw [List.map_cons, List.nodup_cons] at hnd
      rcases List.mem_cons.mp h with rfl | htl
      · rw [List.foldl_cons]
        rw [estadoExec_activos_other chs _ ch.2.1 ch.1 (fun ch2 h2 hcon =>
          hnd.1 (List.mem_map.mpr ⟨ch2, h2, by rw [hcon.1, hcon.2]⟩))]
        show (if ch.2.1 = ch.2.1 ∧ ch.1 = ch.1 then some ch.2.2.1
          else st.remote.activos ch.2.1 ch.1) = some ch.2.2.1
        rw [if_pos ⟨rfl, rfl⟩]
      · rw [List.foldl_cons]
        exact ih _ hnd.2 htl

theorem changesFor_fst (apn : List (Nat × (Nat → Option Bool))) (p : Nat) (d : Bool)
    (ls : List Nat) (ch : Change) (h : ch ∈ changesFor apn p d ls) :
    ch.1 = p ∧ ch.2.1 ∈ ls := by
  obtain ⟨a, m, dd, cur⟩ := ch
  rw [changesFor_mem] at h
  exact ⟨h.1, h.2.2.1⟩

theorem changesFor_keys_nodup (apn : List (Nat × (Nat → Option Bool))) (p : Nat)
    (d : Bool) (ls : List Nat) (h : ls.Nodup) :
    ((changesFor apn p d ls).map (fun ch => ch.2.1)).Nodup := by
  induction ls with
  | nil => exact List.nodup_nil
  | cons m ls ih =>
      rw [List.nodup_cons] at h
      rw [changesFor]
      split
      · rw [List.nil_append]
        exact ih h.2
      · rw [List.cons_append, List.nil_append, List.map_cons, List.nodup_cons]
        refine ⟨?_, ih h.2⟩
        intro hcon
        rw [List.mem_map] at hcon
        obtain ⟨ch, hch, hm⟩ := hcon
        have := (changesFor_fst apn p d ls ch hch).2
        rw [hm] at this
        exact h.1 this

theorem estadoChangesList_fst (apn : List (Nat × (Nat → Option Bool)))
    (nmap : List (Nat × List Nat)) (emap : List (Nat × Bool)) (ch : Change)
    (h : ch ∈ estadoChangesList apn nmap emap) : ch.1 ∈ akeys emap := by
  unfold estadoChangesList at h
  rw [List.mem_flatMap] at h
  obtain ⟨e, he, hch⟩ := h
  rw [(changesFor_fst _ _ _ _ _ hch).1]
  exact List.mem_map.mpr ⟨e, he, rfl⟩

theorem estadoChangesList_keys_nodup (apn : List (Nat × (Nat → Option Bool)))
    (nmap : List (Nat × List Nat)) (emap : List (Nat × Bool))
    (hke : (akeys emap).Nodup)
    (hvals : ∀ p, (List.insertionSort (· ≤ ·) ((alookup nmap p).getD [])).Nodup) :
    ((estadoChangesList apn nmap emap).map (fun ch => (ch.1, ch.2.1))).Nodup := by
  induction emap with
  | nil => exact List.nodup_nil
  | cons e emap ih =>
      rw [akeys, List.map_cons, List.nodup_cons] at hke
      have hhead : ((changesFor apn e.1 e.2
          (List.insertionSort (· ≤ ·) ((alookup nmap e.1).getD []))).map
            (fun ch => (ch.1, ch.2.1))).Nodup := by
        have h2 := changesFor_keys_nodup apn e.1 e.2 _ (hvals e.1)
        have h3 : ((changesFor apn e.1 e.2
            (List.insertionSort (· ≤ ·) ((alookup nmap e.1).getD []))).map
              (fun ch => (ch.1, ch.2.1))).map Prod.snd =
            (changesFor apn e.1 e.2
              (List.insertionSort (· ≤ ·) ((alookup nmap e.1).getD []))).map
                (fun ch => ch.2.1) := by
          rw [List.map_map]
          rfl
        refine List.Nodup.of_map Prod.snd ?_
        rw [h3]
        exact h2
      show ((estadoChangesList apn nmap (e :: emap)).map
        (fun ch => (ch.1, ch.2.1))).Nodup
      unfold estadoChangesList
      rw [List.flatMap_cons, List.map_append]
      rw [List.nodup_append]
      refine ⟨hhead, ih hke.2, ?_⟩
      intro pr hpr
      rw [List.mem_map] at hpr
      obtain ⟨ch, hch, hpr2⟩ := hpr
      intro hcon
      rw [List.mem_map] at hcon
      obtain ⟨ch2, hch2, hcon2⟩ := hcon
      have h4 := estadoChangesList_fst apn nmap emap ch2 hch2
      have h5 : ch.1 = e.1 := (changesFor_fst _ _ _ _ _ hch).1
      rw [← hcon2] at hpr2
      have h6 : ch.1 = ch2.1 := by
        rw [Prod.mk.injEq] at hpr2
        exact hpr2.1
      rw [← h6, h5] at h4
      exact hke.1 h4

theorem estadoPhase_activos (emap : List (Nat × Bool)) (nmap : List (Nat × List Nat))
    (st : RunState) (hke : (akeys emap).Nodup)
    (hvals : ∀ q ls, alookup nmap q = some ls → ls.Nodup)
    (p : Nat) (d : Bool) (hmem : (p, d) ∈ emap) (n : Nat)
    (hn : n ∈ (alookup nmap p).getD []) :
    (estadoPhase noFailures false emap nmap st).remote.activos n p = some d := by
  have hvs : ∀ q, (List.insertionSort (· ≤ ·) ((alookup nmap q).getD [])).Nodup := by
    intro q
    cases hq : alookup nmap q with
    | none => exact ((List.perm_insertionSort _ _).nodup_iff).mpr List.nodup_nil
    | some ls =>
        exact ((List.perm_insertionSort _ _).nodup_iff).mpr (hvals q ls hq)
  have hns : n ∈ List.insertionSort (· ≤ ·) ((nmap.map (·.2)).flatten.dedup) := by
    cases hq : alookup nmap p with
    | none =>
        rw [hq] at hn
        cases hn
    | some ls =>
        rw [hq] at hn
        refine ((List.perm_insertionSort _ _).mem_iff).mpr ?_
        rw [List.mem_dedup, List.mem_flatten]
        exact ⟨ls, List.mem_map.mpr ⟨(p, ls), alookup_mem nmap p ls hq, rfl⟩, hn⟩
  unfold estadoPhase
  simp only []
  rw [estadoPlan_changes, List.nil_append]
  have hcur := lookupActivos_fetch st.remote
    (List.insertionSort (· ≤ ·) ((nmap.map (·.2)).flatten.dedup)) n p hns
  have hfr := estadoPlan_frame
    (fetch_activos_por_nivel st.remote noFailures
      (List.insertionSort (· ≤ ·) ((nmap.map (·.2)).flatten.dedup))).1 nmap emap
    ({ st with
       errors := st.errors ++
         (fetch_activos_por_nivel st.remote noFailures
           (List.insertionSort (· ≤ ·) ((nmap.map (·.2)).flatten.dedup))).2,
       summary := { st.summary with
         errores_api := st.summary.errores_api +
           (fetch_activos_por_nivel st.remote noFailures
             (List.insertionSort (· ≤ ·) ((nmap.map (·.2)).flatten.dedup))).2.length } },
     [])
  unfold frameP at hfr
  simp only [Prod.mk.injEq] at hfr
  by_cases hcase : lookupActivos
      (fetch_activos_por_nivel st.remote noFailures
        (List.insertionSort (· ≤ ·) ((nmap.map (·.2)).flatten.dedup))).1 n p = some d
  · rw [estadoExec_activos_other]
    · rw [hfr.2.2.2.1]
      show st.remote.activos n p = some d
      rw [← hcur]
      exact hcase
    · intro ch hch2 hcon
      obtain ⟨a, m, dd, cur⟩ := ch
      obtain ⟨ha, hm⟩ := hcon
      simp only [] at ha hm
      rw [ha, hm] at hch2
      rw [estadoChangesList_mem _ nmap emap hke p d hmem] at hch2
      exact hch2.2.2.2 hcase
  · have hchm : (p, n, d, lookupActivos
        (fetch_activos_por_nivel st.remote noFailures
          (List.insertionSort (· ≤ ·) ((nmap.map (·.2)).flatten.dedup))).1 n p) ∈
        estadoChangesList
          (fetch_activos_por_nivel st.remote noFailures
            (List.insertionSort (· ≤ ·) ((nmap.map (·.2)).flatten.dedup))).1
          nmap emap := by
      rw [estadoChangesList_mem _ nmap emap hke p d hmem]
      exact ⟨rfl, hn, rfl, hcase⟩
    exact estadoExec_activos_set _ _
      (estadoChangesList_keys_nodup _ nmap emap hke hvs) _ hchm

theorem eliminarPhase_activos (f : Failures) (dry oP : Bool) (st : RunState) :
    (eliminarPhase f dry oP st).remote.activos = st.remote.activos := by
  unfold eliminarPhase
  simp only []
  have hE := eliminarExec_frame f dry oP
    (st.desired_by_class.foldl (eliminarGatherStep f) (st, [])).2
    (st.desired_by_class.foldl (eliminarGatherStep f) (st, [])).1
  unfold frameEE at hE
  simp only [Prod.mk.injEq] at hE
  rw [hE.2.2.2.2.2.1, eliminarGather_remote]

theorem eliminarPhase_clases (f : Failures) (dry oP : Bool) (st : RunState) :
    (eliminarPhase f dry oP st).remote.clases = st.remote.clases := by
  unfold eliminarPhase
  simp only []
  have hE := eliminarExec_frame f dry oP
    (st.desired_by_class.foldl (eliminarGatherStep f) (st, [])).2
    (st.desired_by_class.foldl (eliminarGatherStep f) (st, [])).1
  unfold frameEE at hE
  simp only [Prod.mk.injEq] at hE
  rw [hE.2.2.2.2.1, eliminarGather_remote]

theorem clasesAndRemoval_activos (docentes : List Docente) (f : Failures)
    (dry rm oP : Bool) (cf : List Clase × Nat) (st : RunState) :
    (clasesAndRemoval docentes f dry rm oP cf st).remote.activos =
      st.remote.activos := by
  unfold clasesAndRemoval
  simp only []
  have hC : ∀ (dms : List (Docente × List Clase)) (st2 : RunState),
      (clasesPhase f dry dms st2).remote.activos = st2.remote.activos := by
    intro dms st2
    have h := clasesPhase_frame f dry dms st2
    unfold frameAD at h
    simp only [Prod.mk.injEq] at h
    exact h.2.2.1
  split
  · split
    · rw [eliminarPhase_activos, hC]
    · rw [hC]
  · split
    · rw [eliminarPhase_activos, hC]
    · rw [hC]

theorem clasesAndRemoval_clases (docentes : List Docente) (f : Failures)
    (dry rm oP : Bool) (cf : List Clase × Nat) (st : RunState) :
    (clasesAndRemoval docentes f dry rm oP cf st).remote.clases =
      st.remote.clases := by
  unfold clasesAndRemoval
  simp only []
  have hC : ∀ (dms : List (Docente × List Clase)) (st2 : RunState),
      (clasesPhase f dry dms st2).remote.clases = st2.remote.clases := by
    intro dms st2
    have h := clasesPhase_frame f dry dms st2
    unfold frameAD at h
    simp only [Prod.mk.injEq] at h
    exact h.2.1
  split
  · split
    · rw [eliminarPhase_clases, hC]
    · rw [hC]
  · split
    · rw [eliminarPhase_clases, hC]
    · rw [hC]

theorem preClasesState_staff (docentes docentesEstado : List Docente) (invalidos : Nat)
    (remote : Remote) (f : Failures) (dry : Bool) :
    (preClasesState docentes docentesEstado invalidos remote f dry).remote.staff =
      remote.staff := by
  unfold preClasesState
  simp only []
  have hn : ∀ (niv : List (Nat × List Nat)) (st0 : RunState),
      (nivelesPhase f dry niv st0).remote = st0.remote := by
    intro niv st0
    have h := nivelesPhase_frame f dry niv st0
    unfold frameN at h
    simp only [Prod.mk.injEq] at h
    exact h.2.2.2.1
  have he : ∀ (emap : List (Nat × Bool)) (nmap : List (Nat × List Nat))
      (st0 : RunState),
      (estadoPhase f dry emap nmap st0).remote.staff = st0.remote.staff := by
    intro emap nmap st0
    unfold estadoPhase
    simp only []
    have hExec : ∀ (chs : List Change) (st2 : RunState),
        (chs.foldl (estadoExecStep f dry) st2).remote.staff = st2.remote.staff := by
      intro chs st2
      have h := estadoExec_frame f dry chs st2
      unfold frameE at h
      simp only [Prod.mk.injEq] at h
      exact h.2.2.2.2.2.1
    have hPlan : ∀ (apn : List (Nat × (Nat → Option Bool))) (acc : RunState × List Change),
        (emap.foldl (estadoPlanStep apn nmap) acc).1.remote = acc.1.remote := by
      intro apn acc
      have h := estadoPlan_frame apn nmap emap acc
      unfold frameP at h
      simp only [Prod.mk.injEq] at h
      exact h.2.2.2.1
    rw [hExec _ _, hPlan _ _]
  split
  · split
    · rfl
    · rw [hn]
  · split
    · rw [he]
    · rw [he, hn]

theorem nivelesPhase_keep4 (f : Failures) (dry : Bool) (niv : List (Nat × List Nat))
    (st : RunState) :
    (nivelesPhase f dry niv st).summary.asignaciones_nuevas =
        st.summary.asignaciones_nuevas ∧
      (nivelesPhase f dry niv st).summary.eliminaciones = st.summary.eliminaciones ∧
      (nivelesPhase f dry niv st).summary.estado_activaciones =
        st.summary.estado_activaciones ∧
      (nivelesPhase f dry niv st).summary.estado_inactivaciones =
        st.summary.estado_inactivaciones := by
  have h := nivelesPhase_frame f dry niv st
  unfold frameN at h
  simp only [Prod.mk.injEq] at h
  exact ⟨h.2.2.2.2.2.2.2.2.1, h.2.2.2.2.2.2.2.2.2.2.1, h.2.2.2.2.2.2.2.2.2.2.2.1,
    h.2.2.2.2.2.2.2.2.2.2.2.2.1⟩

theorem estadoPhase_keepNE (f : Failures) (dry : Bool) (emap : List (Nat × Bool))
    (nmap : List (Nat × List Nat)) (st : RunState) :
    (estadoPhase f dry emap nmap st).summary.asignaciones_nuevas =
        st.summary.asignaciones_nuevas ∧
      (estadoPhase f dry emap nmap st).summary.eliminaciones =
        st.summary.eliminaciones := by
  unfold estadoPhase
  simp only []
  have hExec : ∀ (chs : List Change) (st2 : RunState),
      (chs.foldl (estadoExecStep f dry) st2).summary.asignaciones_nuevas =
          st2.summary.asignaciones_nuevas ∧
        (chs.foldl (estadoExecStep f dry) st2).summary.eliminaciones =
          st2.summary.eliminaciones := by
    intro chs st2
    have h := estadoExec_frame f dry chs st2
    unfold frameE at h
    simp only [Prod.mk.injEq] at h
    exact ⟨h.2.2.2.2.2.2.2.2.2.2.1, h.2.2.2.2.2.2.2.2.2.2.2.2.1⟩
  have hPlan : ∀ (apn : List (Nat × (Nat → Option Bool))) (acc : RunState × List Change),
      (emap.foldl (estadoPlanStep apn nmap) acc).1.summary.asignaciones_nuevas =
          acc.1.summary.asignaciones_nuevas ∧
        (emap.foldl (estadoPlanStep apn nmap) acc).1.summary.eliminaciones =
          acc.1.summary.eliminaciones := by
    intro apn acc
    have h := estadoPlan_frame apn nmap emap acc
    unfold frameP at h
    simp only [Prod.mk.injEq] at h
    exact ⟨h.2.2.2.2.2.2.2.2.2.1, h.2.2.2.2.2.2.2.2.2.2.2.1⟩
  refine ⟨?_, ?_⟩
  · rw [(hExec _ _).1, (hPlan _ _).1]
  · rw [(hExec _ _).2, (hPlan _ _).2]

theorem changesFor_empty (apn : List (Nat × (Nat → Option Bool))) (p : Nat) (d : Bool)
    (ls : List Nat) (h : ∀ n ∈ ls, lookupActivos apn n p = some d) :
    changesFor apn p d ls = [] := by
  induction ls with
  | nil => rfl
  | cons m ls ih =>
      rw [changesFor]
      rw [if_pos (by
        rw [omitCond_iff]
        exact h m (List.mem_cons_self m ls))]
      rw [List.nil_append]
      exact ih (fun n hn => h n (List.mem_cons.mpr (Or.inr hn)))

theorem changes_empty_of_activos (emap : List (Nat × Bool))
    (nmap : List (Nat × List Nat)) (r : Remote)
    (hall : ∀ p d, (p, d) ∈ emap → ∀ n, n ∈ (alookup nmap p).getD [] →
      r.activos n p = some d) :
    estadoChangesList
      (fetch_activos_por_nivel r noFailures
        (List.insertionSort (· ≤ ·) ((nmap.map (·.2)).flatten.dedup))).1
      nmap emap = [] := by
  induction emap with
  | nil => rfl
  | cons e emap ih =>
      unfold estadoChangesList
      rw [List.flatMap_cons]
      rw [changesFor_empty _ _ _ _ (fun n hn => by
        have hn2 : n ∈ (alookup nmap e.1).getD [] :=
          ((List.perm_insertionSort _ _).mem_iff).mp hn
        have hns : n ∈ List.insertionSort (· ≤ ·) ((nmap.map (·.2)).flatten.dedup) := by
          cases hq : alookup nmap e.1 with
          | none =>
              rw [hq] at hn2
              cases hn2
          | some ls =>
              rw [hq] at hn2
              refine ((List.perm_insertionSort _ _).mem_iff).mpr ?_
              rw [List.mem_dedup, List.mem_flatten]
              exact ⟨ls, List.mem_map.mpr ⟨(e.1, ls), alookup_mem nmap e.1 ls hq, rfl⟩,
                hn2⟩
        rw [lookupActivos_fetch r _ n e.1 hns]
        exact hall e.1 e.2 (Prod.mk.eta ▸ List.mem_cons_self e emap) n hn2)]
      rw [List.nil_append]
      exact ih (fun p d hm n hn => hall p d (List.mem_cons.mpr (Or.inr hm)) n hn)

theorem estadoPhase_counters_no_changes (emap : List (Nat × Bool))
    (nmap : List (Nat × List Nat)) (st : RunState)
    (h : estadoChangesList
      (fetch_activos_por_nivel st.remote noFailures
        (List.insertionSort (· ≤ ·) ((nmap.map (·.2)).flatten.dedup))).1
      nmap emap = []) :
    (estadoPhase noFailures false emap nmap st).summary.estado_activaciones =
        st.summary.estado_activaciones ∧
      (estadoPhase noFailures false emap nmap st).summary.estado_inactivaciones =
        st.summary.estado_inactivaciones := by
  unfold estadoPhase
  simp only []
  rw [estadoPlan_changes, List.nil_append, h]
  have hfr := estadoPlan_frame
    (fetch_activos_por_nivel st.remote noFailures
      (List.insertionSort (· ≤ ·) ((nmap.map (·.2)).flatten.dedup))).1 nmap emap
    ({ st with
       errors := st.errors ++
         (fetch_activos_por_nivel st.remote noFailures
           (List.insertionSort (· ≤ ·) ((nmap.map (·.2)).flatten.dedup))).2,
       summary := { st.summary with
         errores_api := st.summary.errores_api +
           (fetch_activos_por_nivel st.remote noFailures
             (List.insertionSort (· ≤ ·) ((nmap.map (·.2)).flatten.dedup))).2.length } },
     [])
  unfold frameP at hfr
  simp only [Prod.mk.injEq] at hfr
  exact ⟨hfr.2.2.2.2.2.2.2.2.2.2.2.2.1, hfr.2.2.2.2.2.2.2.2.2.2.2.2.2.1⟩

theorem pendingOf_mem_not (roster : Nat → List Nat) (ds : List (Nat × List Nat))
    (pr : Nat × Nat) (h : pr ∈ pendingOf roster ds) :
    ∃ e ∈ ds, pr.1 = e.1 ∧ pr.2 ∉ e.2 := by
  unfold pendingOf at h
  rw [List.mem_flatMap] at h
  obtain ⟨e, he, hm⟩ := h
  rw [List.mem_map] at hm
  obtain ⟨q, hq, heq⟩ := hm
  have hq2 : q ∈ (roster e.1).filter (fun p => p ∉ e.2) :=
    ((List.perm_insertionSort _ _).mem_iff).mp hq
  have hq3 := List.of_mem_filter hq2
  rw [decide_eq_true_eq] at hq3
  refine ⟨e, he, ?_, ?_⟩
  · rw [← heq]
  · rw [← heq]
    exact hq3

theorem pendingOf_mem_intro (roster : Nat → List Nat) (ds : List (Nat × List Nat))
    (e : Nat × List Nat) (he : e ∈ ds) (q : Nat) (hq : q ∈ roster e.1)
    (hnot : q ∉ e.2) : (e.1, q) ∈ pendingOf roster ds := by
  unfold pendingOf
  rw [List.mem_flatMap]
  refine ⟨e, he, ?_⟩
  rw [List.mem_map]
  refine ⟨q, ?_, rfl⟩
  refine ((List.perm_insertionSort _ _).mem_iff).mpr ?_
  exact List.mem_filter.mpr ⟨hq, decide_eq_true hnot⟩

theorem pendingOf_nil (roster : Nat → List Nat) (ds : List (Nat × List Nat))
    (h : ∀ e ∈ ds, (roster e.1).filter (fun p => p ∉ e.2) = []) :
    pendingOf roster ds = [] := by
  induction ds with
  | nil => rfl
  | cons e ds ih =>
      rw [pendingOf_cons, h e (List.mem_cons_self e ds)]
      rw [show (List.insertionSort (· ≤ ·) ([] : List Nat)).map
        (fun p => (e.1, p)) = [] from rfl, List.nil_append]
      exact ih (fun e2 h2 => h e2 (List.mem_cons.mpr (Or.inr h2)))

theorem removalRun_staff (rm oP : Bool) (dms : List (Docente × List Clase))
    (st : RunState) (hc : st.staff_cache = []) (hp : st.planned_by_class = [])
    (hd : st.desired_by_class = []) :
    (∀ pr ∈ matchPairs dms, pr.2 ∈
      ((if rm = true ∧ (clasesPhase noFailures false dms st).desired_by_class ≠ [] then
          eliminarPhase noFailures false oP (clasesPhase noFailures false dms st)
        else clasesPhase noFailures false dms st)).remote.staff pr.1) ∧
    (rm = true → oP = true → ∀ e ∈ pairsAadd (matchPairs dms) [], ∀ q ∈
      ((if rm = true ∧ (clasesPhase noFailures false dms st).desired_by_class ≠ [] then
          eliminarPhase noFailures false oP (clasesPhase noFailures false dms st)
        else clasesPhase noFailures false dms st)).remote.staff e.1, q ∈ e.2) := by
  have hIF := applyClases_inv st.remote.staff
    ([], st.summary.asignaciones_nuevas, st.summary.asignaciones_omitidas) dms st
    (ApplyInv_entry st hc hp)
  have hdes : (clasesPhase noFailures false dms st).desired_by_class =
      pairsAadd (matchPairs dms) [] := by
    rw [clasesPhase_desired, hd]
  have hnd : (akeys (pairsAadd (matchPairs dms) [])).Nodup :=
    pairsAadd_keys_nodup (matchPairs dms) [] (by simp [akeys])
  have hGF : GatherInv
      (fun c => (st.remote.staff c).dedup ++
        assignedFor (simAsg st.remote.staff (matchPairs dms)
          ([], st.summary.asignaciones_nuevas, st.summary.asignaciones_omitidas)).1 c)
      (clasesPhase noFailures false dms st) := by
    refine ⟨?_, ?_⟩
    · intro c l hm
      exact hIF.cacheSome c l hm
    · intro c hm
      have ha := hIF.cacheNone c hm
      show ((clasesPhase noFailures false dms st).remote.staff c).dedup =
        (st.remote.staff c).dedup ++
          assignedFor (simAsg st.remote.staff (matchPairs dms)
            ([], st.summary.asignaciones_nuevas, st.summary.asignaciones_omitidas)).1 c
      rw [hIF.staffEq c, ha, List.append_nil, List.append_nil]
  have hpend : ((clasesPhase noFailures false dms st).desired_by_class.foldl
      (eliminarGatherStep noFailures) (clasesPhase noFailures false dms st, [])).2 =
      pendingOf
        (fun c => (st.remote.staff c).dedup ++
          assignedFor (simAsg st.remote.staff (matchPairs dms)
            ([], st.summary.asignaciones_nuevas,
             st.summary.asignaciones_omitidas)).1 c)
        (pairsAadd (matchPairs dms) []) := by
    rw [gather_pending _ _ _ [] hGF, List.nil_append, hdes]
  have hmemdl : ∀ pr ∈ matchPairs dms, ∀ e ∈ pairsAadd (matchPairs dms) [],
      pr.1 = e.1 → pr.2 ∈ e.2 := by
    intro pr hpr e he hfst
    have hmp : memPair (pairsAadd (matchPairs dms) []) pr.1 pr.2 :=
      (memPair_pairsAadd (matchPairs dms) [] pr.1 pr.2).mpr
        (Or.inr (Prod.mk.eta ▸ hpr))
    obtain ⟨gs, hgs, hpg⟩ := hmp
    have hlook := alookup_mem_nodup _ hnd e he
    rw [← hfst] at hlook
    rw [hlook] at hgs
    cases Option.some.inj hgs
    exact hpg
  constructor
  · intro pr hpr
    have hcov := simAsg_covers st.remote.staff (matchPairs dms)
      ([], st.summary.asignaciones_nuevas, st.summary.asignaciones_omitidas) pr hpr
    have hin3 : pr.2 ∈ (clasesPhase noFailures false dms st).remote.staff pr.1 := by
      rw [hIF.staffEq pr.1]
      rcases hcov with h | h
      · exact List.mem_append.mpr (Or.inl h)
      · refine List.mem_append.mpr (Or.inr ?_)
        rw [mem_assignedFor]
        exact Prod.mk.eta ▸ h
    split
    · unfold eliminarPhase
      simp only []
      apply eliminarExec_staff_keep
      · intro pr2 h2 hfst
        rw [hpend] at h2
        obtain ⟨e, he, hfst2, hnot⟩ := pendingOf_mem_not _ _ pr2 h2
        intro heq
        apply hnot
        rw [heq]
        refine hmemdl pr hpr e he ?_
        rw [← hfst, hfst2]
      · rw [eliminarGather_remote]
        exact hin3
    · exact hin3
  · intro hrm hoP e he q hq
    have hgate : rm = true ∧
        (clasesPhase noFailures false dms st).desired_by_class ≠ [] := by
      refine ⟨hrm, ?_⟩
      rw [hdes]
      exact List.ne_nil_of_mem he
    rw [if_pos hgate] at hq
    subst hoP
    by_contra hqe
    unfold eliminarPhase at hq
    simp only [] at hq
    have hq3 : q ∈ (clasesPhase noFailures false dms st).remote.staff e.1 := by
      have h2 := eliminarExec_staff_sub noFailures false true _ _ e.1 q hq
      rw [eliminarGather_remote] at h2
      exact h2
    have hqro : q ∈ (st.remote.staff e.1).dedup ++
        assignedFor (simAsg st.remote.staff (matchPairs dms)
          ([], st.summary.asignaciones_nuevas,
           st.summary.asignaciones_omitidas)).1 e.1 := by
      rw [hIF.staffEq e.1] at hq3
      rcases List.mem_append.mp hq3 with h | h
      · exact List.mem_append.mpr (Or.inl (List.mem_dedup.mpr h))
      · exact List.mem_append.mpr (Or.inr h)
    have hinpend : (e.1, q) ∈ ((clasesPhase noFailures false dms st).desired_by_class.foldl
        (eliminarGatherStep noFailures) (clasesPhase noFailures false dms st, [])).2 := by
      rw [hpend]
      exact pendingOf_mem_intro _ _ e he q hqro hqe
    exact eliminarExec_staff_remove _ _ e.1 q hinpend hq

theorem preClasesState_NE (docentes docentesEstado : List Docente) (invalidos : Nat)
    (remote : Remote) (f : Failures) (dry : Bool) :
    (preClasesState docentes docentesEstado invalidos remote f dry).summary.asignaciones_nuevas
        = 0 ∧
      (preClasesState docentes docentesEstado invalidos remote f
        dry).summary.eliminaciones = 0 := by
  unfold preClasesState
  simp only []
  split
  · split
    · exact ⟨rfl, rfl⟩
    · exact ⟨(nivelesPhase_keep4 f dry _ _).1, (nivelesPhase_keep4 f dry _ _).2.1⟩
  · split
    · exact ⟨(estadoPhase_keepNE f dry _ _ _).1, (estadoPhase_keepNE f dry _ _ _).2⟩
    · exact ⟨(estadoPhase_keepNE f dry _ _ _).1.trans ((nivelesPhase_keep4 f dry _ _).1),
        (estadoPhase_keepNE f dry _ _ _).2.trans ((nivelesPhase_keep4 f dry _ _).2.1)⟩

theorem estadoPhase_zeroCounters (emap : List (Nat × Bool))
    (nmap : List (Nat × List Nat)) (st : RunState) (r : Remote) (hst : st.remote = r)
    (hall : ∀ p d, (p, d) ∈ emap → ∀ n, n ∈ (alookup nmap p).getD [] →
      r.activos n p = some d)
    (hact : st.summary.estado_activaciones = 0)
    (hinact : st.summary.estado_inactivaciones = 0) :
    (estadoPhase noFailures false emap nmap st).summary.estado_activaciones = 0 ∧
      (estadoPhase noFailures false emap nmap st).summary.estado_inactivaciones = 0 := by
  have hch : estadoChangesList
      (fetch_activos_por_nivel st.remote noFailures
        (List.insertionSort (· ≤ ·) ((nmap.map (·.2)).flatten.dedup))).1
      nmap emap = [] := by
    rw [hst]
    exact changes_empty_of_activos emap nmap r hall
  obtain ⟨h1, h2⟩ := estadoPhase_counters_no_changes emap nmap st hch
  exact ⟨by rw [h1, hact], by rw [h2, hinact]⟩

theorem preClasesState_estado_zero (docentes docentesEstado : List Docente)
    (invalidos : Nat) (r : Remote)
    (hall : ∀ p d, (p, d) ∈
        (collect_estado (docentesEstado.map (fun d2 => (some d2.personaId, d2.estado)))).1 →
      ∀ n, n ∈ (alookup (collect_niveles_por_persona docentesEstado) p).getD [] →
        r.activos n p = some d) :
    (preClasesState docentes docentesEstado invalidos r noFailures
        false).summary.estado_activaciones = 0 ∧
      (preClasesState docentes docentesEstado invalidos r noFailures
        false).summary.estado_inactivaciones = 0 := by
  have hniv : ∀ (niv : List (Nat × List Nat)) (st0 : RunState),
      (nivelesPhase noFailures false niv st0).remote = st0.remote := by
    intro niv st0
    have h := nivelesPhase_frame noFailures false niv st0
    unfold frameN at h
    simp only [Prod.mk.injEq] at h
    exact h.2.2.2.1
  unfold preClasesState
  simp only []
  split
  · split
    · exact ⟨rfl, rfl⟩
    · exact ⟨(nivelesPhase_keep4 noFailures false _ _).2.2.1,
        (nivelesPhase_keep4 noFailures false _ _).2.2.2⟩
  · split
    · exact estadoPhase_zeroCounters _ _ _ r rfl hall rfl rfl
    · exact estadoPhase_zeroCounters _ _ _ r (hniv _ _) hall
        ((nivelesPhase_keep4 noFailures false _ _).2.2.1)
        ((nivelesPhase_keep4 noFailures false _ _).2.2.2)

theorem removalRun_zero (rm oP : Bool) (dms : List (Docente × List Clase))
    (st : RunState) (hc : st.staff_cache = []) (hp : st.planned_by_class = [])
    (hd : st.desired_by_class = [])
    (hnuev : st.summary.asignaciones_nuevas = 0)
    (helim : st.summary.eliminaciones = 0)
    (hact : st.summary.estado_activaciones = 0)
    (hinact : st.summary.estado_inactivaciones = 0)
    (hcov : ∀ pr ∈ matchPairs dms, pr.2 ∈ st.remote.staff pr.1)
    (hsurp : rm = true → oP = true → ∀ e ∈ pairsAadd (matchPairs dms) [],
      ∀ q ∈ st.remote.staff e.1, q ∈ e.2) :
    ((if rm = true ∧ (clasesPhase noFailures false dms st).desired_by_class ≠ [] then
        eliminarPhase noFailures false oP (clasesPhase noFailures false dms st)
      else clasesPhase noFailures false dms st)).summary.asignaciones_nuevas = 0 ∧
    ((if rm = true ∧ (clasesPhase noFailures false dms st).desired_by_class ≠ [] then
        eliminarPhase noFailures false oP (clasesPhase noFailures false dms st)
      else clasesPhase noFailures false dms st)).summary.eliminaciones = 0 ∧
    ((if rm = true ∧ (clasesPhase noFailures false dms st).desired_by_class ≠ [] then
        eliminarPhase noFailures false oP (clasesPhase noFailures false dms st)
      else clasesPhase noFailures false dms st)).summary.estado_activaciones = 0 ∧
    ((if rm = true ∧ (clasesPhase noFailures false dms st).desired_by_class ≠ [] then
        eliminarPhase noFailures false oP (clasesPhase noFailures false dms st)
      else clasesPhase noFailures false dms st)).summary.estado_inactivaciones = 0 := by
  have hIF := applyClases_inv st.remote.staff
    ([], st.summary.asignaciones_nuevas, st.summary.asignaciones_omitidas) dms st
    (ApplyInv_entry st hc hp)
  have hdes : (clasesPhase noFailures false dms st).desired_by_class =
      pairsAadd (matchPairs dms) [] := by
    rw [clasesPhase_desired, hd]
  have hskip := simAsg_all_skip st.remote.staff (matchPairs dms)
    ([], st.summary.asignaciones_nuevas, st.summary.asignaciones_omitidas)
    (fun pr hpr => hcov pr hpr)
  have hfF := clasesPhase_frame noFailures false dms st
  unfold frameAD at hfF
  simp only [Prod.mk.injEq] at hfF
  have hn3 : (clasesPhase noFailures false dms st).summary.asignaciones_nuevas = 0 := by
    rw [hIF.nuevasEq, hskip.2, hnuev]
  have he3 : (clasesPhase noFailures false dms st).summary.eliminaciones = 0 := by
    rw [hfF.2.2.2.2.1, helim]
  have ha3 : (clasesPhase noFailures false dms st).summary.estado_activaciones = 0 := by
    rw [hfF.2.2.2.2.2.1, hact]
  have hi3 : (clasesPhase noFailures false dms st).summary.estado_inactivaciones = 0 := by
    rw [hfF.2.2.2.2.2.2.1, hinact]
  split
  · rename_i hgate
    obtain ⟨k1, k2, k3, k4, k5⟩ :=
      eliminarPhase_keep5 noFailures false oP (clasesPhase noFailures false dms st)
    have hGF : GatherInv
        (fun c => (st.remote.staff c).dedup ++
          assignedFor (simAsg st.remote.staff (matchPairs dms)
            ([], st.summary.asignaciones_nuevas, st.summary.asignaciones_omitidas)).1 c)
        (clasesPhase noFailures false dms st) := by
      refine ⟨?_, ?_⟩
      · intro c l hm
        exact hIF.cacheSome c l hm
      · intro c hm
        have ha := hIF.cacheNone c hm
        show ((clasesPhase noFailures false dms st).remote.staff c).dedup =
          (st.remote.staff c).dedup ++
            assignedFor (simAsg st.remote.staff (matchPairs dms)
              ([], st.summary.asignaciones_nuevas,
               st.summary.asignaciones_omitidas)).1 c
        rw [hIF.staffEq c, ha, List.append_nil, List.append_nil]
    have helimf := eliminarPhase_elim false oP (clasesPhase noFailures false dms st) _ hGF
    rw [hdes, he3] at helimf
    refine ⟨by rw [k4, hn3], ?_, by rw [k2, ha3], by rw [k3, hi3]⟩
    rw [helimf]
    cases hoP : oP with
    | false => simp
    | true =>
        have hrm : rm = true := hgate.1
        have hpend0 : pendingOf
            (fun c => (st.remote.staff c).dedup ++
              assignedFor (simAsg st.remote.staff (matchPairs dms)
                ([], st.summary.asignaciones_nuevas,
                 st.summary.asignaciones_omitidas)).1 c)
            (pairsAadd (matchPairs dms) []) = [] := by
          rw [hskip.1]
          apply pendingOf_nil
          intro e he
          show ((st.remote.staff e.1).dedup ++ assignedFor [] e.1).filter
            (fun p => p ∉ e.2) = []
          rw [show assignedFor ([] : List (Nat × Nat)) e.1 = [] from rfl,
            List.append_nil, List.filter_eq_nil_iff]
          intro q hq
          simp only [decide_eq_true_eq, not_not]
          exact hsurp hrm hoP e he q (List.mem_dedup.mp hq)
        rw [hpend0]
        simp
  · exact ⟨hn3, he3, ha3, hi3⟩

theorem secondRun_zero (docentes docentesEstado : List Docente) (invalidos : Nat)
    (remote1 : Remote) (rm oP : Bool) (cf : List Clase × Nat)
    (hclases1 : remote1.clases = Except.ok cf)
    (hA2 : ∀ pr ∈ matchPairs (docentes.map
        (fun d => (d, match_clases d (List.insertionSort claseLe cf.1)))),
      pr.2 ∈ remote1.staff pr.1)
    (hA3 : rm = true → oP = true → ∀ e ∈ pairsAadd (matchPairs (docentes.map
        (fun d => (d, match_clases d (List.insertionSort claseLe cf.1))))) [],
      ∀ q ∈ remote1.staff e.1, q ∈ e.2)
    (hall1 : ∀ p d, (p, d) ∈
        (collect_estado (docentesEstado.map
          (fun d2 => (some d2.personaId, d2.estado)))).1 →
      ∀ n, n ∈ (alookup (collect_niveles_por_persona docentesEstado) p).getD [] →
        remote1.activos n p = some d) :
    ∃ s2 w2 e2 r2,
      asignar_profesores_clases docentes docentesEstado invalidos remote1 noFailures
        false rm oP = Except.ok (s2, w2, e2, r2) ∧
      s2.asignaciones_nuevas = 0 ∧ s2.eliminaciones = 0 ∧
      s2.estado_activaciones = 0 ∧ s2.estado_inactivaciones = 0 := by
  obtain ⟨hc2, hp2, hd2⟩ :=
    preClasesState_empties docentes docentesEstado invalidos remote1 noFailures false
  obtain ⟨hNEn, hNEe⟩ :=
    preClasesState_NE docentes docentesEstado invalidos remote1 noFailures false
  obtain ⟨hEa, hEi⟩ :=
    preClasesState_estado_zero docentes docentesEstado invalidos remote1 hall1
  have hst2 := preClasesState_staff docentes docentesEstado invalidos remote1
    noFailures false
  have hcl2 : (preClasesState docentes docentesEstado invalidos remote1 noFailures
      false).remote.clases = Except.ok cf := by
    rw [preClasesState_clases]
    exact hclases1
  have hfour : (clasesAndRemoval docentes noFailures false rm oP cf
        (preClasesState docentes docentesEstado invalidos remote1 noFailures
          false)).summary.asignaciones_nuevas = 0 ∧
      (clasesAndRemoval docentes noFailures false rm oP cf
        (preClasesState docentes docentesEstado invalidos remote1 noFailures
          false)).summary.eliminaciones = 0 ∧
      (clasesAndRemoval docentes noFailures false rm oP cf
        (preClasesState docentes docentesEstado invalidos remote1 noFailures
          false)).summary.estado_activaciones = 0 ∧
      (clasesAndRemoval docentes noFailures false rm oP cf
        (preClasesState docentes docentesEstado invalidos remote1 noFailures
          false)).summary.estado_inactivaciones = 0 := by
    unfold clasesAndRemoval
    simp only []
    have hcov : ∀ pr ∈ matchPairs (docentes.map
        (fun d => (d, match_clases d (List.insertionSort claseLe cf.1)))),
        pr.2 ∈ (preClasesState docentes docentesEstado invalidos remote1 noFailures
          false).remote.staff pr.1 := by
      intro pr hpr
      rw [hst2]
      exact hA2 pr hpr
    have hsurp : rm = true → oP = true → ∀ e ∈ pairsAadd (matchPairs (docentes.map
        (fun d => (d, match_clases d (List.insertionSort claseLe cf.1))))) [],
        ∀ q ∈ (preClasesState docentes docentesEstado invalidos remote1 noFailures
          false).remote.staff e.1, q ∈ e.2 := by
      intro hrm hoP e he q hq
      rw [hst2] at hq
      exact hA3 hrm hoP e he q hq
    split
    · exact removalRun_zero rm oP _ _ hc2 hp2 hd2 hNEn hNEe hEa hEi hcov hsurp
    · exact removalRun_zero rm oP _ _ hc2 hp2 hd2 hNEn hNEe hEa hEi hcov hsurp
  have h5 : ∀ st : RunState,
      ((if st.summary.docentes_procesados = 0 then
          { st with warnings := st.warnings ++
              ["No se encontraron docentes validos en el Excel."] }
        else st) : RunState).summary = st.summary := by
    intro st
    split <;> rfl
  unfold asignar_profesores_clases
  simp only [hcl2]
  refine ⟨_, _, _, _, rfl, ?_, ?_, ?_, ?_⟩
  · rw [h5]
    exact hfour.1
  · rw [h5]
    exact hfour.2.1
  · rw [h5]
    exact hfour.2.2.1
  · rw [h5]
    exact hfour.2.2.2

/-- C2 (amended): after a failure-free apply-mode run, running the reconciler
again with the same spreadsheet input against the remote state the first run
left behind produces zero new class assignments, zero removals and zero estado
activations or inactivations on the second run, for every removal flag and
progress-callback configuration (the level-sync phase is exempt: it consults no
observed value and re-issues its assignments every run). -/
theorem C2_second_run_no_new_actions (docentes docentesEstado : List Docente)
    (invalidos : Nat) (remote : Remote) (rm oP : Bool) (s1 : Summary)
    (w1 : List String) (e1 : List ApiError) (remote1 : Remote)
    (h1 : asignar_profesores_clases docentes docentesEstado invalidos remote
      noFailures false rm oP = Except.ok (s1, w1, e1, remote1)) :
    ∃ s2 w2 e2 r2,
      asignar_profesores_clases docentes docentesEstado invalidos remote1 noFailures
        false rm oP = Except.ok (s2, w2, e2, r2) ∧
      s2.asignaciones_nuevas = 0 ∧ s2.eliminaciones = 0 ∧
      s2.estado_activaciones = 0 ∧ s2.estado_inactivaciones = 0 := by
  unfold asignar_profesores_clases at h1
  simp only [] at h1
  cases hcl : (preClasesState docentes docentesEstado invalidos remote noFailures
      false).remote.clases with
  | error msg =>
      simp only [hcl] at h1
      exact Except.noConfusion h1
  | ok cf =>
      simp only [hcl] at h1
      have h2 := Except.ok.inj h1
      simp only [Prod.mk.injEq] at h2
      obtain ⟨hs1, hw1, he1, hrem⟩ := h2
      have hR : ∀ st : RunState,
          ((if st.summary.docentes_procesados = 0 then
              { st with warnings := st.warnings ++
                  ["No se encontraron docentes validos en el Excel."] }
            else st) : RunState).remote = st.remote := by
        intro st
        split <;> rfl
      rw [hR] at hrem
      obtain ⟨hc1, hp1, hd1⟩ :=
        preClasesState_empties docentes docentesEstado invalidos remote noFailures false
      have hclases1 : remote1.clases = Except.ok cf := by
        rw [← hrem, clasesAndRemoval_clases]
        exact hcl
      have hact1 : remote1.activos = (preClasesState docentes docentesEstado invalidos
          remote noFailures false).remote.activos := by
        rw [← hrem, clasesAndRemoval_activos]
      have hpre_act : ∀ p d, (p, d) ∈
          (collect_estado (docentesEstado.map
            (fun d2 => (some d2.personaId, d2.estado)))).1 →
          ∀ n, n ∈ (alookup (collect_niveles_por_persona docentesEstado) p).getD [] →
            (preClasesState docentes docentesEstado invalidos remote noFailures
              false).remote.activos n p = some d := by
        intro p d hmem n hn
        unfold preClasesState
        simp only []
        rw [if_neg (show ¬(collect_estado (docentesEstado.map
            (fun d2 => (some d2.personaId, d2.estado)))).1 = [] from fun hcon => by
          rw [hcon] at hmem
          exact absurd hmem (List.not_mem_nil _))]
        exact estadoPhase_activos _ _ _ (collect_estado_keys_nodup _)
          (collect_niveles_vals_nodup _) p d hmem n hn
      have hall1 : ∀ p d, (p, d) ∈
          (collect_estado (docentesEstado.map
            (fun d2 => (some d2.personaId, d2.estado)))).1 →
          ∀ n, n ∈ (alookup (collect_niveles_por_persona docentesEstado) p).getD [] →
            remote1.activos n p = some d := by
        intro p d hmem n hn
        rw [hact1]
        exact hpre_act p d hmem n hn
      unfold clasesAndRemoval at hrem
      simp only [] at hrem
      by_cases hw : cf.2 ≠ 0
      · rw [if_pos hw] at hrem
        have hstaffF := removalRun_staff rm oP
          (docentes.map (fun d => (d, match_clases d (List.insertionSort claseLe cf.1))))
          { preClasesState docentes docentesEstado invalidos remote noFailures false with
            warnings := (preClasesState docentes docentesEstado invalidos remote
                noFailures false).warnings ++
              ["Clases ignoradas por sufijo no reconocido: " ++ toString cf.2 ++ "."] }
          hc1 hp1 hd1
        rw [hrem] at hstaffF
        exact secondRun_zero docentes docentesEstado invalidos remote1 rm oP cf
          hclases1 hstaffF.1 hstaffF.2 hall1
      · rw [if_neg hw] at hrem
        have hstaffF := removalRun_staff rm oP
          (docentes.map (fun d => (d, match_clases d (List.insertionSort claseLe cf.1))))
          (preClasesState docentes docentesEstado invalidos remote noFailures false)
          hc1 hp1 hd1
        rw [hrem] at hstaffF
        exact secondRun_zero docentes docentesEstado invalidos remote1 rm oP cf
          hclases1 hstaffF.1 hstaffF.2 hall1

/-- C2-witness: the second-run theorem applied to a concrete failure-free
apply-mode run — re-running against the remote state the first run left behind
yields zero add, remove and estado actions. -/
theorem C2_second_run_no_new_actions_witness :
    ∃ s2 w2 e2 r2,
      asignar_profesores_clases [docenteM] [] 0
        (runRemote (asignar_profesores_clases [docenteM] [] 0 remoteM noFailures false
          true true) remoteM)
        noFailures false true true = Except.ok (s2, w2, e2, r2) ∧
      s2.asignaciones_nuevas = 0 ∧ s2.eliminaciones = 0 ∧
      s2.estado_activaciones = 0 ∧ s2.estado_inactivaciones = 0 := by
  obtain ⟨s1, w1, e1, r1, hok⟩ :
      ∃ s w e r, asignar_profesores_clases [docenteM] [] 0 remoteM noFailures false
        true true = Except.ok (s, w, e, r) := ⟨_, _, _, _, rfl⟩
  rw [show runRemote (asignar_profesores_clases [docenteM] [] 0 remoteM noFailures
    false true true) remoteM = r1 from by
      rw [hok]
      rfl]
  exact C2_second_run_no_new_actions [docenteM] [] 0 remoteM true true s1 w1 e1 r1 hok

end Santillana
